import Mathlib

/-!
Verification of the robot-control gateway backend against its design
specification.  The Python sources under `backend/` are shallowly embedded:
pure functions become Lean functions, stateful handlers become explicit
state-passing functions, machine integers become `Nat`/`Int`, and fallible
code returns `Except`/`Option`.  Each claim of the specification is stated
and settled as a theorem about these definitions.
-/

/-! ## Dynamic values

Python values that travel through the system (reply dicts, method results,
JSON payloads) are modelled by a single inductive type.  Numbers are
modelled as integers; dictionaries as association lists in insertion order,
which is how CPython dicts behave. -/

inductive Val where
  | none
  | bool (b : Bool)
  | int (n : Int)
  | str (s : String)
  | list (xs : List Val)
  | dict (entries : List (String × Val))
  deriving Repr

/-- Association-list lookup, first match wins (models Python dict access
on the reply dictionaries we build, whose keys are distinct). -/
def alistLookup {α : Type} (k : String) : List (String × α) → Option α
  | [] => Option.none
  | (k', v) :: rest => if k = k' then some v else alistLookup k rest

/-! ## utils/error_codes.py -/

namespace ErrorCodes

/-- `ErrorCode` enumeration from `utils/error_codes.py`. -/
inductive ErrorCode where
  | CONNECTION_REJECTED
  | CONNECTION_LIMIT_REACHED
  | AUTH_TOKEN_MISSING
  | AUTH_TOKEN_INVALID
  | AUTH_TOKEN_EXPIRED
  | PROTOCOL_INVALID_FORMAT
  | PROTOCOL_MISSING_FIELD
  | PROTOCOL_UNKNOWN_COMMAND
  | PROTOCOL_INVALID_PARAMS
  | PROJECT_UPLOAD_FAILED
  | PROJECT_INVALID_FORMAT
  | PROJECT_LOAD_FAILED
  | PROJECT_NOT_FOUND
  | PROJECT_SECURITY_VIOLATION
  | EXECUTION_FAILED
  | METHOD_NOT_FOUND
  | OBJECT_NOT_FOUND
  | MODULE_LOAD_ERROR
  | INTERNAL_ERROR
  | UNKNOWN_ERROR
  deriving Repr, BEq, DecidableEq

open ErrorCode

/-- The string value of each error code (the enum is a `str` enum). -/
def ErrorCode.value : ErrorCode → String
  | CONNECTION_REJECTED => "00001"
  | CONNECTION_LIMIT_REACHED => "00002"
  | AUTH_TOKEN_MISSING => "00010"
  | AUTH_TOKEN_INVALID => "00011"
  | AUTH_TOKEN_EXPIRED => "00012"
  | PROTOCOL_INVALID_FORMAT => "01001"
  | PROTOCOL_MISSING_FIELD => "01002"
  | PROTOCOL_UNKNOWN_COMMAND => "01003"
  | PROTOCOL_INVALID_PARAMS => "01004"
  | PROJECT_UPLOAD_FAILED => "02001"
  | PROJECT_INVALID_FORMAT => "02002"
  | PROJECT_LOAD_FAILED => "02003"
  | PROJECT_NOT_FOUND => "02004"
  | PROJECT_SECURITY_VIOLATION => "02005"
  | EXECUTION_FAILED => "03001"
  | METHOD_NOT_FOUND => "03002"
  | OBJECT_NOT_FOUND => "03003"
  | MODULE_LOAD_ERROR => "03004"
  | INTERNAL_ERROR => "99001"
  | UNKNOWN_ERROR => "99999"

/-- The band of a code: its first two digits (`02` for project/security,
and so on). -/
def ErrorCode.band (c : ErrorCode) : String := String.mk (c.value.toList.take 2)

/-- Default human message per code (`ERROR_MESSAGES`); the Chinese text is
abbreviated to an ASCII tag, its identity is all the claims use. -/
def ERROR_MESSAGES (c : ErrorCode) : String := "default message for " ++ c.value

/-- A reply is a Python dict; modelled as an association list in key
insertion order. -/
abbrev Reply := List (String × Val)

/-- `create_error_response` from `utils/error_codes.py`. -/
def create_error_response (code : ErrorCode) (custom : Option String := Option.none)
    (data : List (String × Val) := []) : Reply :=
  [("status", Val.str "error"),
   ("error_code", Val.str code.value),
   ("message", Val.str (custom.getD (ERROR_MESSAGES code))),
   ("data", Val.dict data)]

/-- `create_success_response` from `utils/error_codes.py`. -/
def create_success_response (message : String := "")
    (data : List (String × Val) := []) : Reply :=
  [("status", Val.str "success"),
   ("message", Val.str message),
   ("data", Val.dict data)]

end ErrorCodes

/-! ## Path helpers (`pathlib` behaviour used by the sources)

`Path(member).suffix`, `Path(member).parts` and the
`(extract_to / member).resolve().relative_to(extract_to)` idiom are
modelled on relative POSIX-style member names as stored in zip archives. -/

namespace PyPath

/-- Splitting a character list on `/` (structural version of
`str.split`, so the kernel can evaluate it). -/
def splitSlash : List Char → List (List Char)
  | [] => [[]]
  | c :: rest =>
    match splitSlash rest with
    | [] => [[c]]
    | g :: gs => if c = '/' then [] :: g :: gs else (c :: g) :: gs

/-- Whether a string starts with a given character. -/
def headIs (s : String) (c : Char) : Bool :=
  match s.toList with
  | [] => false
  | a :: _ => a = c

/-- The path components of a relative member name: `pathlib` collapses
spurious slashes and single dots. -/
def parts (member : String) : List String :=
  ((splitSlash member.toList).map String.mk).filter (fun p => p ≠ "" ∧ p ≠ ".")

/-- `PurePath.name`: the final path component. -/
def name (member : String) : String :=
  (parts member).getLast?.getD ""

/-- Index of the last dot of a character list, if any. -/
def lastDotIdx (cs : List Char) : Option Nat :=
  match cs with
  | [] => Option.none
  | c :: rest =>
    match lastDotIdx rest with
    | some i => some (i + 1)
    | Option.none => if c = '.' then some 0 else Option.none

/-- `PurePath.suffix`: the extension of the final component, empty when the
last dot is leading or trailing (CPython: `0 < i < len(name) - 1`). -/
def suffix (member : String) : String :=
  let n := (name member).toList
  match lastDotIdx n with
  | some i => if 0 < i ∧ i < n.length - 1 then String.mk (n.drop i) else ""
  | Option.none => ""

/-- ASCII lower-casing of one character (`str.lower` on the extensions
the sources compare). -/
def lowerChar (c : Char) : Char :=
  if 'A' ≤ c ∧ c ≤ 'Z' then Char.ofNat (c.toNat + 32) else c

/-- `str.lower`. -/
def lower (s : String) : String :=
  String.mk (s.toList.map lowerChar)

/-- Boolean prefix test on character lists. -/
def isPrefixB : List Char → List Char → Bool
  | [], _ => true
  | _ :: _, [] => false
  | a :: as, b :: bs => a = b && isPrefixB as bs

/-- Boolean infix test on character lists. -/
def isInfixB (pat : List Char) : List Char → Bool
  | [] => isPrefixB pat []
  | c :: rest => isPrefixB pat (c :: rest) || isInfixB pat rest

/-- Whether one string occurs inside another (`pattern in member`). -/
def containsSub (s pat : String) : Bool :=
  isInfixB pat.toList s.toList

/-- One step of the depth walk used to model `Path.resolve`. -/
def walkDepth : List String → Int → Bool
  | [], _ => false
  | p :: rest, depth =>
    if p = ".." then
      if depth ≤ 0 then true else walkDepth rest (depth - 1)
    else walkDepth rest (depth + 1)

/-- Whether `(extract_to / member).resolve()` escapes `extract_to`: an
absolute member replaces the root, and `..` components may pop above it.
The walk keeps a depth counter and reports an escape when it goes
negative. -/
def resolveEscapes (member : String) : Bool :=
  if headIs member '/' ∨ headIs member '\\' then true
  else walkDepth (parts member) 0

end PyPath

/-! ## worker/project_manager.py -/

namespace ProjectManager

open ErrorCodes

/-- `ProjectError(error_code, message)`. -/
structure ProjectError where
  error_code : ErrorCode
  message : String
  deriving Repr, BEq, DecidableEq

def MAX_ZIP_SIZE : Nat := 20 * 1024 * 1024
def MAX_UNCOMPRESSED_SIZE : Nat := 100 * 1024 * 1024
def MAX_FILES : Nat := 10

def ALLOWED_EXTENSIONS : List String :=
  [".py", ".txt", ".md", ".json", ".yaml", ".yml", ".ini", ".cfg", ".toml"]

/-- One `ZipInfo` member of the uploaded archive. -/
structure ZipEntry where
  filename : String
  isDir : Bool
  fileSize : Nat
  compressSize : Nat
  deriving Repr, BEq, DecidableEq

/-- The archive after base64 decoding: the byte length of the decoded blob
and the member table the `zipfile` module reports. -/
structure Archive where
  dataLen : Nat
  entries : List ZipEntry
  deriving Repr, BEq, DecidableEq

/-- Contents of a file inside `current/`: either the saved `project.zip`
blob or a file extracted from a named archive member. -/
inductive FileContent where
  | zipBlob (size : Nat)
  | fromMember (memberName : String)
  | seeded (tag : String)
  deriving Repr, BEq, DecidableEq

/-- The listing of the `current/` project directory. -/
abbrev Listing := List (String × FileContent)

/-- Filesystem state under `current/`: `none` when the directory does not
exist. -/
abbrev FS := Option Listing

/-- `_is_safe_path` from `project_manager.py`. -/
def _is_safe_path (member : String) : Bool :=
  -- 1. reject absolute paths
  if PyPath.headIs member '/' ∨ PyPath.headIs member '\\' then false
  -- 2. dangerous substrings
  else if PyPath.containsSub member ".." ∨ PyPath.containsSub member "~" ∨
      PyPath.containsSub member "$" then false
  -- 3. dangerous path components
  else if (PyPath.parts member).any
      (fun p => p = "." ∨ p = ".." ∨ PyPath.headIs p '~') then false
  -- 4. resolved target must stay inside the extraction root
  else if PyPath.resolveEscapes member then false
  else true

/-- The extension-whitelist test of the member loop: a violation is
recorded only when the suffix is non-empty and outside the whitelist. -/
def extViolation (e : ZipEntry) : Bool :=
  let ext := PyPath.lower (PyPath.suffix e.filename)
  ext ≠ "" ∧ ext ∉ ALLOWED_EXTENSIONS

/-- The compression-ratio test: flagged when `compress_size > 0` and
`file_size / compress_size > 100`. -/
def ratioViolation (e : ZipEntry) : Bool :=
  e.compressSize > 0 ∧ e.fileSize > 100 * e.compressSize

/-- The per-member validation of `_safe_extract` step 3, returning the
recorded error string if any (the three checks `continue` in this order). -/
def checkMember (e : ZipEntry) : Option String :=
  if e.isDir then Option.none
  else if extViolation e then some (e.filename ++ ": bad extension")
  else if !_is_safe_path e.filename then some (e.filename ++ ": unsafe path")
  else if ratioViolation e then some (e.filename ++ ": bad ratio")
  else Option.none

/-- Steps 1-4 of `_safe_extract`: member count, expanded size, and the
per-member loop; raises before anything is written. -/
def safeExtractChecks (a : Archive) : Except ProjectError Unit :=
  if a.entries.length > MAX_FILES then
    Except.error ⟨ErrorCode.PROJECT_INVALID_FORMAT, "too many files"⟩
  else if (a.entries.map (·.fileSize)).sum > MAX_UNCOMPRESSED_SIZE then
    Except.error ⟨ErrorCode.PROJECT_INVALID_FORMAT, "too large uncompressed"⟩
  else if a.entries.filterMap checkMember ≠ [] then
    Except.error ⟨ErrorCode.PROJECT_SECURITY_VIOLATION, "security problems found"⟩
  else Except.ok ()

/-- Step 5 of `_safe_extract`: the write loop with its redundant
double-check (`relative_to` on the resolved target).  Returns the files
written and the error, if the double-check fires mid-extraction. -/
def writeMembers (entries : List ZipEntry) : Listing × Option ProjectError :=
  go entries []
where
  go : List ZipEntry → Listing → Listing × Option ProjectError
  | [], acc => (acc, Option.none)
  | e :: rest, acc =>
    if e.isDir then go rest acc
    else if PyPath.resolveEscapes e.filename then
      (acc, some ⟨ErrorCode.PROJECT_SECURITY_VIOLATION, "path traversal detected"⟩)
    else go rest (acc ++ [(e.filename, FileContent.fromMember e.filename)])

/-- `_detect_project_type`: succeeds with `"python"` iff some file in the
tree has suffix `.py`. -/
def _detect_project_type (files : Listing) : Except ProjectError String :=
  if files.any (fun f => PyPath.suffix f.1 = ".py") then Except.ok "python"
  else Except.error ⟨ErrorCode.PROJECT_INVALID_FORMAT, "no Python files found"⟩

/-- `extract_project`, as a transition on the `current/` directory state.
Order of effects, as in the source: the compressed-size check, then
`rmtree` of the old project, `mkdir`, writing `project.zip`, then
`_safe_extract` (checks before writes), unlink of the zip, and type
detection. -/
def extract_project (fs : FS) (a : Archive) :
    FS × Except ProjectError (String × String) :=
  -- 1. compressed size check, before any filesystem mutation
  if a.dataLen > MAX_ZIP_SIZE then
    (fs, Except.error ⟨ErrorCode.PROJECT_INVALID_FORMAT, "zip too large"⟩)
  else
    -- clean old project, recreate the directory, save project.zip
    let fs1 : FS := some [("project.zip", FileContent.zipBlob a.dataLen)]
    match safeExtractChecks a with
    | Except.error e => (fs1, Except.error e)
    | Except.ok _ =>
      match writeMembers a.entries with
      | (written, some e) =>
        (some (("project.zip", FileContent.zipBlob a.dataLen) :: written), Except.error e)
      | (written, Option.none) =>
        -- project.zip is unlinked only after a successful extraction
        match _detect_project_type written with
        | Except.error e => (some written, Except.error e)
        | Except.ok ty => (some written, Except.ok ("current", ty))

/-- The §4.5 safety rules, as enumerated by the claim: oversize compressed
or expanded, too many members, disallowed extension, unsafe path,
compression ratio over 100:1. -/
def violates (a : Archive) : Prop :=
  a.dataLen > MAX_ZIP_SIZE ∨
  a.entries.length > MAX_FILES ∨
  (a.entries.map (·.fileSize)).sum > MAX_UNCOMPRESSED_SIZE ∨
  ∃ e ∈ a.entries, ¬e.isDir ∧
    (extViolation e = true ∨ _is_safe_path e.filename = false ∨ ratioViolation e = true)

instance (a : Archive) : Decidable (violates a) := by
  unfold violates
  exact inferInstance

end ProjectManager

/-! ## worker/python_executor.py — entry-file discovery -/

namespace PythonExecutor

/-- `_find_entry_file`: looks for `main.py`, then `__init__.py`, at the top
level of the project directory. -/
def _find_entry_file (files : ProjectManager.Listing) : Option String :=
  if files.any (fun f => f.1 = "main.py") then some "main.py"
  else if files.any (fun f => f.1 = "__init__.py") then some "__init__.py"
  else Option.none

end PythonExecutor

/-! ## Helper lemmas about archive validation -/

namespace ProjectManager

/-- A member with all three per-member checks clean and not a directory
passes `_is_safe_path`. -/
theorem checkMember_none_safe {e : ZipEntry} (hd : e.isDir = false)
    (h : checkMember e = Option.none) : _is_safe_path e.filename = true := by
  unfold checkMember at h
  rw [hd] at h
  simp only [Bool.false_eq_true, if_false] at h
  by_cases hext : extViolation e
  · simp [hext] at h
  · simp only [hext, if_false] at h
    by_cases hsafe : _is_safe_path e.filename
    · exact hsafe
    · simp [hsafe] at h

/-- A path accepted by `_is_safe_path` does not escape the extraction root
when resolved (the redundant double-check of the write loop). -/
theorem _is_safe_path_no_escape {m : String} (h : _is_safe_path m = true) :
    PyPath.resolveEscapes m = false := by
  unfold _is_safe_path at h
  split at h
  · exact absurd h (by simp)
  · split at h
    · exact absurd h (by simp)
    · split at h
      · exact absurd h (by simp)
      · split at h
        · exact absurd h (by simp)
        · rename_i h4
          exact Bool.not_eq_true _ ▸ by simpa using h4

/-- The write loop on fully validated members writes every non-directory
member, in order, and reports no error. -/
theorem writeMembers_go_clean (entries : List ZipEntry) (acc : Listing)
    (h : ∀ e ∈ entries, e.isDir = false → PyPath.resolveEscapes e.filename = false) :
    writeMembers.go entries acc =
      (acc ++ (entries.filter (fun e => !e.isDir)).map
        (fun e => (e.filename, FileContent.fromMember e.filename)), Option.none) := by
  induction entries generalizing acc with
  | nil => simp [writeMembers.go]
  | cons e rest ih =>
    by_cases hd : e.isDir
    · rw [writeMembers.go, if_pos hd]
      rw [ih acc (fun x hx => h x (List.mem_cons_of_mem _ hx))]
      simp [hd]
    · have hesc := h e (List.mem_cons_self _ _) (by simpa using hd)
      rw [writeMembers.go, if_neg hd, hesc]
      simp only [if_false, Bool.false_eq_true]
      rw [ih _ (fun x hx => h x (List.mem_cons_of_mem _ hx))]
      simp [hd]

/-- `writeMembers` on fully validated members. -/
theorem writeMembers_clean (entries : List ZipEntry)
    (h : ∀ e ∈ entries, checkMember e = Option.none) :
    writeMembers entries =
      ((entries.filter (fun e => !e.isDir)).map
        (fun e => (e.filename, FileContent.fromMember e.filename)), Option.none) := by
  unfold writeMembers
  rw [writeMembers_go_clean entries []]
  · simp
  · intro e he hd
    exact _is_safe_path_no_escape (checkMember_none_safe hd (h e he))

/-- Any §4.5 violation makes `safeExtractChecks` fail with a `02xxx`
code, provided the compressed blob itself was small enough to reach it. -/
theorem safeExtractChecks_error_of_violation {a : Archive}
    (hz : a.dataLen ≤ MAX_ZIP_SIZE) (h : violates a) :
    ∃ msg, (safeExtractChecks a =
        Except.error ⟨ErrorCodes.ErrorCode.PROJECT_INVALID_FORMAT, msg⟩) ∨
      (safeExtractChecks a =
        Except.error ⟨ErrorCodes.ErrorCode.PROJECT_SECURITY_VIOLATION, msg⟩) := by
  unfold safeExtractChecks
  by_cases h1 : a.entries.length > MAX_FILES
  · exact ⟨"too many files", Or.inl (by rw [if_pos h1])⟩
  · rw [if_neg h1]
    by_cases h2 : (a.entries.map (·.fileSize)).sum > MAX_UNCOMPRESSED_SIZE
    · exact ⟨"too large uncompressed", Or.inl (by rw [if_pos h2])⟩
    · rw [if_neg h2]
      have h3 : a.entries.filterMap checkMember ≠ [] := by
        rcases h with hz' | hc | hs | ⟨e, he, hd, hviol⟩
        · omega
        · exact absurd hc h1
        · exact absurd hs h2
        · have hd' : e.isDir = false := by simpa using hd
          have hsome : (checkMember e).isSome := by
            unfold checkMember
            rcases hviol with hv | hv | hv
            · simp [hv, hd']
            · by_cases hext : extViolation e
              · simp [hext, hd']
              · simp [hext, hv, hd']
            · by_cases hext : extViolation e
              · simp [hext, hd']
              · by_cases hsafe : _is_safe_path e.filename
                · simp [hext, hsafe, hv, hd']
                · simp [hext, hsafe, hd']
          intro hnil
          rcases Option.isSome_iff_exists.mp hsome with ⟨msg, hmsg⟩
          have : msg ∈ a.entries.filterMap checkMember :=
            List.mem_filterMap.mpr ⟨e, he, hmsg⟩
          rw [hnil] at this
          exact absurd this (List.not_mem_nil _)
      exact ⟨"security problems found", Or.inr (by rw [if_pos h3])⟩

end ProjectManager

/-! ## Claim C1 -/

/-- C1 counterexample: an archive whose only member has a disallowed
extension violates §4.5, yet `update`'s extraction does modify the
filesystem under `current/` — the prior project (a seeded `main.py`) is
deleted and replaced by a directory holding only the uploaded
`project.zip`.  The reply does carry the `02005` code. -/
theorem extract_project_clears_current_on_violating_archive :
    ProjectManager.violates ⟨100, [⟨"evil.exe", false, 10, 10⟩]⟩ ∧
    (ProjectManager.extract_project
        (some [("main.py", ProjectManager.FileContent.seeded "prior")])
        ⟨100, [⟨"evil.exe", false, 10, 10⟩]⟩).1 ≠
      some [("main.py", ProjectManager.FileContent.seeded "prior")] ∧
    (ProjectManager.extract_project
        (some [("main.py", ProjectManager.FileContent.seeded "prior")])
        ⟨100, [⟨"evil.exe", false, 10, 10⟩]⟩).2 =
      Except.error ⟨ErrorCodes.ErrorCode.PROJECT_SECURITY_VIOLATION,
        "security problems found"⟩ :=
  ⟨by decide, by decide, by rfl⟩

/-- C1 amended: every archive violating a §4.5 safety rule makes the
update reply an error carrying a `02xxx` code, and no archive member is
ever extracted; but only the compressed-size check precedes filesystem
mutation — when the violation is detected after the blob is decoded
within bounds, the prior `current/` directory has already been deleted
and replaced by one holding only the saved `project.zip`. -/
theorem extract_project_violation_characterized
    (fs : ProjectManager.FS) (a : ProjectManager.Archive)
    (h : ProjectManager.violates a) :
    (∃ pe, (ProjectManager.extract_project fs a).2 = Except.error pe ∧
      pe.error_code.band = "02") ∧
    (a.dataLen > ProjectManager.MAX_ZIP_SIZE →
      (ProjectManager.extract_project fs a).1 = fs) ∧
    (a.dataLen ≤ ProjectManager.MAX_ZIP_SIZE →
      (ProjectManager.extract_project fs a).1 =
        some [("project.zip", ProjectManager.FileContent.zipBlob a.dataLen)]) := by
  by_cases hz : a.dataLen > ProjectManager.MAX_ZIP_SIZE
  · refine ⟨⟨⟨ErrorCodes.ErrorCode.PROJECT_INVALID_FORMAT, "zip too large"⟩, ?_, by decide⟩,
      fun _ => ?_, fun hle => absurd hz (by omega)⟩
    · unfold ProjectManager.extract_project
      rw [if_pos hz]
    · unfold ProjectManager.extract_project
      rw [if_pos hz]
  · have hle : a.dataLen ≤ ProjectManager.MAX_ZIP_SIZE := by omega
    obtain ⟨msg, hcase⟩ := ProjectManager.safeExtractChecks_error_of_violation hle h
    refine ⟨?_, fun hgt => absurd hgt hz, fun _ => ?_⟩
    · rcases hcase with hc | hc
      · exact ⟨⟨ErrorCodes.ErrorCode.PROJECT_INVALID_FORMAT, msg⟩,
          by unfold ProjectManager.extract_project; rw [if_neg hz, hc], rfl⟩
      · exact ⟨⟨ErrorCodes.ErrorCode.PROJECT_SECURITY_VIOLATION, msg⟩,
          by unfold ProjectManager.extract_project; rw [if_neg hz, hc], rfl⟩
    · rcases hcase with hc | hc <;>
        (unfold ProjectManager.extract_project; rw [if_neg hz, hc])

/-- Witness for `extract_project_violation_characterized` at a concrete
violating archive. -/
theorem extract_project_violation_characterized_witness :
    ProjectManager.violates ⟨100, [⟨"evil.exe", false, 10, 10⟩]⟩ ∧
    ((∃ pe, (ProjectManager.extract_project Option.none
        ⟨100, [⟨"evil.exe", false, 10, 10⟩]⟩).2 = Except.error pe ∧
      pe.error_code.band = "02") ∧
    ((100 : Nat) > ProjectManager.MAX_ZIP_SIZE →
      (ProjectManager.extract_project Option.none
        ⟨100, [⟨"evil.exe", false, 10, 10⟩]⟩).1 = Option.none) ∧
    ((100 : Nat) ≤ ProjectManager.MAX_ZIP_SIZE →
      (ProjectManager.extract_project Option.none
        ⟨100, [⟨"evil.exe", false, 10, 10⟩]⟩).1 =
        some [("project.zip", ProjectManager.FileContent.zipBlob 100)])) :=
  ⟨by decide, extract_project_violation_characterized Option.none _ (by decide)⟩

/-! ## Claim C9 -/

/-- C9 counterexample: a directory holding only `foo.py` has no entry
file (`main.py` / `__init__.py`), yet kind detection succeeds with the
scripted kind, because `_detect_project_type` accepts any `.py` file
anywhere in the tree. -/
theorem detect_project_type_succeeds_without_entry_file :
    ProjectManager._detect_project_type
        [("foo.py", ProjectManager.FileContent.seeded "src")] = Except.ok "python" ∧
    PythonExecutor._find_entry_file
        [("foo.py", ProjectManager.FileContent.seeded "src")] = Option.none :=
  ⟨by rfl, by rfl⟩

/-- C9 amended: kind detection succeeds (returning the scripted kind)
iff the directory contains at least one file with suffix `.py` anywhere
in its tree, and fails with `02002` otherwise; a directory with an entry
file is in particular accepted, but entry-file presence is only checked
later, by the executor's `_find_entry_file`. -/
theorem detect_project_type_characterized (files : ProjectManager.Listing) :
    (ProjectManager._detect_project_type files = Except.ok "python" ↔
      ∃ f ∈ files, PyPath.suffix f.1 = ".py") ∧
    ((¬ ∃ f ∈ files, PyPath.suffix f.1 = ".py") →
      ProjectManager._detect_project_type files =
        Except.error ⟨ErrorCodes.ErrorCode.PROJECT_INVALID_FORMAT, "no Python files found"⟩) ∧
    (PythonExecutor._find_entry_file files ≠ Option.none →
      ProjectManager._detect_project_type files = Except.ok "python") := by
  have hany : files.any (fun f => PyPath.suffix f.1 = ".py") = true ↔
      ∃ f ∈ files, PyPath.suffix f.1 = ".py" := by
    simp [List.any_eq_true]
  refine ⟨?_, ?_, ?_⟩
  · constructor
    · intro h
      by_cases hc : files.any (fun f => PyPath.suffix f.1 = ".py")
      · exact hany.mp hc
      · unfold ProjectManager._detect_project_type at h
        rw [if_neg (by simpa using hc)] at h
        exact absurd h (by simp)
    · intro h
      unfold ProjectManager._detect_project_type
      rw [if_pos (by simpa using hany.mpr h)]
  · intro h
    have hfalse : files.any (fun f => PyPath.suffix f.1 = ".py") = false := by
      cases hb : files.any (fun f => PyPath.suffix f.1 = ".py")
      · rfl
      · exact absurd (hany.mp hb) h
    unfold ProjectManager._detect_project_type
    rw [if_neg (by simp [hfalse])]
  · intro h
    have hpy : ∃ f ∈ files, PyPath.suffix f.1 = ".py" := by
      unfold PythonExecutor._find_entry_file at h
      by_cases hm : files.any (fun f => f.1 = "main.py")
      · obtain ⟨f, hf, hname⟩ := List.any_eq_true.mp hm
        refine ⟨f, hf, ?_⟩
        rw [decide_eq_true_eq.mp hname]
        rfl
      · by_cases hi : files.any (fun f => f.1 = "__init__.py")
        · obtain ⟨f, hf, hname⟩ := List.any_eq_true.mp hi
          refine ⟨f, hf, ?_⟩
          rw [decide_eq_true_eq.mp hname]
          rfl
        · rw [if_neg (by simpa using hm), if_neg (by simpa using hi)] at h
          exact absurd rfl h
    unfold ProjectManager._detect_project_type
    rw [if_pos (by simpa using hany.mpr hpy)]

/-- Witness for `detect_project_type_characterized` on a directory whose
only file is a top-level `main.py`. -/
theorem detect_project_type_characterized_witness :
    ProjectManager._detect_project_type
        [("main.py", ProjectManager.FileContent.seeded "src")] = Except.ok "python" :=
  (detect_project_type_characterized
    [("main.py", ProjectManager.FileContent.seeded "src")]).2.2 (by decide)

/-! ## Claim C10 -/

/-- C10: the whitelist records a violation only for a non-empty suffix
outside the allowed set, so a member with no extension passes the
extension check; and when the whole archive validates, such a member is
written to `current/` during extraction. -/
theorem extensionless_member_validated_and_extracted
    (a : ProjectManager.Archive) (fs : ProjectManager.FS) (e : ProjectManager.ZipEntry)
    (he : e ∈ a.entries) (hd : e.isDir = false)
    (hsuf : PyPath.suffix e.filename = "")
    (hall : ∀ x ∈ a.entries, ProjectManager.checkMember x = Option.none)
    (hz : a.dataLen ≤ ProjectManager.MAX_ZIP_SIZE)
    (hcount : a.entries.length ≤ ProjectManager.MAX_FILES)
    (hsize : (a.entries.map (·.fileSize)).sum ≤ ProjectManager.MAX_UNCOMPRESSED_SIZE) :
    ProjectManager.extViolation e = false ∧
    ∃ written, (ProjectManager.extract_project fs a).1 = some written ∧
      (e.filename, ProjectManager.FileContent.fromMember e.filename) ∈ written := by
  constructor
  · unfold ProjectManager.extViolation
    rw [hsuf]
    decide
  · have hok : ProjectManager.safeExtractChecks a = Except.ok () := by
      unfold ProjectManager.safeExtractChecks
      rw [if_neg (by omega), if_neg (by omega), if_neg (by simp [List.filterMap_eq_nil_iff.mpr hall])]
    have hwm := ProjectManager.writeMembers_clean a.entries hall
    refine ⟨(a.entries.filter (fun x => !x.isDir)).map
      (fun x => (x.filename, ProjectManager.FileContent.fromMember x.filename)), ?_, ?_⟩
    · unfold ProjectManager.extract_project
      rw [if_neg (by omega), hok]
      simp only
      rw [hwm]
      cases hdet : ProjectManager._detect_project_type
          ((a.entries.filter (fun x => !x.isDir)).map
            (fun x => (x.filename, ProjectManager.FileContent.fromMember x.filename))) <;>
        simp [hdet]
    · exact List.mem_map.mpr ⟨e, List.mem_filter.mpr ⟨he, by simp [hd]⟩, rfl⟩

/-- Witness for `extensionless_member_validated_and_extracted`: an archive
holding an extensionless `Makefile` next to `main.py` validates, and the
extensionless file is written. -/
theorem extensionless_member_validated_and_extracted_witness :
    (⟨"Makefile", false, 5, 5⟩ : ProjectManager.ZipEntry) ∈
      ([⟨"Makefile", false, 5, 5⟩, ⟨"main.py", false, 6, 6⟩] :
        List ProjectManager.ZipEntry) ∧
    (ProjectManager.extViolation ⟨"Makefile", false, 5, 5⟩ = false ∧
    ∃ written,
      (ProjectManager.extract_project Option.none
        ⟨50, [⟨"Makefile", false, 5, 5⟩, ⟨"main.py", false, 6, 6⟩]⟩).1 = some written ∧
      ("Makefile", ProjectManager.FileContent.fromMember "Makefile") ∈ written) :=
  ⟨List.mem_cons_self _ _,
    extensionless_member_validated_and_extracted
      ⟨50, [⟨"Makefile", false, 5, 5⟩, ⟨"main.py", false, 6, 6⟩]⟩ Option.none
      ⟨"Makefile", false, 5, 5⟩ (List.mem_cons_self _ _) (by decide) (by decide)
      (by intro x hx; fin_cases hx <;> rfl) (by decide) (by decide) (by decide)⟩

/-! ## worker/python_executor.py — dynamic dispatch

User code is dynamic Python; its observable surface is modelled by
immutable values: an object exposes named methods (each with its
`callable` status and a call outcome) and may itself be callable; a
module attribute is either a class (whose zero-argument instantiation
yields an object or raises) or a plain value. -/

namespace PythonExecutor

/-- A named attribute of an object as used by dispatch: its `callable`
status and the outcome of invoking it with keyword arguments
(`Except.error` models a raised exception carrying `str(e)`). -/
structure PyMethod where
  callableFlag : Bool
  call : List (String × Val) → Except String Val

/-- A live Python object: its method table, and the call behaviour of the
object itself, when it is callable. -/
structure PyObject where
  attrs : List (String × PyMethod)
  callSelf : Option (List (String × Val) → Except String Val)

/-- An attribute of the loaded entry module: a class (zero-argument
instantiation may raise) or an already-constructed value. -/
inductive ModAttr where
  | cls (instantiate : Except String PyObject)
  | inst (obj : PyObject)

/-- The executor state: the instance context, the loaded entry module's
attribute table (`none` when no module is loaded), and the snapshot of
`sys.modules` taken before the load (`self.loaded_modules`). -/
structure Executor where
  context : List (String × PyObject)
  module : Option (List (String × ModAttr))
  loaded_modules : List String

/-- `_get_object`: context first; else a module attribute — a class is
instantiated and memoized, a plain value memoized as-is; otherwise an
`AttributeError` is raised. -/
def _get_object (ex : Executor) (obj_name : String) :
    Executor × Except String PyObject :=
  match alistLookup obj_name ex.context with
  | some obj => (ex, Except.ok obj)
  | Option.none =>
    match ex.module with
    | some attrs =>
      match alistLookup obj_name attrs with
      | some (ModAttr.cls inst) =>
        match inst with
        | Except.ok obj =>
          ({ ex with context := ex.context ++ [(obj_name, obj)] }, Except.ok obj)
        | Except.error e => (ex, Except.error e)
      | some (ModAttr.inst obj) =>
        ({ ex with context := ex.context ++ [(obj_name, obj)] }, Except.ok obj)
      | Option.none =>
        (ex, Except.error ("Object " ++ obj_name ++ " not found in context or module"))
    | Option.none =>
      (ex, Except.error ("Object " ++ obj_name ++ " not found in context or module"))

/-- `call_function`: resolve object, resolve method, check callability,
invoke with keyword arguments; all exceptions become
`{status: error, message: str(e)}` — note that no `error_code` key is
ever attached on this path. -/
def call_function (ex : Executor) (obj_name method_name : String)
    (args : List (String × Val)) : Executor × ErrorCodes.Reply :=
  match _get_object ex obj_name with
  | (ex1, Except.error e) =>
    (ex1, [("status", Val.str "error"), ("message", Val.str e)])
  | (ex1, Except.ok obj) =>
    match alistLookup method_name obj.attrs with
    | Option.none =>
      (ex1, [("status", Val.str "error"),
        ("message", Val.str ("Object " ++ obj_name ++ " has no method " ++ method_name))])
    | some m =>
      if m.callableFlag then
        match m.call args with
        | Except.ok r => (ex1, [("status", Val.str "success"), ("result", r)])
        | Except.error e =>
          (ex1, [("status", Val.str "error"), ("message", Val.str e)])
      else
        (ex1, [("status", Val.str "error"),
          ("message", Val.str (obj_name ++ "." ++ method_name ++ " is not callable"))])

/-- Calling a module attribute directly (`self.module.stop()`): a plain
value is invoked through its own call behaviour (a `TypeError` when it is
not callable); calling a class constructs an instance. -/
def callModAttr : ModAttr → Except String Val
  | ModAttr.inst obj =>
    match obj.callSelf with
    | some f => f []
    | Option.none => Except.error "object is not callable"
  | ModAttr.cls inst =>
    match inst with
    | Except.ok _ => Except.ok Val.none
    | Except.error e => Except.error e

/-- One observed invocation of a user `stop()` hook. -/
inductive HookEvent where
  | moduleStop (outcome : Except String Val)
  | instStop (name : String) (outcome : Except String Val)

/-- `stop_threads`: best-effort stop protocol — the module-level `stop()`
if defined, then each context instance's `stop()` if defined and
callable.  Every failure is caught and logged; no state is mutated. -/
def stop_threads (ex : Executor) : Executor × List HookEvent :=
  let moduleEvents : List HookEvent :=
    match ex.module with
    | some attrs =>
      match alistLookup "stop" attrs with
      | some a => [HookEvent.moduleStop (callModAttr a)]
      | Option.none => []
    | Option.none => []
  let instEvents : List HookEvent :=
    ex.context.filterMap (fun p =>
      match alistLookup "stop" p.2.attrs with
      | some m =>
        if m.callableFlag then some (HookEvent.instStop p.1 (m.call [])) else Option.none
      | Option.none => Option.none)
  (ex, moduleEvents ++ instEvents)

end PythonExecutor

/-! ## worker/worker.py -/

namespace Worker

open ErrorCodes
open PythonExecutor

/-- The data of a `process` command (`object`/`method` are `none` when the
field is missing or falsy). -/
structure ProcessData where
  object : Option String
  method : Option String
  args : List (String × Val)

/-- An inbound command message (`{type, data}`); the `update` payload is
`none` when `zip_data` is missing or empty. -/
inductive Command where
  | update (zipData : Option ProjectManager.Archive)
  | start
  | process (data : ProcessData)
  | clientDisconnected (sid : String)
  | unknown (ty : String)

/-- The Worker's mutable state.  `moduleEnv` stands for the user code on
disk: the attribute table that importing the entry module would produce,
or the exception the import/`init()` would raise — it is an input of the
model, not something the Worker computes. -/
structure WorkerState where
  hasLoadedProject : Bool
  shouldRestart : Bool
  currentProjectPath : Option String
  currentProjectType : Option String
  executor : Option Executor
  fs : ProjectManager.FS
  defaultFs : ProjectManager.FS
  sysModules : List String
  moduleEnv : Except String (List (String × ModAttr))

/-- Registering the entry module in `sys.modules` on import. -/
def addMain (mods : List String) : List String :=
  if "main" ∈ mods then mods else mods ++ ["main"]

/-- `_try_load_default_project_on_init`: seed `current/` from `default/`
when empty, then detect and load; every failure is logged and swallowed.
A failed `load()` leaves a constructed executor with no module. -/
def _try_load_default_project (s : WorkerState) : WorkerState :=
  let s :=
    if (s.fs = Option.none ∨ s.fs = some []) ∧ s.defaultFs.isSome then
      { s with fs := s.defaultFs }
    else s
  match s.fs with
  | some files =>
    if files = [] then s
    else
      match ProjectManager._detect_project_type files with
      | Except.ok ty =>
        if ty ≠ "python" then s
        else
        let s1 := { s with currentProjectPath := some "current",
                           currentProjectType := some ty }
        match s1.moduleEnv with
        | Except.ok attrs =>
          { s1 with executor := some ⟨[], some attrs, s1.sysModules⟩,
                    sysModules := addMain s1.sysModules,
                    hasLoadedProject := true }
        | Except.error _ =>
          { s1 with executor := some ⟨[], Option.none, s1.sysModules⟩ }
      | Except.error _ => s
  | Option.none => s

/-- `_cleanup_executors`: `cleanup()` evicts the injected callable, clears
the context, pops entry modules added since the load from `sys.modules`,
and restores `sys.path`; then the executor reference is dropped. -/
def _cleanup_executors (s : WorkerState) : WorkerState :=
  match s.executor with
  | some ex =>
    { s with executor := Option.none,
             sysModules := s.sysModules.filter (fun m =>
               ¬((m = "main" ∨ PyPath.isPrefixB "main.".toList m.toList) ∧
                 m ∉ ex.loaded_modules)) }
  | Option.none => s

/-- `_handle_update`: note `need_restart` is read before cleanup, and the
restart flag is set only on the success path. -/
def _handle_update (s : WorkerState) (zipData : Option ProjectManager.Archive) :
    WorkerState × Reply :=
  let need_restart := s.hasLoadedProject
  let s := _cleanup_executors s
  match zipData with
  | Option.none =>
    (s, create_error_response ErrorCode.PROTOCOL_MISSING_FIELD (some "missing zip_data field"))
  | some a =>
    match ProjectManager.extract_project s.fs a with
    | (fs1, Except.error e) =>
      ({ s with fs := fs1 }, create_error_response e.error_code (some e.message))
    | (fs1, Except.ok (path, ty)) =>
      let s1 := { s with fs := fs1, currentProjectPath := some path,
                         currentProjectType := some ty }
      if need_restart then
        ({ s1 with shouldRestart := true },
         create_success_response "upload ok, worker will restart"
           [("project_type", Val.str ty)])
      else
        (s1, create_success_response "upload ok" [("project_type", Val.str ty)])

/-- The disk-recovery phase of `_handle_start`. -/
def recoverProject (s : WorkerState) :
    Except (WorkerState × Reply) WorkerState :=
  if s.currentProjectPath.isSome ∧ s.currentProjectType.isSome then Except.ok s
  else
    match s.fs with
    | some files =>
      if files = [] then
        Except.error (s, create_error_response ErrorCode.PROJECT_NOT_FOUND
          (some "no project found, upload first"))
      else
        match ProjectManager._detect_project_type files with
        | Except.ok ty =>
          Except.ok { s with currentProjectPath := some "current",
                             currentProjectType := some ty }
        | Except.error e =>
          Except.error (s, create_error_response e.error_code (some e.message))
    | Option.none =>
      Except.error (s, create_error_response ErrorCode.PROJECT_NOT_FOUND
        (some "no project found, upload first"))

/-- `_handle_start` with `_start_python_project` inlined: load the entry
module, and mark `has_loaded_project` only on success. -/
def _handle_start (s : WorkerState) : WorkerState × Reply :=
  match recoverProject s with
  | Except.error r => r
  | Except.ok s1 =>
    if s1.currentProjectType = some "python" then
      match s1.moduleEnv with
      | Except.ok attrs =>
        ({ s1 with executor := some ⟨[], some attrs, s1.sysModules⟩,
                   sysModules := addMain s1.sysModules,
                   hasLoadedProject := true },
         create_success_response "python project started")
      | Except.error _ =>
        ({ s1 with executor := Option.none },
         create_error_response ErrorCode.PROJECT_LOAD_FAILED (some "project start failed"))
    else
      (s1, create_error_response ErrorCode.PROJECT_INVALID_FORMAT
        (some "unsupported project type"))

/-- `_handle_process`: auto-load on a missing executor, `02004` when that
fails, type gate, field check, then dispatch through `call_function`,
whose reply is returned verbatim. -/
def _handle_process (s : WorkerState) (data : ProcessData) :
    WorkerState × Reply :=
  let s1 :=
    match s.executor with
    | Option.none => _try_load_default_project s
    | some _ => s
  match s1.executor with
  | Option.none => (s1, create_error_response ErrorCode.PROJECT_NOT_FOUND)
  | some ex =>
    if s1.currentProjectType ≠ some "python" then
      (s1, create_error_response ErrorCode.PROJECT_INVALID_FORMAT (some "only python supported"))
    else
      match data.object, data.method with
      | some o, some m =>
        let (ex1, reply) := call_function ex o m data.args
        ({ s1 with executor := some ex1 }, reply)
      | _, _ =>
        (s1, create_error_response ErrorCode.PROTOCOL_MISSING_FIELD
          (some "missing object or method field"))

/-- `_handle_client_disconnect`: stop user threads only; the reply is a
success even when hooks fail, and no executor state is evicted.  The
hook invocations are returned as observable events. -/
def _handle_client_disconnect (s : WorkerState) (_sid : String) :
    WorkerState × Reply × List HookEvent :=
  match s.executor with
  | some ex =>
    let r := stop_threads ex
    ({ s with executor := some r.1 },
     create_success_response "user threads stopped", r.2)
  | Option.none => (s, create_success_response "user threads stopped", [])

/-- `_handle_command`: dispatch on the command type. -/
def _handle_command (s : WorkerState) (c : Command) :
    WorkerState × Reply × List HookEvent :=
  match c with
  | Command.update zipData =>
    let r := _handle_update s zipData
    (r.1, r.2, [])
  | Command.start =>
    let r := _handle_start s
    (r.1, r.2, [])
  | Command.process d =>
    let r := _handle_process s d
    (r.1, r.2, [])
  | Command.clientDisconnected sid => _handle_client_disconnect s sid
  | Command.unknown ty =>
    (s, create_error_response ErrorCode.PROTOCOL_UNKNOWN_COMMAND
      (some ("unknown command type " ++ ty)), [])

/-- `Worker.run`'s command loop over a stream of inbound commands: each
command is handled and its reply sent; after sending, a set restart flag
breaks the loop (the process then exits with status 0).  Returns the
final state, the replies sent, and whether the loop exited to restart. -/
def runLoop : WorkerState → List Command → WorkerState × List Reply × Bool
  | s, [] => (s, [], false)
  | s, c :: rest =>
    let h := _handle_command s c
    if h.1.shouldRestart then (h.1, [h.2.1], true)
    else
      let r := runLoop h.1 rest
      (r.1, h.2.1 :: r.2.1, r.2.2)

end Worker

/-! ## Claim C2 -/

/-- A worker state with a loaded but empty user module, used as concrete
input by several claims. -/
def emptyModuleState : Worker.WorkerState :=
  { hasLoadedProject := true, shouldRestart := false,
    currentProjectPath := some "current", currentProjectType := some "python",
    executor := some ⟨[], some [], ["main"]⟩,
    fs := some [("main.py", ProjectManager.FileContent.seeded "src")],
    defaultFs := Option.none, sysModules := ["main"],
    moduleEnv := Except.error "import failed" }

/-- C2 counterexample: a `process` command whose object cannot be
resolved yields `{status: error, message: ...}` with **no** `error_code`
key at all — not an error with code `03003` as claimed.  The executor's
reply is returned verbatim by the worker's `process` handler. -/
theorem process_missing_object_reply_has_no_error_code :
    (Worker._handle_process emptyModuleState ⟨some "robot", some "move", []⟩).2 =
      [("status", Val.str "error"),
       ("message", Val.str "Object robot not found in context or module")] ∧
    alistLookup "error_code"
      (Worker._handle_process emptyModuleState ⟨some "robot", some "move", []⟩).2 =
      Option.none :=
  ⟨rfl, rfl⟩

/-- C2 amended: the three failure cases of dispatch are distinguished
only by the reply's `message` (missing object, missing method / not
callable, exception text); every such reply is
`{status: error, message}` and never carries an `error_code` field — the
`03001`/`03002`/`03003` codes are defined but unused on this path. -/
theorem call_function_failure_replies_characterized
    (ex : PythonExecutor.Executor) (o m : String) (args : List (String × Val)) :
    (∀ ex1 e, PythonExecutor._get_object ex o = (ex1, Except.error e) →
      PythonExecutor.call_function ex o m args =
        (ex1, [("status", Val.str "error"), ("message", Val.str e)])) ∧
    (∀ ex1 obj, PythonExecutor._get_object ex o = (ex1, Except.ok obj) →
      alistLookup m obj.attrs = Option.none →
      PythonExecutor.call_function ex o m args =
        (ex1, [("status", Val.str "error"),
          ("message", Val.str ("Object " ++ o ++ " has no method " ++ m))])) ∧
    (∀ ex1 obj pm e, PythonExecutor._get_object ex o = (ex1, Except.ok obj) →
      alistLookup m obj.attrs = some pm → pm.callableFlag = true →
      pm.call args = Except.error e →
      PythonExecutor.call_function ex o m args =
        (ex1, [("status", Val.str "error"), ("message", Val.str e)])) ∧
    alistLookup "error_code" (PythonExecutor.call_function ex o m args).2 =
      Option.none := by
  refine ⟨?_, ?_, ?_, ?_⟩
  · intro ex1 e hg
    simp only [PythonExecutor.call_function, hg]
  · intro ex1 obj hg hm
    simp only [PythonExecutor.call_function, hg, hm]
  · intro ex1 obj pm e hg hm hc hcall
    simp only [PythonExecutor.call_function, hg, hm, hc, if_true, hcall]
  · rcases hg : PythonExecutor._get_object ex o with ⟨ex1, res⟩
    cases res with
    | error e => simp [PythonExecutor.call_function, hg, alistLookup]
    | ok obj =>
      cases hm : alistLookup m obj.attrs with
      | none => simp [PythonExecutor.call_function, hg, hm, alistLookup]
      | some pm =>
        by_cases hc : pm.callableFlag = true
        · cases hcall : pm.call args with
          | ok r =>
            simp [PythonExecutor.call_function, hg, hm, hc, hcall, alistLookup]
          | error e =>
            simp [PythonExecutor.call_function, hg, hm, hc, hcall, alistLookup]
        · simp [PythonExecutor.call_function, hg, hm, hc, alistLookup]

/-- Witness for `call_function_failure_replies_characterized` at an
executor with an empty loaded module. -/
theorem call_function_failure_replies_witness :
    PythonExecutor.call_function ⟨[], some [], ["main"]⟩ "robot" "move" [] =
      (⟨[], some [], ["main"]⟩,
       [("status", Val.str "error"),
        ("message", Val.str "Object robot not found in context or module")]) :=
  (call_function_failure_replies_characterized ⟨[], some [], ["main"]⟩ "robot" "move" []).1
    ⟨[], some [], ["main"]⟩ "Object robot not found in context or module" rfl

/-! ## Claim C5 -/

/-- C5: on the success path the reply is `{status: success, result}`;
the object comes from the context when present (state unchanged), and
otherwise from the module's attributes, where a class is instantiated
with zero arguments and memoized in the context, and a plain value is
memoized as-is. -/
theorem call_function_success_characterized
    (ex ex1 : PythonExecutor.Executor) (o m : String) (args : List (String × Val))
    (obj : PythonExecutor.PyObject) (pm : PythonExecutor.PyMethod) (r : Val)
    (hg : PythonExecutor._get_object ex o = (ex1, Except.ok obj))
    (hm : alistLookup m obj.attrs = some pm)
    (hc : pm.callableFlag = true)
    (hr : pm.call args = Except.ok r) :
    PythonExecutor.call_function ex o m args =
      (ex1, [("status", Val.str "success"), ("result", r)]) ∧
    (∀ o0, alistLookup o ex.context = some o0 → obj = o0 ∧ ex1 = ex) ∧
    (alistLookup o ex.context = Option.none →
      ∀ attrs, ex.module = some attrs →
        (∀ inst, alistLookup o attrs = some (PythonExecutor.ModAttr.cls inst) →
          inst = Except.ok obj ∧ ex1.context = ex.context ++ [(o, obj)]) ∧
        (∀ o1, alistLookup o attrs = some (PythonExecutor.ModAttr.inst o1) →
          obj = o1 ∧ ex1.context = ex.context ++ [(o, obj)])) := by
  refine ⟨?_, ?_, ?_⟩
  · simp only [PythonExecutor.call_function, hg, hm, hc, if_true, hr]
  · intro o0 hctx
    unfold PythonExecutor._get_object at hg
    simp only [hctx] at hg
    simp only [Prod.mk.injEq, Except.ok.injEq] at hg
    exact ⟨hg.2.symm, hg.1.symm⟩
  · intro hctx attrs hmod
    unfold PythonExecutor._get_object at hg
    simp only [hctx, hmod] at hg
    constructor
    · intro inst hattr
      simp only [hattr] at hg
      cases hinst : inst with
      | ok obj1 =>
        simp only [hinst, Prod.mk.injEq, Except.ok.injEq] at hg
        obtain ⟨h1, h2⟩ := hg
        subst h2
        exact ⟨rfl, by rw [← h1]⟩
      | error e =>
        simp only [hinst, Prod.mk.injEq] at hg
        exact absurd hg.2 (by simp)
    · intro o1 hattr
      simp only [hattr, Prod.mk.injEq, Except.ok.injEq] at hg
      obtain ⟨h1, h2⟩ := hg
      subst h2
      exact ⟨rfl, by rw [← h1]⟩

/-- Witness for `call_function_success_characterized`: a module exposing
class `c` whose instance has a `greet` method returning `{r: "hi"}`; the
call succeeds and the instance is memoized. -/
theorem call_function_success_witness :
    PythonExecutor.call_function
      ⟨[], some [("c", PythonExecutor.ModAttr.cls (Except.ok
        ⟨[("greet", ⟨true, fun _ => Except.ok (Val.dict [("r", Val.str "hi")])⟩)],
         Option.none⟩))], ["main"]⟩
      "c" "greet" [] =
      (⟨[("c", ⟨[("greet", ⟨true, fun _ => Except.ok (Val.dict [("r", Val.str "hi")])⟩)],
          Option.none⟩)],
        some [("c", PythonExecutor.ModAttr.cls (Except.ok
          ⟨[("greet", ⟨true, fun _ => Except.ok (Val.dict [("r", Val.str "hi")])⟩)],
           Option.none⟩))], ["main"]⟩,
       [("status", Val.str "success"), ("result", Val.dict [("r", Val.str "hi")])]) :=
  (call_function_success_characterized
    ⟨[], some [("c", PythonExecutor.ModAttr.cls (Except.ok
      ⟨[("greet", ⟨true, fun _ => Except.ok (Val.dict [("r", Val.str "hi")])⟩)],
       Option.none⟩))], ["main"]⟩
    _ "c" "greet" [] _ _ _ rfl rfl rfl rfl).1

/-! ## Claim C4 -/

/-- C4 counterexample: with a previously loaded project
(`has_loaded_project` set), an `update` whose data lacks `zip_data`
replies with an error, does **not** set the restart flag, and the Worker
keeps serving further commands instead of exiting its loop. -/
theorem worker_no_restart_on_failed_update :
    emptyModuleState.hasLoadedProject = true ∧
    (Worker.runLoop emptyModuleState
      [Worker.Command.update Option.none,
       Worker.Command.clientDisconnected "sid"]).2.2 = false ∧
    ((Worker.runLoop emptyModuleState
      [Worker.Command.update Option.none,
       Worker.Command.clientDisconnected "sid"]).2.1).length = 2 ∧
    (Worker.runLoop emptyModuleState
      [Worker.Command.update Option.none,
       Worker.Command.clientDisconnected "sid"]).1.shouldRestart = false :=
  ⟨rfl, rfl, rfl, rfl⟩

/-- C4 amended: an `update` sets the restart flag exactly when a project
had previously been loaded **and** the update itself succeeds; when the
flag is set the Worker sends that one reply and exits its command loop
(then exiting the process with status 0), and otherwise the reply is
sent and the loop keeps serving the remaining commands. -/
theorem worker_update_restart_characterized
    (s : Worker.WorkerState) (d : Option ProjectManager.Archive)
    (rest : List Worker.Command) (h : s.shouldRestart = false) :
    ((Worker._handle_update s d).1.shouldRestart = true ↔
      s.hasLoadedProject = true ∧
      alistLookup "status" (Worker._handle_update s d).2 = some (Val.str "success")) ∧
    ((Worker._handle_update s d).1.shouldRestart = true →
      Worker.runLoop s (Worker.Command.update d :: rest) =
        ((Worker._handle_update s d).1, [(Worker._handle_update s d).2], true)) ∧
    ((Worker._handle_update s d).1.shouldRestart = false →
      (Worker.runLoop s (Worker.Command.update d :: rest)).2.1 =
        (Worker._handle_update s d).2 ::
          (Worker.runLoop (Worker._handle_update s d).1 rest).2.1 ∧
      (Worker.runLoop s (Worker.Command.update d :: rest)).2.2 =
        (Worker.runLoop (Worker._handle_update s d).1 rest).2.2) := by
  have hcl : (Worker._cleanup_executors s).shouldRestart = false ∧
      (Worker._cleanup_executors s).hasLoadedProject = s.hasLoadedProject := by
    unfold Worker._cleanup_executors
    cases hex : s.executor <;> simp [hex, h]
  refine ⟨?_, ?_, ?_⟩
  · cases d with
    | none =>
      have h1 : (Worker._handle_update s Option.none).1.shouldRestart = false := hcl.1
      have h2 : alistLookup "status" (Worker._handle_update s Option.none).2 =
          some (Val.str "error") := rfl
      rw [h1, h2]
      simp
    | some a =>
      rcases hres : ProjectManager.extract_project (Worker._cleanup_executors s).fs a
        with ⟨fs1, res⟩
      cases res with
      | error e =>
        have h1 : (Worker._handle_update s (some a)).1.shouldRestart = false := by
          unfold Worker._handle_update
          simp only [hres]
          exact hcl.1
        have h2 : alistLookup "status" (Worker._handle_update s (some a)).2 =
            some (Val.str "error") := by
          unfold Worker._handle_update
          simp only [hres]
          rfl
        rw [h1, h2]
        simp
      | ok pt =>
        rcases pt with ⟨path, ty⟩
        cases hL : s.hasLoadedProject with
        | true =>
          have h1 : (Worker._handle_update s (some a)).1.shouldRestart = true := by
            unfold Worker._handle_update
            simp only [hres, hL, if_true]
          have h2 : alistLookup "status" (Worker._handle_update s (some a)).2 =
              some (Val.str "success") := by
            unfold Worker._handle_update
            simp only [hres, hL, if_true]
            rfl
          rw [h1, h2]
          simp
        | false =>
          have h1 : (Worker._handle_update s (some a)).1.shouldRestart = false := by
            unfold Worker._handle_update
            simp only [hres, hL, if_false]
            exact hcl.1
          rw [h1]
          simp [hL]
  · intro hR
    have hR' : (Worker._handle_command s (Worker.Command.update d)).1.shouldRestart = true := hR
    simp only [Worker.runLoop, hR', if_true]
    rfl
  · intro hR
    have hR' : (Worker._handle_command s (Worker.Command.update d)).1.shouldRestart = false := hR
    constructor <;> simp only [Worker.runLoop, hR', if_false, Bool.false_eq_true] <;> rfl

/-- Witness for `worker_update_restart_characterized`: a successful
second upload on a loaded worker sets the flag and stops the loop after
one reply. -/
theorem worker_update_restart_witness :
    emptyModuleState.shouldRestart = false ∧
    ((Worker._handle_update emptyModuleState
        (some ⟨50, [⟨"main.py", false, 5, 5⟩]⟩)).1.shouldRestart = true →
      Worker.runLoop emptyModuleState
          [Worker.Command.update (some ⟨50, [⟨"main.py", false, 5, 5⟩]⟩),
           Worker.Command.clientDisconnected "sid"] =
        ((Worker._handle_update emptyModuleState
            (some ⟨50, [⟨"main.py", false, 5, 5⟩]⟩)).1,
         [(Worker._handle_update emptyModuleState
            (some ⟨50, [⟨"main.py", false, 5, 5⟩]⟩)).2], true)) ∧
    (Worker._handle_update emptyModuleState
        (some ⟨50, [⟨"main.py", false, 5, 5⟩]⟩)).1.shouldRestart = true :=
  ⟨rfl,
   (worker_update_restart_characterized emptyModuleState
     (some ⟨50, [⟨"main.py", false, 5, 5⟩]⟩)
     [Worker.Command.clientDisconnected "sid"] rfl).2.1,
   rfl⟩

/-! ## Claim C8 -/

/-- A context object whose `stop()` raises. -/
def stopObjA : PythonExecutor.PyObject :=
  ⟨[("stop", ⟨true, fun _ => Except.error "afail"⟩)], Option.none⟩

/-- A context object whose `stop()` succeeds. -/
def stopObjB : PythonExecutor.PyObject :=
  ⟨[("stop", ⟨true, fun _ => Except.ok Val.none⟩)], Option.none⟩

/-- An executor whose module `stop()` hook raises and whose context holds
both a failing and a succeeding instance hook. -/
def stopHookExec : PythonExecutor.Executor :=
  ⟨[("a", stopObjA), ("b", stopObjB)],
   some [("stop", PythonExecutor.ModAttr.inst ⟨[], some (fun _ => Except.error "boom")⟩)],
   ["main"]⟩

/-- A worker state carrying `stopHookExec`. -/
def stopHookState : Worker.WorkerState :=
  { hasLoadedProject := true, shouldRestart := false,
    currentProjectPath := some "current", currentProjectType := some "python",
    executor := some stopHookExec,
    fs := some [("main.py", ProjectManager.FileContent.seeded "src")],
    defaultFs := Option.none, sysModules := ["main"],
    moduleEnv := Except.error "import failed" }

/-- C8: `client_disconnected` leaves the whole worker state — executor
context, loaded module, module registry — unchanged, always replies with
a success, invokes the module-level `stop()` first if defined, and
invokes every context instance's callable `stop()`, failures
notwithstanding. -/
theorem client_disconnect_preserves_context
    (s : Worker.WorkerState) (sid : String) (ex : PythonExecutor.Executor)
    (hex : s.executor = some ex) :
    (Worker._handle_client_disconnect s sid).1 = s ∧
    (Worker._handle_client_disconnect s sid).2.1 =
      ErrorCodes.create_success_response "user threads stopped" ∧
    (∀ attrs a, ex.module = some attrs → alistLookup "stop" attrs = some a →
      ((Worker._handle_client_disconnect s sid).2.2).head? =
        some (PythonExecutor.HookEvent.moduleStop (PythonExecutor.callModAttr a))) ∧
    (∀ n obj pm, (n, obj) ∈ ex.context → alistLookup "stop" obj.attrs = some pm →
      pm.callableFlag = true →
      PythonExecutor.HookEvent.instStop n (pm.call []) ∈
        (Worker._handle_client_disconnect s sid).2.2) := by
  have hhc : Worker._handle_client_disconnect s sid =
      ({ s with executor := some ex },
       ErrorCodes.create_success_response "user threads stopped",
       (PythonExecutor.stop_threads ex).2) := by
    unfold Worker._handle_client_disconnect
    rw [hex]
    rfl
  refine ⟨?_, ?_, ?_, ?_⟩
  · rw [hhc, ← hex]
  · rw [hhc]
  · intro attrs a hmod ha
    rw [hhc]
    simp only [PythonExecutor.stop_threads, hmod, ha]
    rfl
  · intro n obj pm hmem hstop hc
    rw [hhc]
    simp only [PythonExecutor.stop_threads]
    apply List.mem_append_right
    exact List.mem_filterMap.mpr ⟨(n, obj), hmem, by simp [hstop, hc]⟩

/-- Witness for `client_disconnect_preserves_context`: the failing module
hook and failing instance hook do not prevent the succeeding instance
hook, the reply stays a success, and the state is untouched. -/
theorem client_disconnect_preserves_context_witness :
    (Worker._handle_client_disconnect stopHookState "sid").1 = stopHookState ∧
    ((Worker._handle_client_disconnect stopHookState "sid").2.2).head? =
      some (PythonExecutor.HookEvent.moduleStop (Except.error "boom")) ∧
    PythonExecutor.HookEvent.instStop "b" (Except.ok Val.none) ∈
      (Worker._handle_client_disconnect stopHookState "sid").2.2 :=
  ⟨(client_disconnect_preserves_context stopHookState "sid" stopHookExec rfl).1,
   (client_disconnect_preserves_context stopHookState "sid" stopHookExec rfl).2.2.1
     [("stop", PythonExecutor.ModAttr.inst ⟨[], some (fun _ => Except.error "boom")⟩)]
     (PythonExecutor.ModAttr.inst ⟨[], some (fun _ => Except.error "boom")⟩) rfl rfl,
   (client_disconnect_preserves_context stopHookState "sid" stopHookExec rfl).2.2.2
     "b" stopObjB ⟨true, fun _ => Except.ok Val.none⟩
     (List.Mem.tail _ (List.Mem.head _)) rfl rfl⟩

/-! ## ws_server/connection_manager.py and the connect handler -/

namespace WsServer

open ErrorCodes

/-- Python truthiness of a dynamic value (`user_id or "anonymous"`). -/
def valFalsy : Val → Bool
  | Val.none => true
  | Val.bool b => !b
  | Val.int n => n = 0
  | Val.str s => s = ""
  | Val.list xs => xs.isEmpty
  | Val.dict e => e.isEmpty

/-- `ClientSession.__init__`: the session triple; a falsy user id becomes
`"anonymous"`. -/
structure ClientSession where
  sid : String
  user_id : Val
  auth_data : List (String × Val)

/-- `ClientSession(sid, user_id, auth_data)`. -/
def ClientSession.make (sid : String) (user_id : Val)
    (auth_data : List (String × Val)) : ClientSession :=
  ⟨sid, if valFalsy user_id then Val.str "anonymous" else user_id, auth_data⟩

/-- `ConnectionManager`: the single admission slot. -/
structure ConnectionManager where
  active_client : Option ClientSession

/-- `can_connect`. -/
def can_connect (cm : ConnectionManager) : Bool := cm.active_client.isNone

/-- `connect_socketio`: records the session only when the slot is free. -/
def connect_socketio (cm : ConnectionManager) (sid : String) (user_id : Val)
    (auth_data : List (String × Val)) : ConnectionManager × Bool :=
  match cm.active_client with
  | some _ => (cm, false)
  | Option.none => (⟨some (ClientSession.make sid user_id auth_data)⟩, true)

/-- `ConnectionManager.disconnect`. -/
def ConnectionManager.clear (_cm : ConnectionManager) : ConnectionManager :=
  ⟨Option.none⟩

/-- Edge-server state owned by the event loop: the admission slot and the
set of running per-session callback tasks. -/
structure ServerState where
  conn_mgr : ConnectionManager
  callback_tasks : List String

/-- Outcome of the Socket.IO `connect` handler. -/
inductive ConnectOutcome where
  | refused (reason : String)
  | accepted
  deriving Repr, DecidableEq

/-- The `connect` handler of `SocketIOServer.register_handlers`, with the
extraction result (`token`) and the identity service's answer (`verify`)
as inputs: no token → refuse `00010`; failed verification → `00011`;
occupied slot → `00001`; otherwise record the triple and start the
callback-forwarding task.  There is no await point between the admission
check and the slot write, so the check-and-set is atomic on the event
loop. -/
def connect (st : ServerState) (sid : String) (token : Option String)
    (verify : Option (List (String × Val))) : ServerState × ConnectOutcome :=
  if token = Option.none ∨ token = some "" then
    (st, ConnectOutcome.refused (ErrorCode.AUTH_TOKEN_MISSING.value ++ ":missing auth token"))
  else
    match verify with
    | Option.none =>
      (st, ConnectOutcome.refused
        (ErrorCode.AUTH_TOKEN_INVALID.value ++ ":token invalid or expired"))
    | some payload =>
      if !(can_connect st.conn_mgr) then
        (st, ConnectOutcome.refused
          (ErrorCode.CONNECTION_REJECTED.value ++ ":" ++
            ERROR_MESSAGES ErrorCode.CONNECTION_REJECTED))
      else
        let user_id := (alistLookup "user_id" payload).getD (Val.str "anonymous")
        ({ conn_mgr := (connect_socketio st.conn_mgr sid user_id payload).1,
           callback_tasks := st.callback_tasks ++ [sid] },
         ConnectOutcome.accepted)

/-- The `disconnect` handler: cancel the session's callback task; clear
admission and notify the Worker only when the disconnecting sid is the
admitted one. -/
def disconnect (st : ServerState) (sid : String) : ServerState × Bool :=
  let st1 : ServerState :=
    { st with callback_tasks := st.callback_tasks.filter (fun t => t ≠ sid) }
  match st1.conn_mgr.active_client with
  | some sess =>
    if sess.sid = sid then
      ({ st1 with conn_mgr := st1.conn_mgr.clear }, true)
    else (st1, false)
  | Option.none => (st1, false)

/-- How many sessions are admitted (0 or 1 by construction of the slot). -/
def admittedCount (st : ServerState) : Nat :=
  match st.conn_mgr.active_client with
  | some _ => 1
  | Option.none => 0

end WsServer

/-! ## Claim C3 -/

/-- C3: the admission slot holds at most one session by construction, and
the connect handler refuses with `00010` (no token), `00011` (failed
verification) or `00001` (slot occupied) — in that order — leaving the
state untouched on every refusal; only a connection passing all three
checks records the session triple and starts its callback-forwarding
task. -/
theorem connect_admission_characterized
    (st : WsServer.ServerState) (sid : String)
    (token : Option String) (verify : Option (List (String × Val))) :
    WsServer.admittedCount st ≤ 1 ∧
    ((token = Option.none ∨ token = some "") →
      WsServer.connect st sid token verify =
        (st, WsServer.ConnectOutcome.refused "00010:missing auth token")) ∧
    (∀ t, token = some t → t ≠ "" → verify = Option.none →
      WsServer.connect st sid token verify =
        (st, WsServer.ConnectOutcome.refused "00011:token invalid or expired")) ∧
    (∀ t p sess, token = some t → t ≠ "" → verify = some p →
      st.conn_mgr.active_client = some sess →
      WsServer.connect st sid token verify =
        (st, WsServer.ConnectOutcome.refused
          ("00001:" ++ ErrorCodes.ERROR_MESSAGES
            ErrorCodes.ErrorCode.CONNECTION_REJECTED))) ∧
    (∀ t p, token = some t → t ≠ "" → verify = some p →
      st.conn_mgr.active_client = Option.none →
      (WsServer.connect st sid token verify).2 = WsServer.ConnectOutcome.accepted ∧
      (WsServer.connect st sid token verify).1.conn_mgr.active_client =
        some (WsServer.ClientSession.make sid
          ((alistLookup "user_id" p).getD (Val.str "anonymous")) p) ∧
      (WsServer.connect st sid token verify).1.callback_tasks =
        st.callback_tasks ++ [sid]) ∧
    ((WsServer.connect st sid token verify).2 ≠ WsServer.ConnectOutcome.accepted →
      (WsServer.connect st sid token verify).1 = st) := by
  refine ⟨?_, ?_, ?_, ?_, ?_, ?_⟩
  · unfold WsServer.admittedCount
    cases st.conn_mgr.active_client <;> simp
  · intro h
    unfold WsServer.connect
    rw [if_pos h]
    rfl
  · intro t ht hne hv
    unfold WsServer.connect
    rw [if_neg (by simp [ht, hne]), hv]
    rfl
  · intro t p sess ht hne hv hocc
    unfold WsServer.connect
    rw [if_neg (by simp [ht, hne]), hv]
    simp only [WsServer.can_connect, hocc, Option.isNone_some, Bool.not_false, if_true]
    rfl
  · intro t p ht hne hv hfree
    have hconn : WsServer.connect st sid token verify =
        ({ conn_mgr := ⟨some (WsServer.ClientSession.make sid
             ((alistLookup "user_id" p).getD (Val.str "anonymous")) p)⟩,
           callback_tasks := st.callback_tasks ++ [sid] },
         WsServer.ConnectOutcome.accepted) := by
      unfold WsServer.connect
      rw [if_neg (by simp [ht, hne]), hv]
      simp only [WsServer.can_connect, hfree, Option.isNone_none, Bool.not_true,
        Bool.false_eq_true, if_false, WsServer.connect_socketio]
    rw [hconn]
    exact ⟨rfl, rfl, rfl⟩
  · intro hout
    unfold WsServer.connect at hout ⊢
    by_cases h1 : token = Option.none ∨ token = some ""
    · rw [if_pos h1]
    · rw [if_neg h1] at hout ⊢
      cases hv : verify with
      | none => rfl
      | some p =>
        rw [hv] at hout
        simp only [WsServer.can_connect] at hout ⊢
        cases hac : st.conn_mgr.active_client with
        | some sess =>
          simp only [hac, Option.isNone_some, Bool.not_false, if_true]
        | none =>
          simp only [hac, Option.isNone_none, Bool.not_true, Bool.false_eq_true,
            if_false] at hout
          exact absurd rfl hout

/-- Witness for `connect_admission_characterized`: with a token, a
verified payload, and a free slot, the connection is admitted and the
triple recorded; a second connection then sees the occupied slot. -/
theorem connect_admission_witness :
    (WsServer.connect ⟨⟨Option.none⟩, []⟩ "sid1" (some "tok")
        (some [("user_id", Val.str "u1")])).2 = WsServer.ConnectOutcome.accepted ∧
    (WsServer.connect ⟨⟨Option.none⟩, []⟩ "sid1" (some "tok")
        (some [("user_id", Val.str "u1")])).1.conn_mgr.active_client =
      some (WsServer.ClientSession.make "sid1" (Val.str "u1")
        [("user_id", Val.str "u1")]) ∧
    WsServer.connect
        (WsServer.connect ⟨⟨Option.none⟩, []⟩ "sid1" (some "tok")
          (some [("user_id", Val.str "u1")])).1
        "sid2" (some "tok2") (some [("user_id", Val.str "u2")]) =
      ((WsServer.connect ⟨⟨Option.none⟩, []⟩ "sid1" (some "tok")
          (some [("user_id", Val.str "u1")])).1,
       WsServer.ConnectOutcome.refused
         ("00001:" ++ ErrorCodes.ERROR_MESSAGES
           ErrorCodes.ErrorCode.CONNECTION_REJECTED)) :=
  ⟨((connect_admission_characterized ⟨⟨Option.none⟩, []⟩ "sid1" (some "tok")
      (some [("user_id", Val.str "u1")])).2.2.2.2.1 "tok" [("user_id", Val.str "u1")]
      rfl (by decide) rfl rfl).1,
   ((connect_admission_characterized ⟨⟨Option.none⟩, []⟩ "sid1" (some "tok")
      (some [("user_id", Val.str "u1")])).2.2.2.2.1 "tok" [("user_id", Val.str "u1")]
      rfl (by decide) rfl rfl).2.1,
   (connect_admission_characterized
      (WsServer.connect ⟨⟨Option.none⟩, []⟩ "sid1" (some "tok")
        (some [("user_id", Val.str "u1")])).1
      "sid2" (some "tok2") (some [("user_id", Val.str "u2")])).2.2.2.1
      "tok2" [("user_id", Val.str "u2")]
      (WsServer.ClientSession.make "sid1" (Val.str "u1") [("user_id", Val.str "u1")])
      rfl (by decide) rfl rfl⟩

/-! ## backend/main.py — the Supervisor -/

namespace Supervisor

/-- Observable status of a child process at a poll. -/
inductive ProcStatus where
  | alive
  | exited (code : Int)
  deriving Repr, DecidableEq

/-- What one iteration of the monitoring loop decides. -/
inductive StepResult where
  | keepPolling
  | shutdown
  deriving Repr, DecidableEq

/-- One iteration of `main`'s monitoring loop: a dead Worker with exit
code 0 is respawned (and the Edge Server is then still checked in the
same iteration); any other Worker exit breaks the loop; any Edge Server
exit breaks the loop.  Returns whether a respawn happened and whether
the loop breaks into teardown. -/
def monitorStep (worker ws : ProcStatus) : Bool × StepResult :=
  match worker with
  | ProcStatus.exited c =>
    if c = 0 then
      match ws with
      | ProcStatus.exited _ => (true, StepResult.shutdown)
      | ProcStatus.alive => (true, StepResult.keepPolling)
    else (false, StepResult.shutdown)
  | ProcStatus.alive =>
    match ws with
    | ProcStatus.exited _ => (false, StepResult.shutdown)
    | ProcStatus.alive => (false, StepResult.keepPolling)

/-- The two children. -/
inductive Child where
  | wsServer
  | workerProc
  deriving Repr, DecidableEq

/-- Process-control actions of the teardown path. -/
inductive TermAction where
  | sigterm (c : Child)
  | joinTimeout (c : Child)
  | sigkill (c : Child)
  deriving Repr, DecidableEq

/-- The `finally` block of `main`: SIGTERM both children, join each with
a bounded timeout, then SIGKILL whichever is still alive. -/
def teardown (wsStillAlive workerStillAlive : Bool) : List TermAction :=
  [TermAction.sigterm Child.wsServer, TermAction.sigterm Child.workerProc,
   TermAction.joinTimeout Child.wsServer, TermAction.joinTimeout Child.workerProc]
  ++ (if wsStillAlive then [TermAction.sigkill Child.wsServer] else [])
  ++ (if workerStillAlive then [TermAction.sigkill Child.workerProc] else [])

end Supervisor

/-! ## Claim C6 -/

/-- C6: the monitoring loop respawns the Worker iff the Worker exited
with status 0; it stops monitoring (and tears down) iff the Worker
exited non-zero or the Edge Server exited; the teardown sends SIGTERM to
both children, joins each with a bounded timeout, and SIGKILLs exactly
the children still alive afterwards. -/
theorem supervisor_respawn_iff_exit_zero (worker ws : Supervisor.ProcStatus)
    (wsStillAlive workerStillAlive : Bool) :
    ((Supervisor.monitorStep worker ws).1 = true ↔
      worker = Supervisor.ProcStatus.exited 0) ∧
    ((Supervisor.monitorStep worker ws).2 = Supervisor.StepResult.shutdown ↔
      ((∃ c, worker = Supervisor.ProcStatus.exited c ∧ c ≠ 0) ∨
       ((worker = Supervisor.ProcStatus.alive ∨
         worker = Supervisor.ProcStatus.exited 0) ∧
        ∃ c, ws = Supervisor.ProcStatus.exited c))) ∧
    ((Supervisor.teardown wsStillAlive workerStillAlive).take 4 =
      [Supervisor.TermAction.sigterm Supervisor.Child.wsServer,
       Supervisor.TermAction.sigterm Supervisor.Child.workerProc,
       Supervisor.TermAction.joinTimeout Supervisor.Child.wsServer,
       Supervisor.TermAction.joinTimeout Supervisor.Child.workerProc]) ∧
    (Supervisor.TermAction.sigkill Supervisor.Child.wsServer ∈
        Supervisor.teardown wsStillAlive workerStillAlive ↔ wsStillAlive = true) ∧
    (Supervisor.TermAction.sigkill Supervisor.Child.workerProc ∈
        Supervisor.teardown wsStillAlive workerStillAlive ↔ workerStillAlive = true) := by
  refine ⟨?_, ?_, ?_, ?_, ?_⟩
  · cases worker with
    | alive => cases ws <;> simp [Supervisor.monitorStep]
    | exited c =>
      by_cases hc : c = 0
      · subst hc
        cases ws <;> simp [Supervisor.monitorStep]
      · cases ws <;> simp [Supervisor.monitorStep, hc]
  · cases worker with
    | alive => cases ws <;> simp [Supervisor.monitorStep]
    | exited c =>
      by_cases hc : c = 0
      · subst hc
        cases ws <;> simp [Supervisor.monitorStep]
      · cases ws <;> simp [Supervisor.monitorStep, hc]
  · cases wsStillAlive <;> cases workerStillAlive <;> rfl
  · cases wsStillAlive <;> cases workerStillAlive <;> simp [Supervisor.teardown]
  · cases wsStillAlive <;> cases workerStillAlive <;> simp [Supervisor.teardown]

/-- Witness for `supervisor_respawn_iff_exit_zero` at a Worker exit with
status 0 and a live Edge Server. -/
theorem supervisor_respawn_iff_exit_zero_witness :
    (Supervisor.monitorStep (Supervisor.ProcStatus.exited 0)
      Supervisor.ProcStatus.alive).1 = true ∧
    Supervisor.TermAction.sigkill Supervisor.Child.wsServer ∈
      Supervisor.teardown true false :=
  ⟨(supervisor_respawn_iff_exit_zero (Supervisor.ProcStatus.exited 0)
      Supervisor.ProcStatus.alive true false).1.mpr rfl,
   (supervisor_respawn_iff_exit_zero (Supervisor.ProcStatus.exited 0)
      Supervisor.ProcStatus.alive true false).2.2.2.1.mpr rfl⟩

/-! ## utils/crypto_js_compat.py — primitives

`CryptoJSAES` calls into library primitives (MD5, AES-256-CBC, base64);
these are embedded as executable Lean functions over byte lists
(`List Nat`, each element a byte value), implementing the standard
algorithms the library provides. -/

namespace CryptoPrim

/-- Addition modulo `2^32`. -/
def add32 (a b : Nat) : Nat := (a + b) % 4294967296

/-- Bitwise complement on 32 bits. -/
def not32 (a : Nat) : Nat := 4294967295 ^^^ a

/-- Left rotation of a 32-bit word (`x < 2^32`). -/
def rotl32 (x s : Nat) : Nat := ((x * 2 ^ s) % 4294967296) ||| (x / 2 ^ (32 - s))

/-- The 64 MD5 sine-derived constants (RFC 1321). -/
def md5K : List Nat :=
  [3614090360, 3905402710, 606105819, 3250441966, 4118548399, 1200080426, 2821735955, 4249261313,
   1770035416, 2336552879, 4294925233, 2304563134, 1804603682, 4254626195, 2792965006, 1236535329,
   4129170786, 3225465664, 643717713, 3921069994, 3593408605, 38016083, 3634488961, 3889429448,
   568446438, 3275163606, 4107603335, 1163531501, 2850285829, 4243563512, 1735328473, 2368359562,
   4294588738, 2272392833, 1839030562, 4259657740, 2763975236, 1272893353, 4139469664, 3200236656,
   681279174, 3936430074, 3572445317, 76029189, 3654602809, 3873151461, 530742520, 3299628645,
   4096336452, 1126891415, 2878612391, 4237533241, 1700485571, 2399980690, 4293915773, 2240044497,
   1873313359, 4264355552, 2734768916, 1309151649, 4149444226, 3174756917, 718787259, 3951481745]

/-- The 64 MD5 per-round shift amounts. -/
def md5S : List Nat :=
  [7, 12, 17, 22, 7, 12, 17, 22, 7, 12, 17, 22, 7, 12, 17, 22,
   5, 9, 14, 20, 5, 9, 14, 20, 5, 9, 14, 20, 5, 9, 14, 20,
   4, 11, 16, 23, 4, 11, 16, 23, 4, 11, 16, 23, 4, 11, 16, 23,
   6, 10, 15, 21, 6, 10, 15, 21, 6, 10, 15, 21, 6, 10, 15, 21]

/-- Split into 64-byte chunks (fuel keeps the recursion structural). -/
def chunks64 : Nat → List Nat → List (List Nat)
  | 0, _ => []
  | _, [] => []
  | fuel + 1, bs => bs.take 64 :: chunks64 fuel (bs.drop 64)

/-- Little-endian 32-bit word `j` of a 64-byte chunk. -/
def chunkWord (bs : List Nat) (j : Nat) : Nat :=
  bs.getD (4 * j) 0 + 256 * bs.getD (4 * j + 1) 0 +
    65536 * bs.getD (4 * j + 2) 0 + 16777216 * bs.getD (4 * j + 3) 0

/-- The 64 MD5 steps on one chunk, `n` steps remaining, `i` the current
step index; `ws` the 16 message words. -/
def md5Steps : Nat → Nat → (Nat × Nat × Nat × Nat) → List Nat → Nat × Nat × Nat × Nat
  | 0, _, regs, _ => regs
  | n + 1, i, (a, b, c, d), ws =>
    let fg : Nat × Nat :=
      if i < 16 then ((b &&& c) ||| (not32 b &&& d), i)
      else if i < 32 then ((d &&& b) ||| (not32 d &&& c), (5 * i + 1) % 16)
      else if i < 48 then (b ^^^ c ^^^ d, (3 * i + 5) % 16)
      else (c ^^^ (b ||| not32 d), (7 * i) % 16)
    let f := add32 (add32 (add32 fg.1 a) (md5K.getD i 0)) (ws.getD fg.2 0)
    md5Steps n (i + 1) (d, add32 b (rotl32 f (md5S.getD i 0)), b, c) ws

/-- Process one 64-byte chunk into the running state. -/
def md5Chunk (regs : Nat × Nat × Nat × Nat) (chunk : List Nat) : Nat × Nat × Nat × Nat :=
  let ws := (List.range 16).map (chunkWord chunk)
  let r := md5Steps 64 0 regs ws
  (add32 regs.1 r.1, add32 regs.2.1 r.2.1, add32 regs.2.2.1 r.2.2.1, add32 regs.2.2.2 r.2.2.2)

/-- Little-endian byte serialisation of a 32-bit word. -/
def le4 (n : Nat) : List Nat :=
  [n % 256, n / 256 % 256, n / 65536 % 256, n / 16777216 % 256]

/-- Little-endian byte serialisation of a 64-bit word. -/
def le8 (n : Nat) : List Nat :=
  le4 (n % 4294967296) ++ le4 (n / 4294967296 % 4294967296)

/-- MD5 of a byte string. -/
def md5 (msg : List Nat) : List Nat :=
  let padLen := (119 - msg.length % 64) % 64
  let padded := msg ++ [128] ++ List.replicate padLen 0 ++
    le8 (8 * msg.length % 18446744073709551616)
  let regs := (chunks64 padded.length padded).foldl md5Chunk
    (1732584193, 4023233417, 2562383102, 271733878)
  le4 regs.1 ++ le4 regs.2.1 ++ le4 regs.2.2.1 ++ le4 regs.2.2.2

/-- `CryptoJSAES._evp_kdf`: one-iteration `EVP_BytesToKey` with MD5;
concatenate `MD5(prev ‖ passphrase ‖ salt)` until 48 bytes are
available; the key is the first 32, the IV the next 16. -/
def evp_kdf (passphrase salt : List Nat) : List Nat × List Nat :=
  let d1 := md5 (passphrase ++ salt)
  let d2 := md5 (d1 ++ passphrase ++ salt)
  let d3 := md5 (d2 ++ passphrase ++ salt)
  let keyIv := d1 ++ d2 ++ d3
  (keyIv.take 32, (keyIv.drop 32).take 16)

end CryptoPrim

/-! ## AES-256 (the block cipher behind `AES.new(key, AES.MODE_CBC, iv)`) -/

namespace AES

/-- The AES state: 16 bytes, `b(4*c + r)` holding row `r` of column `c`
(FIPS-197 layout: input byte `i` goes to row `i mod 4`, column
`i div 4`). -/
structure St where
  b0 : Nat
  b1 : Nat
  b2 : Nat
  b3 : Nat
  b4 : Nat
  b5 : Nat
  b6 : Nat
  b7 : Nat
  b8 : Nat
  b9 : Nat
  b10 : Nat
  b11 : Nat
  b12 : Nat
  b13 : Nat
  b14 : Nat
  b15 : Nat
  deriving Repr, DecidableEq

/-- Multiplication by `x` in GF(2^8) modulo `x^8 + x^4 + x^3 + x + 1`. -/
def xtime (b : Nat) : Nat := if b < 128 then 2 * b else (2 * b) ^^^ 283

/-- Russian-peasant GF(2^8) multiplication, 8 bit-steps. -/
def gmulAux : Nat → Nat → Nat → Nat → Nat
  | 0, _, _, acc => acc
  | n + 1, a, b, acc =>
    gmulAux n (xtime a) (b / 2) (if b % 2 = 1 then acc ^^^ a else acc)

/-- GF(2^8) multiplication. -/
def gmul (a b : Nat) : Nat := gmulAux 8 a b 0

/-- GF(2^8) power (used for the round constants). -/
def gpow (a : Nat) : Nat → Nat
  | 0 => 1
  | n + 1 => gmul a (gpow a n)

def sboxT : List Nat :=
  [99, 124, 119, 123, 242, 107, 111, 197, 48, 1, 103, 43, 254, 215, 171, 118,
   202, 130, 201, 125, 250, 89, 71, 240, 173, 212, 162, 175, 156, 164, 114, 192,
   183, 253, 147, 38, 54, 63, 247, 204, 52, 165, 229, 241, 113, 216, 49, 21,
   4, 199, 35, 195, 24, 150, 5, 154, 7, 18, 128, 226, 235, 39, 178, 117,
   9, 131, 44, 26, 27, 110, 90, 160, 82, 59, 214, 179, 41, 227, 47, 132,
   83, 209, 0, 237, 32, 252, 177, 91, 106, 203, 190, 57, 74, 76, 88, 207,
   208, 239, 170, 251, 67, 77, 51, 133, 69, 249, 2, 127, 80, 60, 159, 168,
   81, 163, 64, 143, 146, 157, 56, 245, 188, 182, 218, 33, 16, 255, 243, 210,
   205, 12, 19, 236, 95, 151, 68, 23, 196, 167, 126, 61, 100, 93, 25, 115,
   96, 129, 79, 220, 34, 42, 144, 136, 70, 238, 184, 20, 222, 94, 11, 219,
   224, 50, 58, 10, 73, 6, 36, 92, 194, 211, 172, 98, 145, 149, 228, 121,
   231, 200, 55, 109, 141, 213, 78, 169, 108, 86, 244, 234, 101, 122, 174, 8,
   186, 120, 37, 46, 28, 166, 180, 198, 232, 221, 116, 31, 75, 189, 139, 138,
   112, 62, 181, 102, 72, 3, 246, 14, 97, 53, 87, 185, 134, 193, 29, 158,
   225, 248, 152, 17, 105, 217, 142, 148, 155, 30, 135, 233, 206, 85, 40, 223,
   140, 161, 137, 13, 191, 230, 66, 104, 65, 153, 45, 15, 176, 84, 187, 22]

def invSboxT : List Nat :=
  [82, 9, 106, 213, 48, 54, 165, 56, 191, 64, 163, 158, 129, 243, 215, 251,
   124, 227, 57, 130, 155, 47, 255, 135, 52, 142, 67, 68, 196, 222, 233, 203,
   84, 123, 148, 50, 166, 194, 35, 61, 238, 76, 149, 11, 66, 250, 195, 78,
   8, 46, 161, 102, 40, 217, 36, 178, 118, 91, 162, 73, 109, 139, 209, 37,
   114, 248, 246, 100, 134, 104, 152, 22, 212, 164, 92, 204, 93, 101, 182, 146,
   108, 112, 72, 80, 253, 237, 185, 218, 94, 21, 70, 87, 167, 141, 157, 132,
   144, 216, 171, 0, 140, 188, 211, 10, 247, 228, 88, 5, 184, 179, 69, 6,
   208, 44, 30, 143, 202, 63, 15, 2, 193, 175, 189, 3, 1, 19, 138, 107,
   58, 145, 17, 65, 79, 103, 220, 234, 151, 242, 207, 206, 240, 180, 230, 115,
   150, 172, 116, 34, 231, 173, 53, 133, 226, 249, 55, 232, 28, 117, 223, 110,
   71, 241, 26, 113, 29, 41, 197, 137, 111, 183, 98, 14, 170, 24, 190, 27,
   252, 86, 62, 75, 198, 210, 121, 32, 154, 219, 192, 254, 120, 205, 90, 244,
   31, 221, 168, 51, 136, 7, 199, 49, 177, 18, 16, 89, 39, 128, 236, 95,
   96, 81, 127, 169, 25, 181, 74, 13, 45, 229, 122, 159, 147, 201, 156, 239,
   160, 224, 59, 77, 174, 42, 245, 176, 200, 235, 187, 60, 131, 83, 153, 97,
   23, 43, 4, 126, 186, 119, 214, 38, 225, 105, 20, 99, 85, 33, 12, 125]

/-- The AES S-box. -/
def sbox (b : Nat) : Nat := sboxT.getD b 0

/-- The inverse S-box. -/
def invSbox (b : Nat) : Nat := invSboxT.getD b 0

/-- `SubBytes`. -/
def subBytes (s : St) : St :=
  ⟨sbox s.b0, sbox s.b1, sbox s.b2, sbox s.b3, sbox s.b4, sbox s.b5, sbox s.b6, sbox s.b7,
   sbox s.b8, sbox s.b9, sbox s.b10, sbox s.b11, sbox s.b12, sbox s.b13, sbox s.b14, sbox s.b15⟩

/-- `InvSubBytes`. -/
def invSubBytes (s : St) : St :=
  ⟨invSbox s.b0, invSbox s.b1, invSbox s.b2, invSbox s.b3, invSbox s.b4, invSbox s.b5,
   invSbox s.b6, invSbox s.b7, invSbox s.b8, invSbox s.b9, invSbox s.b10, invSbox s.b11,
   invSbox s.b12, invSbox s.b13, invSbox s.b14, invSbox s.b15⟩

/-- `ShiftRows`: row `r` rotates left by `r`
(`state'[r][c] = state[r][(c + r) mod 4]`). -/
def shiftRows (s : St) : St :=
  ⟨s.b0, s.b5, s.b10, s.b15,
   s.b4, s.b9, s.b14, s.b3,
   s.b8, s.b13, s.b2, s.b7,
   s.b12, s.b1, s.b6, s.b11⟩

/-- `InvShiftRows`. -/
def invShiftRows (s : St) : St :=
  ⟨s.b0, s.b13, s.b10, s.b7,
   s.b4, s.b1, s.b14, s.b11,
   s.b8, s.b5, s.b2, s.b15,
   s.b12, s.b9, s.b6, s.b3⟩

/-- One `MixColumns` column. -/
def mixCol (a b c d : Nat) : Nat × Nat × Nat × Nat :=
  (gmul 2 a ^^^ gmul 3 b ^^^ c ^^^ d,
   a ^^^ gmul 2 b ^^^ gmul 3 c ^^^ d,
   a ^^^ b ^^^ gmul 2 c ^^^ gmul 3 d,
   gmul 3 a ^^^ b ^^^ c ^^^ gmul 2 d)

/-- One `InvMixColumns` column. -/
def invMixCol (a b c d : Nat) : Nat × Nat × Nat × Nat :=
  (gmul 14 a ^^^ gmul 11 b ^^^ gmul 13 c ^^^ gmul 9 d,
   gmul 9 a ^^^ gmul 14 b ^^^ gmul 11 c ^^^ gmul 13 d,
   gmul 13 a ^^^ gmul 9 b ^^^ gmul 14 c ^^^ gmul 11 d,
   gmul 11 a ^^^ gmul 13 b ^^^ gmul 9 c ^^^ gmul 14 d)

/-- `MixColumns`. -/
def mixColumns (s : St) : St :=
  let c0 := mixCol s.b0 s.b1 s.b2 s.b3
  let c1 := mixCol s.b4 s.b5 s.b6 s.b7
  let c2 := mixCol s.b8 s.b9 s.b10 s.b11
  let c3 := mixCol s.b12 s.b13 s.b14 s.b15
  ⟨c0.1, c0.2.1, c0.2.2.1, c0.2.2.2, c1.1, c1.2.1, c1.2.2.1, c1.2.2.2,
   c2.1, c2.2.1, c2.2.2.1, c2.2.2.2, c3.1, c3.2.1, c3.2.2.1, c3.2.2.2⟩

/-- `InvMixColumns`. -/
def invMixColumns (s : St) : St :=
  let c0 := invMixCol s.b0 s.b1 s.b2 s.b3
  let c1 := invMixCol s.b4 s.b5 s.b6 s.b7
  let c2 := invMixCol s.b8 s.b9 s.b10 s.b11
  let c3 := invMixCol s.b12 s.b13 s.b14 s.b15
  ⟨c0.1, c0.2.1, c0.2.2.1, c0.2.2.2, c1.1, c1.2.1, c1.2.2.1, c1.2.2.2,
   c2.1, c2.2.1, c2.2.2.1, c2.2.2.2, c3.1, c3.2.1, c3.2.2.1, c3.2.2.2⟩

/-- `AddRoundKey`. -/
def addRoundKey (k s : St) : St :=
  ⟨s.b0 ^^^ k.b0, s.b1 ^^^ k.b1, s.b2 ^^^ k.b2, s.b3 ^^^ k.b3,
   s.b4 ^^^ k.b4, s.b5 ^^^ k.b5, s.b6 ^^^ k.b6, s.b7 ^^^ k.b7,
   s.b8 ^^^ k.b8, s.b9 ^^^ k.b9, s.b10 ^^^ k.b10, s.b11 ^^^ k.b11,
   s.b12 ^^^ k.b12, s.b13 ^^^ k.b13, s.b14 ^^^ k.b14, s.b15 ^^^ k.b15⟩

/-- A key schedule word (4 bytes). -/
abbrev Word := Nat × Nat × Nat × Nat

def subWord (w : Word) : Word := (sbox w.1, sbox w.2.1, sbox w.2.2.1, sbox w.2.2.2)

def rotWord (w : Word) : Word := (w.2.1, w.2.2.1, w.2.2.2, w.1)

def xorWord (u v : Word) : Word :=
  (u.1 ^^^ v.1, u.2.1 ^^^ v.2.1, u.2.2.1 ^^^ v.2.2.1, u.2.2.2 ^^^ v.2.2.2)

/-- Next key-schedule word given the words so far (newest first). -/
def ksNext (acc : List Word) : Word :=
  let i := acc.length
  let prev := acc.headD (0, 0, 0, 0)
  let w8 := acc.getD 7 (0, 0, 0, 0)
  let temp :=
    if i % 8 = 0 then
      let t := subWord (rotWord prev)
      (t.1 ^^^ gpow 2 (i / 8 - 1), t.2.1, t.2.2.1, t.2.2.2)
    else if i % 8 = 4 then subWord prev
    else prev
  xorWord w8 temp

/-- Run `n` expansion steps. -/
def ksExpand : Nat → List Word → List Word
  | 0, acc => acc.reverse
  | n + 1, acc => ksExpand n (ksNext acc :: acc)

/-- Round key `r` from the 60 schedule words (word `4r+c` is column `c`). -/
def roundKey (ws : List Word) (r : Nat) : St :=
  let w0 := ws.getD (4 * r) (0, 0, 0, 0)
  let w1 := ws.getD (4 * r + 1) (0, 0, 0, 0)
  let w2 := ws.getD (4 * r + 2) (0, 0, 0, 0)
  let w3 := ws.getD (4 * r + 3) (0, 0, 0, 0)
  ⟨w0.1, w0.2.1, w0.2.2.1, w0.2.2.2, w1.1, w1.2.1, w1.2.2.1, w1.2.2.2,
   w2.1, w2.2.1, w2.2.2.1, w2.2.2.2, w3.1, w3.2.1, w3.2.2.1, w3.2.2.2⟩

/-- AES-256 key expansion: 32 key bytes to 15 round keys. -/
def expandKey (key : List Nat) : List St :=
  let init := (List.range 8).map (fun i =>
    ((key.getD (4 * i) 0, key.getD (4 * i + 1) 0,
      key.getD (4 * i + 2) 0, key.getD (4 * i + 3) 0) : Word))
  let ws := ksExpand 52 init.reverse
  (List.range 15).map (roundKey ws)

/-- The 13 middle rounds plus the final round of encryption, driven by
the remaining round keys. -/
def encRounds : List St → St → St
  | [], s => s
  | [kLast], s => addRoundKey kLast (shiftRows (subBytes s))
  | k :: rest, s => encRounds rest (addRoundKey k (mixColumns (shiftRows (subBytes s))))

/-- AES block encryption (initial whitening then the rounds). -/
def encryptBlock (keys : List St) (s : St) : St :=
  match keys with
  | [] => s
  | k0 :: rest => encRounds rest (addRoundKey k0 s)

/-- Inverse of `encRounds`, consuming the same key list. -/
def decRounds : List St → St → St
  | [], s => s
  | [kLast], s => invSubBytes (invShiftRows (addRoundKey kLast s))
  | k :: rest, s => invSubBytes (invShiftRows (invMixColumns (addRoundKey k (decRounds rest s))))

/-- AES block decryption. -/
def decryptBlock (keys : List St) (s : St) : St :=
  match keys with
  | [] => s
  | k0 :: rest => addRoundKey k0 (decRounds rest s)

end AES

/-! ## AES: inversion proofs -/

namespace AES

theorem xor_left_comm (a b c : Nat) : a ^^^ (b ^^^ c) = b ^^^ (a ^^^ c) := by
  rw [← Nat.xor_assoc, Nat.xor_comm a b, Nat.xor_assoc]

theorem xor_cancel_left (a b : Nat) : a ^^^ (a ^^^ b) = b := by
  rw [← Nat.xor_assoc, Nat.xor_self, Nat.zero_xor]

theorem xor_div_two (x y : Nat) : (x ^^^ y) / 2 = x / 2 ^^^ y / 2 := by
  apply Nat.eq_of_testBit_eq
  intro i
  simp [Nat.testBit_div_two, Nat.testBit_xor]

theorem xor_lt_256 {a b : Nat} (ha : a < 256) (hb : b < 256) : a ^^^ b < 256 := by
  have e : (256 : Nat) = 2 ^ 8 := by norm_num
  rw [e] at ha hb ⊢
  exact Nat.xor_lt_two_pow ha hb

/-- The accumulator of the peasant multiplication splits off by xor. -/
theorem gmulAux_acc (n : Nat) : ∀ a b acc, gmulAux n a b acc = acc ^^^ gmulAux n a b 0 := by
  induction n with
  | zero => intro a b acc; simp [gmulAux]
  | succ n ih =>
    intro a b acc
    simp only [gmulAux]
    by_cases hb : b % 2 = 1
    · rw [if_pos hb, if_pos hb, ih (xtime a) (b / 2) (acc ^^^ a), ih (xtime a) (b / 2) (0 ^^^ a)]
      simp [Nat.xor_assoc]
    · rw [if_neg hb, if_neg hb]
      exact ih _ _ acc

/-- GF(2^8) multiplication distributes over xor in its second argument
(only the low eight bits are consumed, bitwise). -/
theorem gmulAux_linear (n : Nat) :
    ∀ a x y, gmulAux n a (x ^^^ y) 0 = gmulAux n a x 0 ^^^ gmulAux n a y 0 := by
  induction n with
  | zero => intro a x y; simp [gmulAux]
  | succ n ih =>
    intro a x y
    simp only [gmulAux, Nat.zero_xor]
    have hdiv : (x ^^^ y) / 2 = x / 2 ^^^ y / 2 := xor_div_two x y
    have hmod : (x ^^^ y) % 2 = (x + y) % 2 := Nat.xor_mod_two_eq
    rcases Nat.mod_two_eq_zero_or_one x with hx | hx <;>
      rcases Nat.mod_two_eq_zero_or_one y with hy | hy
    · rw [if_neg (by omega), if_neg (by omega), if_neg (by omega), hdiv]
      exact ih (xtime a) (x / 2) (y / 2)
    · rw [if_pos (by omega), if_neg (by omega), if_pos (by omega), hdiv,
        gmulAux_acc n (xtime a) (x / 2 ^^^ y / 2) a, gmulAux_acc n (xtime a) (y / 2) a,
        ih (xtime a) (x / 2) (y / 2)]
      simp [Nat.xor_assoc, Nat.xor_comm, xor_left_comm, xor_cancel_left,
        Nat.xor_self, Nat.zero_xor, Nat.xor_zero]
    · rw [if_pos (by omega), if_pos (by omega), if_neg (by omega), hdiv,
        gmulAux_acc n (xtime a) (x / 2 ^^^ y / 2) a, gmulAux_acc n (xtime a) (x / 2) a,
        ih (xtime a) (x / 2) (y / 2)]
      simp [Nat.xor_assoc, Nat.xor_comm, xor_left_comm, xor_cancel_left,
        Nat.xor_self, Nat.zero_xor, Nat.xor_zero]
    · rw [if_neg (by omega), if_pos (by omega), if_pos (by omega), hdiv,
        gmulAux_acc n (xtime a) (x / 2) a, gmulAux_acc n (xtime a) (y / 2) a,
        ih (xtime a) (x / 2) (y / 2)]
      simp [Nat.xor_assoc, Nat.xor_comm, xor_left_comm, xor_cancel_left,
        Nat.xor_self, Nat.zero_xor, Nat.xor_zero]

theorem gmul_linear (k x y : Nat) : gmul k (x ^^^ y) = gmul k x ^^^ gmul k y :=
  gmulAux_linear 8 k x y

set_option maxRecDepth 10000 in
theorem xtime_lt : ∀ a < 256, xtime a < 256 := by decide

theorem gmulAux_lt (n : Nat) :
    ∀ a b acc, a < 256 → acc < 256 → gmulAux n a b acc < 256 := by
  induction n with
  | zero => intro a b acc _ hacc; simpa [gmulAux] using hacc
  | succ n ih =>
    intro a b acc ha hacc
    simp only [gmulAux]
    apply ih _ _ _ (xtime_lt a ha)
    by_cases hb : b % 2 = 1
    · rw [if_pos hb]; exact xor_lt_256 hacc ha
    · rw [if_neg hb]; exact hacc

theorem gmul_lt {k : Nat} (hk : k < 256) (b : Nat) : gmul k b < 256 :=
  gmulAux_lt 8 k b 0 hk (by omega)

set_option maxRecDepth 10000 in
theorem sbox_lt : ∀ b < 256, sbox b < 256 := by decide

set_option maxRecDepth 10000 in
theorem invSbox_sbox : ∀ b < 256, invSbox (sbox b) = b := by decide

/-- Regrouping a 4×4 xor: row-major to column-major. -/
theorem xor_regroup16 (a0 b0 c0 d0 a1 b1 c1 d1 a2 b2 c2 d2 a3 b3 c3 d3 : Nat) :
    (a0 ^^^ b0 ^^^ c0 ^^^ d0) ^^^ (a1 ^^^ b1 ^^^ c1 ^^^ d1) ^^^
      (a2 ^^^ b2 ^^^ c2 ^^^ d2) ^^^ (a3 ^^^ b3 ^^^ c3 ^^^ d3) =
    (a0 ^^^ a1 ^^^ a2 ^^^ a3) ^^^ (b0 ^^^ b1 ^^^ b2 ^^^ b3) ^^^
      (c0 ^^^ c1 ^^^ c2 ^^^ c3) ^^^ (d0 ^^^ d1 ^^^ d2 ^^^ d3) := by
  simp only [Nat.xor_assoc]
  simp [Nat.xor_comm, xor_left_comm]
set_option maxRecDepth 10000 in
/-- Coefficient identity of `InvMixColumns ∘ MixColumns`, output 0, input 0. -/
theorem mixT00 : ∀ x < 256, AES.gmul 14 (AES.gmul 2 x) ^^^ AES.gmul 11 x ^^^ AES.gmul 13 x ^^^ AES.gmul 9 (AES.gmul 3 x) = x := by decide

set_option maxRecDepth 10000 in
/-- Coefficient identity of `InvMixColumns ∘ MixColumns`, output 0, input 1. -/
theorem mixT01 : ∀ x < 256, AES.gmul 14 (AES.gmul 3 x) ^^^ AES.gmul 11 (AES.gmul 2 x) ^^^ AES.gmul 13 x ^^^ AES.gmul 9 x = 0 := by decide

set_option maxRecDepth 10000 in
/-- Coefficient identity of `InvMixColumns ∘ MixColumns`, output 0, input 2. -/
theorem mixT02 : ∀ x < 256, AES.gmul 14 x ^^^ AES.gmul 11 (AES.gmul 3 x) ^^^ AES.gmul 13 (AES.gmul 2 x) ^^^ AES.gmul 9 x = 0 := by decide

set_option maxRecDepth 10000 in
/-- Coefficient identity of `InvMixColumns ∘ MixColumns`, output 0, input 3. -/
theorem mixT03 : ∀ x < 256, AES.gmul 14 x ^^^ AES.gmul 11 x ^^^ AES.gmul 13 (AES.gmul 3 x) ^^^ AES.gmul 9 (AES.gmul 2 x) = 0 := by decide

set_option maxRecDepth 10000 in
/-- Coefficient identity of `InvMixColumns ∘ MixColumns`, output 1, input 0. -/
theorem mixT10 : ∀ x < 256, AES.gmul 9 (AES.gmul 2 x) ^^^ AES.gmul 14 x ^^^ AES.gmul 11 x ^^^ AES.gmul 13 (AES.gmul 3 x) = 0 := by decide

set_option maxRecDepth 10000 in
/-- Coefficient identity of `InvMixColumns ∘ MixColumns`, output 1, input 1. -/
theorem mixT11 : ∀ x < 256, AES.gmul 9 (AES.gmul 3 x) ^^^ AES.gmul 14 (AES.gmul 2 x) ^^^ AES.gmul 11 x ^^^ AES.gmul 13 x = x := by decide

set_option maxRecDepth 10000 in
/-- Coefficient identity of `InvMixColumns ∘ MixColumns`, output 1, input 2. -/
theorem mixT12 : ∀ x < 256, AES.gmul 9 x ^^^ AES.gmul 14 (AES.gmul 3 x) ^^^ AES.gmul 11 (AES.gmul 2 x) ^^^ AES.gmul 13 x = 0 := by decide

set_option maxRecDepth 10000 in
/-- Coefficient identity of `InvMixColumns ∘ MixColumns`, output 1, input 3. -/
theorem mixT13 : ∀ x < 256, AES.gmul 9 x ^^^ AES.gmul 14 x ^^^ AES.gmul 11 (AES.gmul 3 x) ^^^ AES.gmul 13 (AES.gmul 2 x) = 0 := by decide

set_option maxRecDepth 10000 in
/-- Coefficient identity of `InvMixColumns ∘ MixColumns`, output 2, input 0. -/
theorem mixT20 : ∀ x < 256, AES.gmul 13 (AES.gmul 2 x) ^^^ AES.gmul 9 x ^^^ AES.gmul 14 x ^^^ AES.gmul 11 (AES.gmul 3 x) = 0 := by decide

set_option maxRecDepth 10000 in
/-- Coefficient identity of `InvMixColumns ∘ MixColumns`, output 2, input 1. -/
theorem mixT21 : ∀ x < 256, AES.gmul 13 (AES.gmul 3 x) ^^^ AES.gmul 9 (AES.gmul 2 x) ^^^ AES.gmul 14 x ^^^ AES.gmul 11 x = 0 := by decide

set_option maxRecDepth 10000 in
/-- Coefficient identity of `InvMixColumns ∘ MixColumns`, output 2, input 2. -/
theorem mixT22 : ∀ x < 256, AES.gmul 13 x ^^^ AES.gmul 9 (AES.gmul 3 x) ^^^ AES.gmul 14 (AES.gmul 2 x) ^^^ AES.gmul 11 x = x := by decide

set_option maxRecDepth 10000 in
/-- Coefficient identity of `InvMixColumns ∘ MixColumns`, output 2, input 3. -/
theorem mixT23 : ∀ x < 256, AES.gmul 13 x ^^^ AES.gmul 9 x ^^^ AES.gmul 14 (AES.gmul 3 x) ^^^ AES.gmul 11 (AES.gmul 2 x) = 0 := by decide

set_option maxRecDepth 10000 in
/-- Coefficient identity of `InvMixColumns ∘ MixColumns`, output 3, input 0. -/
theorem mixT30 : ∀ x < 256, AES.gmul 11 (AES.gmul 2 x) ^^^ AES.gmul 13 x ^^^ AES.gmul 9 x ^^^ AES.gmul 14 (AES.gmul 3 x) = 0 := by decide

set_option maxRecDepth 10000 in
/-- Coefficient identity of `InvMixColumns ∘ MixColumns`, output 3, input 1. -/
theorem mixT31 : ∀ x < 256, AES.gmul 11 (AES.gmul 3 x) ^^^ AES.gmul 13 (AES.gmul 2 x) ^^^ AES.gmul 9 x ^^^ AES.gmul 14 x = 0 := by decide

set_option maxRecDepth 10000 in
/-- Coefficient identity of `InvMixColumns ∘ MixColumns`, output 3, input 2. -/
theorem mixT32 : ∀ x < 256, AES.gmul 11 x ^^^ AES.gmul 13 (AES.gmul 3 x) ^^^ AES.gmul 9 (AES.gmul 2 x) ^^^ AES.gmul 14 x = 0 := by decide

set_option maxRecDepth 10000 in
/-- Coefficient identity of `InvMixColumns ∘ MixColumns`, output 3, input 3. -/
theorem mixT33 : ∀ x < 256, AES.gmul 11 x ^^^ AES.gmul 13 x ^^^ AES.gmul 9 (AES.gmul 3 x) ^^^ AES.gmul 14 (AES.gmul 2 x) = x := by decide

end AES

namespace AES

/-- `InvMixColumns` inverts `MixColumns` on one column of bytes. -/
theorem invMixCol_mixCol (a b c d : Nat)
    (ha : a < 256) (hb : b < 256) (hc : c < 256) (hd : d < 256) :
    (invMixCol (mixCol a b c d).1 (mixCol a b c d).2.1
      (mixCol a b c d).2.2.1 (mixCol a b c d).2.2.2).1 = a ∧
    (invMixCol (mixCol a b c d).1 (mixCol a b c d).2.1
      (mixCol a b c d).2.2.1 (mixCol a b c d).2.2.2).2.1 = b ∧
    (invMixCol (mixCol a b c d).1 (mixCol a b c d).2.1
      (mixCol a b c d).2.2.1 (mixCol a b c d).2.2.2).2.2.1 = c ∧
    (invMixCol (mixCol a b c d).1 (mixCol a b c d).2.1
      (mixCol a b c d).2.2.1 (mixCol a b c d).2.2.2).2.2.2 = d := by
  simp only [mixCol, invMixCol]
  refine ⟨?_, ?_, ?_, ?_⟩
  · simp only [gmul_linear]
    rw [xor_regroup16, mixT00 a ha, mixT01 b hb, mixT02 c hc, mixT03 d hd]
    simp
  · simp only [gmul_linear]
    rw [xor_regroup16, mixT10 a ha, mixT11 b hb, mixT12 c hc, mixT13 d hd]
    simp
  · simp only [gmul_linear]
    rw [xor_regroup16, mixT20 a ha, mixT21 b hb, mixT22 c hc, mixT23 d hd]
    simp
  · simp only [gmul_linear]
    rw [xor_regroup16, mixT30 a ha, mixT31 b hb, mixT32 c hc, mixT33 d hd]
    simp

/-- All sixteen state bytes are below 256. -/
def Wf (s : St) : Prop :=
  s.b0 < 256 ∧ s.b1 < 256 ∧ s.b2 < 256 ∧ s.b3 < 256 ∧
  s.b4 < 256 ∧ s.b5 < 256 ∧ s.b6 < 256 ∧ s.b7 < 256 ∧
  s.b8 < 256 ∧ s.b9 < 256 ∧ s.b10 < 256 ∧ s.b11 < 256 ∧
  s.b12 < 256 ∧ s.b13 < 256 ∧ s.b14 < 256 ∧ s.b15 < 256

instance (s : St) : Decidable (Wf s) := by unfold Wf; exact inferInstance

theorem invMixColumns_mixColumns (s : St) (h : Wf s) :
    invMixColumns (mixColumns s) = s := by
  obtain ⟨h0, h1, h2, h3, h4, h5, h6, h7, h8, h9, h10, h11, h12, h13, h14, h15⟩ := h
  have e0 := invMixCol_mixCol s.b0 s.b1 s.b2 s.b3 h0 h1 h2 h3
  have e1 := invMixCol_mixCol s.b4 s.b5 s.b6 s.b7 h4 h5 h6 h7
  have e2 := invMixCol_mixCol s.b8 s.b9 s.b10 s.b11 h8 h9 h10 h11
  have e3 := invMixCol_mixCol s.b12 s.b13 s.b14 s.b15 h12 h13 h14 h15
  simp only [invMixColumns, mixColumns]
  rw [e0.1, e0.2.1, e0.2.2.1, e0.2.2.2, e1.1, e1.2.1, e1.2.2.1, e1.2.2.2,
      e2.1, e2.2.1, e2.2.2.1, e2.2.2.2, e3.1, e3.2.1, e3.2.2.1, e3.2.2.2]

theorem invSubBytes_subBytes (s : St) (h : Wf s) :
    invSubBytes (subBytes s) = s := by
  obtain ⟨h0, h1, h2, h3, h4, h5, h6, h7, h8, h9, h10, h11, h12, h13, h14, h15⟩ := h
  simp only [invSubBytes, subBytes]
  rw [invSbox_sbox _ h0, invSbox_sbox _ h1, invSbox_sbox _ h2, invSbox_sbox _ h3,
      invSbox_sbox _ h4, invSbox_sbox _ h5, invSbox_sbox _ h6, invSbox_sbox _ h7,
      invSbox_sbox _ h8, invSbox_sbox _ h9, invSbox_sbox _ h10, invSbox_sbox _ h11,
      invSbox_sbox _ h12, invSbox_sbox _ h13, invSbox_sbox _ h14, invSbox_sbox _ h15]

theorem invShiftRows_shiftRows (s : St) : invShiftRows (shiftRows s) = s := rfl

theorem addRoundKey_addRoundKey (k s : St) : addRoundKey k (addRoundKey k s) = s := by
  simp only [addRoundKey, Nat.xor_assoc, Nat.xor_self, Nat.xor_zero]

theorem Wf_addRoundKey {k s : St} (hk : Wf k) (hs : Wf s) : Wf (addRoundKey k s) := by
  obtain ⟨k0, k1, k2, k3, k4, k5, k6, k7, k8, k9, k10, k11, k12, k13, k14, k15⟩ := hk
  obtain ⟨s0, s1, s2, s3, s4, s5, s6, s7, s8, s9, s10, s11, s12, s13, s14, s15⟩ := hs
  exact ⟨xor_lt_256 s0 k0, xor_lt_256 s1 k1, xor_lt_256 s2 k2, xor_lt_256 s3 k3,
    xor_lt_256 s4 k4, xor_lt_256 s5 k5, xor_lt_256 s6 k6, xor_lt_256 s7 k7,
    xor_lt_256 s8 k8, xor_lt_256 s9 k9, xor_lt_256 s10 k10, xor_lt_256 s11 k11,
    xor_lt_256 s12 k12, xor_lt_256 s13 k13, xor_lt_256 s14 k14, xor_lt_256 s15 k15⟩

theorem Wf_subBytes {s : St} (hs : Wf s) : Wf (subBytes s) := by
  obtain ⟨s0, s1, s2, s3, s4, s5, s6, s7, s8, s9, s10, s11, s12, s13, s14, s15⟩ := hs
  exact ⟨sbox_lt _ s0, sbox_lt _ s1, sbox_lt _ s2, sbox_lt _ s3,
    sbox_lt _ s4, sbox_lt _ s5, sbox_lt _ s6, sbox_lt _ s7,
    sbox_lt _ s8, sbox_lt _ s9, sbox_lt _ s10, sbox_lt _ s11,
    sbox_lt _ s12, sbox_lt _ s13, sbox_lt _ s14, sbox_lt _ s15⟩

theorem Wf_shiftRows {s : St} (hs : Wf s) : Wf (shiftRows s) := by
  obtain ⟨s0, s1, s2, s3, s4, s5, s6, s7, s8, s9, s10, s11, s12, s13, s14, s15⟩ := hs
  exact ⟨s0, s5, s10, s15, s4, s9, s14, s3, s8, s13, s2, s7, s12, s1, s6, s11⟩

theorem Wf_mixColumns {s : St} (hs : Wf s) : Wf (mixColumns s) := by
  obtain ⟨s0, s1, s2, s3, s4, s5, s6, s7, s8, s9, s10, s11, s12, s13, s14, s15⟩ := hs
  simp only [mixColumns, mixCol, Wf]
  refine ⟨?_, ?_, ?_, ?_, ?_, ?_, ?_, ?_, ?_, ?_, ?_, ?_, ?_, ?_, ?_, ?_⟩ <;>
    repeat'
      first
        | apply xor_lt_256
        | exact gmul_lt (by omega) _
        | assumption

/-- `getD` satisfies any property holding for the default and members. -/
theorem getD_pred {α : Type} (P : α → Prop) (l : List α) (d : α) (i : Nat)
    (hd : P d) (h : ∀ x ∈ l, P x) : P (l.getD i d) := by
  rw [List.getD_eq_getElem?_getD]
  rcases he : l[i]? with _ | x
  · exact hd
  · obtain ⟨hl, rfl⟩ := List.getElem?_eq_some_iff.mp he
    exact h _ (List.getElem_mem hl)

/-- The round-function chain is inverted by its mirror. -/
theorem decRounds_encRounds :
    ∀ (keys : List St), (∀ k ∈ keys, Wf k) → ∀ s, Wf s →
      decRounds keys (encRounds keys s) = s := by
  intro keys
  induction keys with
  | nil => intro _ s _; rfl
  | cons k rest ih =>
    intro hk s hs
    cases rest with
    | nil =>
      show invSubBytes (invShiftRows (addRoundKey k
        (addRoundKey k (shiftRows (subBytes s))))) = s
      rw [addRoundKey_addRoundKey, invShiftRows_shiftRows,
        invSubBytes_subBytes _ hs]
    | cons k2 rest2 =>
      have hk1 : Wf k := hk k (by simp)
      have hkrest : ∀ x ∈ k2 :: rest2, Wf x := fun x hx => hk x (by simp [hx])
      have hmid : Wf (addRoundKey k (mixColumns (shiftRows (subBytes s)))) :=
        Wf_addRoundKey hk1 (Wf_mixColumns (Wf_shiftRows (Wf_subBytes hs)))
      show decRounds (k :: k2 :: rest2)
          (encRounds (k2 :: rest2)
            (addRoundKey k (mixColumns (shiftRows (subBytes s))))) = s
      show invSubBytes (invShiftRows (invMixColumns (addRoundKey k
          (decRounds (k2 :: rest2)
            (encRounds (k2 :: rest2)
              (addRoundKey k (mixColumns (shiftRows (subBytes s))))))))) = s
      rw [ih hkrest _ hmid, addRoundKey_addRoundKey,
        invMixColumns_mixColumns _ (Wf_shiftRows (Wf_subBytes hs)),
        invShiftRows_shiftRows, invSubBytes_subBytes _ hs]

/-- AES block decryption inverts encryption for well-formed keys and
state. -/
theorem decryptBlock_encryptBlock (keys : List St)
    (hk : ∀ k ∈ keys, Wf k) (s : St) (hs : Wf s) :
    decryptBlock keys (encryptBlock keys s) = s := by
  cases keys with
  | nil => rfl
  | cons k0 rest =>
    show addRoundKey k0 (decRounds rest (encRounds rest (addRoundKey k0 s))) = s
    rw [decRounds_encRounds rest (fun x hx => hk x (by simp [hx])) _
      (Wf_addRoundKey (hk k0 (by simp)) hs), addRoundKey_addRoundKey]

/-- The round chain preserves well-formedness. -/
theorem Wf_encRounds :
    ∀ (keys : List St), (∀ k ∈ keys, Wf k) → ∀ s, Wf s → Wf (encRounds keys s) := by
  intro keys
  induction keys with
  | nil => intro _ s hs; exact hs
  | cons k rest ih =>
    intro hk s hs
    cases rest with
    | nil =>
      exact Wf_addRoundKey (hk k (by simp)) (Wf_shiftRows (Wf_subBytes hs))
    | cons k2 rest2 =>
      exact ih (fun x hx => hk x (by simp [hx])) _
        (Wf_addRoundKey (hk k (by simp))
          (Wf_mixColumns (Wf_shiftRows (Wf_subBytes hs))))

theorem Wf_encryptBlock (keys : List St) (hk : ∀ k ∈ keys, Wf k)
    (s : St) (hs : Wf s) : Wf (encryptBlock keys s) := by
  cases keys with
  | nil => exact hs
  | cons k0 rest =>
    exact Wf_encRounds rest (fun x hx => hk x (by simp [hx])) _
      (Wf_addRoundKey (hk k0 (by simp)) hs)

/-- A well-formed schedule word. -/
def WordWf (w : Word) : Prop :=
  w.1 < 256 ∧ w.2.1 < 256 ∧ w.2.2.1 < 256 ∧ w.2.2.2 < 256

theorem WordWf_zero : WordWf (0, 0, 0, 0) := by refine ⟨?_, ?_, ?_, ?_⟩ <;> norm_num

theorem gpow_lt (n : Nat) : gpow 2 n < 256 := by
  cases n with
  | zero => simp [gpow]
  | succ m => exact gmul_lt (by omega) _

theorem WordWf_subWord {w : Word} (h : WordWf w) : WordWf (subWord w) :=
  ⟨sbox_lt _ h.1, sbox_lt _ h.2.1, sbox_lt _ h.2.2.1, sbox_lt _ h.2.2.2⟩

theorem WordWf_xorWord {u v : Word} (hu : WordWf u) (hv : WordWf v) :
    WordWf (xorWord u v) :=
  ⟨xor_lt_256 hu.1 hv.1, xor_lt_256 hu.2.1 hv.2.1,
   xor_lt_256 hu.2.2.1 hv.2.2.1, xor_lt_256 hu.2.2.2 hv.2.2.2⟩

theorem WordWf_ksNext {acc : List Word} (h : ∀ w ∈ acc, WordWf w) :
    WordWf (ksNext acc) := by
  unfold ksNext
  have hprev : WordWf (acc.headD (0, 0, 0, 0)) := by
    cases acc with
    | nil => exact WordWf_zero
    | cons w rest => exact h w (by simp)
  have hw8 : WordWf (acc.getD 7 (0, 0, 0, 0)) :=
    getD_pred WordWf acc (0, 0, 0, 0) 7 WordWf_zero h
  apply WordWf_xorWord hw8
  by_cases h8 : acc.length % 8 = 0
  · rw [if_pos h8]
    have hsw := WordWf_subWord (w := rotWord (acc.headD (0, 0, 0, 0)))
      ⟨hprev.2.1, hprev.2.2.1, hprev.2.2.2, hprev.1⟩
    exact ⟨xor_lt_256 hsw.1 (gpow_lt _), hsw.2.1, hsw.2.2.1, hsw.2.2.2⟩
  · rw [if_neg h8]
    by_cases h4 : acc.length % 8 = 4
    · rw [if_pos h4]
      exact WordWf_subWord hprev
    · rw [if_neg h4]
      exact hprev

theorem WordWf_ksExpand :
    ∀ (n : Nat) (acc : List Word), (∀ w ∈ acc, WordWf w) →
      ∀ w ∈ ksExpand n acc, WordWf w := by
  intro n
  induction n with
  | zero =>
    intro acc h w hw
    rw [show ksExpand 0 acc = acc.reverse from rfl, List.mem_reverse] at hw
    exact h w hw
  | succ n ih =>
    intro acc h w hw
    refine ih (ksNext acc :: acc) ?_ w hw
    intro x hx
    rcases List.mem_cons.mp hx with hx | hx
    · subst hx; exact WordWf_ksNext h
    · exact h x hx

/-- All round keys expanded from in-range key bytes are well-formed. -/
theorem Wf_expandKey {key : List Nat} (h : ∀ b ∈ key, b < 256) :
    ∀ k ∈ expandKey key, Wf k := by
  intro k hk
  unfold expandKey at hk
  obtain ⟨r, _, rfl⟩ := List.mem_map.mp hk
  have hws : ∀ w ∈ ksExpand 52 ((List.range 8).map (fun i =>
      ((key.getD (4 * i) 0, key.getD (4 * i + 1) 0,
        key.getD (4 * i + 2) 0, key.getD (4 * i + 3) 0) : Word))).reverse, WordWf w := by
    apply WordWf_ksExpand
    intro w hw
    rw [List.mem_reverse] at hw
    obtain ⟨i, _, rfl⟩ := List.mem_map.mp hw
    refine ⟨?_, ?_, ?_, ?_⟩ <;>
      exact getD_pred (fun b => b < 256) key 0 _ (by omega) h
  unfold roundKey
  have g : ∀ j, WordWf ((ksExpand 52 ((List.range 8).map (fun i =>
      ((key.getD (4 * i) 0, key.getD (4 * i + 1) 0,
        key.getD (4 * i + 2) 0, key.getD (4 * i + 3) 0) : Word))).reverse).getD j (0, 0, 0, 0)) :=
    fun j => getD_pred WordWf _ _ j WordWf_zero hws
  exact ⟨(g (4 * r)).1, (g (4 * r)).2.1, (g (4 * r)).2.2.1, (g (4 * r)).2.2.2,
    (g (4 * r + 1)).1, (g (4 * r + 1)).2.1, (g (4 * r + 1)).2.2.1, (g (4 * r + 1)).2.2.2,
    (g (4 * r + 2)).1, (g (4 * r + 2)).2.1, (g (4 * r + 2)).2.2.1, (g (4 * r + 2)).2.2.2,
    (g (4 * r + 3)).1, (g (4 * r + 3)).2.1, (g (4 * r + 3)).2.2.1, (g (4 * r + 3)).2.2.2⟩

end AES

/-! ## CBC mode and PKCS7 padding over AES -/

namespace CryptoPrim

open AES

/-- Group bytes into 16-byte AES states (trailing partial data dropped;
all uses have multiple-of-16 input). -/
def toBlocks : List Nat → List St
  | b0 :: b1 :: b2 :: b3 :: b4 :: b5 :: b6 :: b7 ::
    b8 :: b9 :: b10 :: b11 :: b12 :: b13 :: b14 :: b15 :: rest =>
    ⟨b0, b1, b2, b3, b4, b5, b6, b7, b8, b9, b10, b11, b12, b13, b14, b15⟩ :: toBlocks rest
  | _ => []

/-- Serialise AES states back to bytes. -/
def ofBlocks : List St → List Nat
  | [] => []
  | s :: rest =>
    [s.b0, s.b1, s.b2, s.b3, s.b4, s.b5, s.b6, s.b7,
     s.b8, s.b9, s.b10, s.b11, s.b12, s.b13, s.b14, s.b15] ++ ofBlocks rest

/-- First sixteen bytes as an AES state (used for the IV). -/
def stOf (bs : List Nat) : St :=
  ⟨bs.getD 0 0, bs.getD 1 0, bs.getD 2 0, bs.getD 3 0,
   bs.getD 4 0, bs.getD 5 0, bs.getD 6 0, bs.getD 7 0,
   bs.getD 8 0, bs.getD 9 0, bs.getD 10 0, bs.getD 11 0,
   bs.getD 12 0, bs.getD 13 0, bs.getD 14 0, bs.getD 15 0⟩

/-- CBC encryption: each plaintext block is xored with the previous
ciphertext block (initially the IV) before the block cipher. -/
def cbcEnc (keys : List St) (prev : St) : List St → List St
  | [] => []
  | p :: rest =>
    let c := encryptBlock keys (addRoundKey prev p)
    c :: cbcEnc keys c rest

/-- CBC decryption. -/
def cbcDec (keys : List St) (prev : St) : List St → List St
  | [] => []
  | c :: rest => addRoundKey prev (decryptBlock keys c) :: cbcDec keys c rest

/-- PKCS7 padding to the AES block size. -/
def pkcs7Pad (bs : List Nat) : List Nat :=
  let p := 16 - bs.length % 16
  bs ++ List.replicate p p

/-- The unpadding step of `CryptoJSAES.decrypt`: read the final byte and
strip that many (an empty input raises; a zero pad byte empties the
Python slice `[:-0]`). -/
def pkcs7Unpad (bs : List Nat) : Option (List Nat) :=
  match bs.getLast? with
  | Option.none => Option.none
  | some p => some (if p = 0 then [] else bs.take (bs.length - p))

theorem toBlocks_ofBlocks : ∀ blocks : List St, toBlocks (ofBlocks blocks) = blocks
  | [] => rfl
  | s :: rest => by
    show toBlocks (s.b0 :: s.b1 :: s.b2 :: s.b3 :: s.b4 :: s.b5 :: s.b6 :: s.b7 ::
      s.b8 :: s.b9 :: s.b10 :: s.b11 :: s.b12 :: s.b13 :: s.b14 :: s.b15 :: ofBlocks rest) = s :: rest
    rw [toBlocks, toBlocks_ofBlocks rest]

theorem ofBlocks_toBlocks : ∀ bs : List Nat, bs.length % 16 = 0 → ofBlocks (toBlocks bs) = bs
  | [], _ => rfl
  | b0 :: b1 :: b2 :: b3 :: b4 :: b5 :: b6 :: b7 ::
    b8 :: b9 :: b10 :: b11 :: b12 :: b13 :: b14 :: b15 :: rest, h => by
    have hr : rest.length % 16 = 0 := by
      simp only [List.length_cons] at h
      omega
    show ofBlocks (St.mk b0 b1 b2 b3 b4 b5 b6 b7 b8 b9 b10 b11 b12 b13 b14 b15 :: toBlocks rest) = _
    rw [ofBlocks, ofBlocks_toBlocks rest hr]
    rfl
  | b0 :: [], h => by simp at h
  | b0 :: b1 :: [], h => by simp at h
  | b0 :: b1 :: b2 :: [], h => by simp at h
  | b0 :: b1 :: b2 :: b3 :: [], h => by simp at h
  | b0 :: b1 :: b2 :: b3 :: b4 :: [], h => by simp at h
  | b0 :: b1 :: b2 :: b3 :: b4 :: b5 :: [], h => by simp at h
  | b0 :: b1 :: b2 :: b3 :: b4 :: b5 :: b6 :: [], h => by simp at h
  | b0 :: b1 :: b2 :: b3 :: b4 :: b5 :: b6 :: b7 :: [], h => by simp at h
  | b0 :: b1 :: b2 :: b3 :: b4 :: b5 :: b6 :: b7 :: b8 :: [], h => by simp at h
  | b0 :: b1 :: b2 :: b3 :: b4 :: b5 :: b6 :: b7 :: b8 :: b9 :: [], h => by simp at h
  | b0 :: b1 :: b2 :: b3 :: b4 :: b5 :: b6 :: b7 :: b8 :: b9 :: b10 :: [], h => by simp at h
  | b0 :: b1 :: b2 :: b3 :: b4 :: b5 :: b6 :: b7 :: b8 :: b9 :: b10 :: b11 :: [], h => by simp at h
  | b0 :: b1 :: b2 :: b3 :: b4 :: b5 :: b6 :: b7 :: b8 :: b9 :: b10 :: b11 :: b12 :: [], h => by simp at h
  | b0 :: b1 :: b2 :: b3 :: b4 :: b5 :: b6 :: b7 :: b8 :: b9 :: b10 :: b11 :: b12 :: b13 :: [], h => by simp at h
  | b0 :: b1 :: b2 :: b3 :: b4 :: b5 :: b6 :: b7 :: b8 :: b9 :: b10 :: b11 :: b12 :: b13 :: b14 :: [], h => by simp at h

theorem toBlocks_wf : ∀ bs : List Nat, (∀ b ∈ bs, b < 256) → ∀ st ∈ toBlocks bs, Wf st
  | b0 :: b1 :: b2 :: b3 :: b4 :: b5 :: b6 :: b7 ::
    b8 :: b9 :: b10 :: b11 :: b12 :: b13 :: b14 :: b15 :: rest, h => by
    intro st hst
    rw [toBlocks, List.mem_cons] at hst
    rcases hst with hst | hst
    · subst hst
      refine ⟨?_, ?_, ?_, ?_, ?_, ?_, ?_, ?_, ?_, ?_, ?_, ?_, ?_, ?_, ?_, ?_⟩ <;>
        exact h _ (by simp)
    · exact toBlocks_wf rest (fun b hb => h b (by simp [hb])) st hst
  | [], _ => by intro st hst; simp [toBlocks] at hst
  | [b0], _ => by intro st hst; simp [toBlocks] at hst
  | [b0, b1], _ => by intro st hst; simp [toBlocks] at hst
  | [b0, b1, b2], _ => by intro st hst; simp [toBlocks] at hst
  | [b0, b1, b2, b3], _ => by intro st hst; simp [toBlocks] at hst
  | [b0, b1, b2, b3, b4], _ => by intro st hst; simp [toBlocks] at hst
  | [b0, b1, b2, b3, b4, b5], _ => by intro st hst; simp [toBlocks] at hst
  | [b0, b1, b2, b3, b4, b5, b6], _ => by intro st hst; simp [toBlocks] at hst
  | [b0, b1, b2, b3, b4, b5, b6, b7], _ => by intro st hst; simp [toBlocks] at hst
  | [b0, b1, b2, b3, b4, b5, b6, b7, b8], _ => by intro st hst; simp [toBlocks] at hst
  | [b0, b1, b2, b3, b4, b5, b6, b7, b8, b9], _ => by intro st hst; simp [toBlocks] at hst
  | [b0, b1, b2, b3, b4, b5, b6, b7, b8, b9, b10], _ => by intro st hst; simp [toBlocks] at hst
  | [b0, b1, b2, b3, b4, b5, b6, b7, b8, b9, b10, b11], _ => by intro st hst; simp [toBlocks] at hst
  | [b0, b1, b2, b3, b4, b5, b6, b7, b8, b9, b10, b11, b12], _ => by
    intro st hst; simp [toBlocks] at hst
  | [b0, b1, b2, b3, b4, b5, b6, b7, b8, b9, b10, b11, b12, b13], _ => by
    intro st hst; simp [toBlocks] at hst
  | [b0, b1, b2, b3, b4, b5, b6, b7, b8, b9, b10, b11, b12, b13, b14], _ => by
    intro st hst; simp [toBlocks] at hst

theorem ofBlocks_wf : ∀ blocks : List St, (∀ st ∈ blocks, Wf st) →
    ∀ b ∈ ofBlocks blocks, b < 256
  | [], _ => by intro b hb; simp [ofBlocks] at hb
  | s :: rest, h => by
    intro b hb
    rw [ofBlocks, List.mem_append] at hb
    rcases hb with hb | hb
    · obtain ⟨h0, h1, h2, h3, h4, h5, h6, h7, h8, h9, h10, h11, h12, h13, h14, h15⟩ :=
        h s (by simp)
      simp only [List.mem_cons] at hb
      rcases hb with rfl | rfl | rfl | rfl | rfl | rfl | rfl | rfl | rfl | rfl | rfl | rfl |
        rfl | rfl | rfl | rfl | hb
      all_goals first | assumption | simp at hb
    · exact ofBlocks_wf rest (fun st hst => h st (by simp [hst])) b hb

/-- CBC decryption inverts CBC encryption (well-formed keys, IV and
plaintext blocks). -/
theorem cbcDec_cbcEnc (keys : List St) (hk : ∀ k ∈ keys, Wf k) :
    ∀ (ps : List St) (prev : St), Wf prev → (∀ p ∈ ps, Wf p) →
      cbcDec keys prev (cbcEnc keys prev ps) = ps := by
  intro ps
  induction ps with
  | nil => intro prev _ _; rfl
  | cons p rest ih =>
    intro prev hprev hps
    have hp : Wf p := hps p (by simp)
    show addRoundKey prev (decryptBlock keys (encryptBlock keys (addRoundKey prev p))) ::
      cbcDec keys (encryptBlock keys (addRoundKey prev p))
        (cbcEnc keys (encryptBlock keys (addRoundKey prev p)) rest) = p :: rest
    rw [decryptBlock_encryptBlock keys hk _ (Wf_addRoundKey hprev hp),
      addRoundKey_addRoundKey,
      ih _ (Wf_encryptBlock keys hk _ (Wf_addRoundKey hprev hp))
        (fun x hx => hps x (by simp [hx]))]

/-- CBC ciphertext blocks are well-formed. -/
theorem cbcEnc_wf (keys : List St) (hk : ∀ k ∈ keys, Wf k) :
    ∀ (ps : List St) (prev : St), Wf prev → (∀ p ∈ ps, Wf p) →
      ∀ c ∈ cbcEnc keys prev ps, Wf c := by
  intro ps
  induction ps with
  | nil => intro prev _ _ c hc; simp [cbcEnc] at hc
  | cons p rest ih =>
    intro prev hprev hps c hc
    rw [cbcEnc] at hc
    simp only [List.mem_cons] at hc
    have hcw : Wf (encryptBlock keys (addRoundKey prev p)) :=
      Wf_encryptBlock keys hk _ (Wf_addRoundKey hprev (hps p (by simp)))
    rcases hc with rfl | hc
    · exact hcw
    · exact ih _ hcw (fun x hx => hps x (by simp [hx])) c hc

/-- Unpadding inverts padding. -/
theorem pkcs7Unpad_pkcs7Pad (bs : List Nat) : pkcs7Unpad (pkcs7Pad bs) = some bs := by
  unfold pkcs7Pad pkcs7Unpad
  have hp1 : 1 ≤ 16 - bs.length % 16 := by omega
  have hlast : (bs ++ List.replicate (16 - bs.length % 16) (16 - bs.length % 16)).getLast? =
      some (16 - bs.length % 16) := by
    rw [List.getLast?_append_of_ne_nil]
    · rw [List.getLast?_replicate]
      simp only [if_neg (by omega : ¬(16 - bs.length % 16 = 0))]
    · intro hnil
      rw [List.replicate_eq_nil_iff] at hnil
      omega
  rw [hlast]
  simp only [if_neg (by omega : ¬(16 - bs.length % 16 = 0))]
  rw [List.length_append, List.length_replicate]
  congr 1
  rw [show bs.length + (16 - bs.length % 16) - (16 - bs.length % 16) = bs.length by omega]
  exact List.take_left bs _

/-- Padded data length is a multiple of the block size. -/
theorem pkcs7Pad_length (bs : List Nat) : (pkcs7Pad bs).length % 16 = 0 := by
  unfold pkcs7Pad
  rw [List.length_append, List.length_replicate]
  omega

/-- Padding preserves byte bounds. -/
theorem pkcs7Pad_wf {bs : List Nat} (h : ∀ b ∈ bs, b < 256) :
    ∀ b ∈ pkcs7Pad bs, b < 256 := by
  intro b hb
  unfold pkcs7Pad at hb
  rw [List.mem_append] at hb
  rcases hb with hb | hb
  · exact h b hb
  · rw [List.eq_of_mem_replicate hb]
    omega

end CryptoPrim

/-! ## base64 (`base64.b64encode` / `b64decode`) -/

namespace B64

/-- The base64 alphabet. -/
def table : List Char :=
  ['A', 'B', 'C', 'D', 'E', 'F', 'G', 'H', 'I', 'J', 'K', 'L', 'M', 'N', 'O', 'P', 'Q', 'R', 'S', 'T', 'U', 'V', 'W', 'X', 'Y', 'Z', 'a', 'b', 'c', 'd', 'e', 'f', 'g', 'h', 'i', 'j', 'k', 'l', 'm', 'n', 'o', 'p', 'q', 'r', 's', 't', 'u', 'v', 'w', 'x', 'y', 'z', '0', '1', '2', '3', '4', '5', '6', '7', '8', '9', '+', '/']

def b64Char (n : Nat) : Char := table.getD n 'A'

/-- Index of a character in a list. -/
def idxOfChar : List Char → Char → Option Nat
  | [], _ => Option.none
  | x :: rest, c => if c = x then some 0 else (idxOfChar rest c).map (· + 1)

def b64Val (c : Char) : Option Nat := idxOfChar table c

/-- Standard base64 encoding with padding. -/
def b64encode : List Nat → List Char
  | a :: b :: c :: rest =>
    b64Char (a / 4) :: b64Char (a % 4 * 16 + b / 16) ::
      b64Char (b % 16 * 4 + c / 64) :: b64Char (c % 64) :: b64encode rest
  | [a, b] => [b64Char (a / 4), b64Char (a % 4 * 16 + b / 16), b64Char (b % 16 * 4), '=']
  | [a] => [b64Char (a / 4), b64Char (a % 4 * 16), '=', '=']
  | [] => []

/-- Standard base64 decoding; `none` on malformed input. -/
def b64decode : List Char → Option (List Nat)
  | [] => some []
  | c1 :: c2 :: c3 :: c4 :: rest =>
    match b64Val c1, b64Val c2 with
    | some n1, some n2 =>
      if c3 = '=' then
        if c4 = '=' ∧ rest = [] then some [n1 * 4 + n2 / 16] else Option.none
      else
        match b64Val c3 with
        | some n3 =>
          if c4 = '=' then
            if rest = [] then some [n1 * 4 + n2 / 16, n2 % 16 * 16 + n3 / 4]
            else Option.none
          else
            match b64Val c4 with
            | some n4 =>
              (b64decode rest).map (fun tl =>
                (n1 * 4 + n2 / 16) :: (n2 % 16 * 16 + n3 / 4) :: (n3 % 4 * 64 + n4) :: tl)
            | Option.none => Option.none
        | Option.none => Option.none
    | _, _ => Option.none
  | _ => Option.none

set_option maxRecDepth 10000 in
theorem b64Val_b64Char : ∀ n < 64, b64Val (b64Char n) = some n := by decide

set_option maxRecDepth 10000 in
theorem b64Char_ne_pad : ∀ n < 64, ¬(b64Char n = '=') := by decide

/-- Decoding inverts encoding on byte data. -/
theorem b64decode_b64encode :
    ∀ bs : List Nat, (∀ x ∈ bs, x < 256) → b64decode (b64encode bs) = some bs
  | [], _ => rfl
  | [a], h => by
    have ha : a < 256 := h a (by simp)
    rw [b64encode, b64decode]
    simp only [b64Val_b64Char (a / 4) (by omega), b64Val_b64Char (a % 4 * 16) (by omega)]
    simp
    omega
  | [a, b], h => by
    have ha : a < 256 := h a (by simp)
    have hb : b < 256 := h b (by simp)
    rw [b64encode, b64decode]
    simp only [b64Val_b64Char (a / 4) (by omega),
      b64Val_b64Char (a % 4 * 16 + b / 16) (by omega),
      b64Val_b64Char (b % 16 * 4) (by omega)]
    simp [b64Char_ne_pad (b % 16 * 4) (by omega)]
    omega
  | a :: b :: c :: rest, h => by
    have ha : a < 256 := h a (by simp)
    have hb : b < 256 := h b (by simp)
    have hc : c < 256 := h c (by simp)
    rw [b64encode, b64decode]
    simp only [b64Val_b64Char (a / 4) (by omega),
      b64Val_b64Char (a % 4 * 16 + b / 16) (by omega),
      b64Val_b64Char (b % 16 * 4 + c / 64) (by omega),
      b64Val_b64Char (c % 64) (by omega)]
    simp [b64Char_ne_pad (b % 16 * 4 + c / 64) (by omega),
      b64Char_ne_pad (c % 64) (by omega),
      b64decode_b64encode rest (fun x hx => h x (by simp [hx]))]
    omega

end B64

/-! ## JSON (`json.dumps(data, ensure_ascii=False)` / `json.loads`)

The values exchanged by `CryptoJSAES` are the JSON-serialisable Python
values: `None`, booleans, integers, strings, lists and string-keyed
dicts (floats are outside this development).  Strings are lists of
Unicode code points; the printer emits the UTF-8 bytes `json.dumps`
produces with its default separators `", "` and `": "`, and the parser
models `plaintext.decode("utf-8")` followed by `json.loads` as one pass
over the bytes. -/

namespace Json

mutual

inductive JVal where
  | jnull : JVal
  | jbool : Bool → JVal
  | jint : Int → JVal
  | jstr : List Nat → JVal
  | jarr : JArr → JVal
  | jobj : JObj → JVal

inductive JArr where
  | anil : JArr
  | acons : JVal → JArr → JArr

inductive JObj where
  | onil : JObj
  | ocons : List Nat → JVal → JObj → JObj

end

/-- Lowercase hex digit, as in `"\u%04x" % i`. -/
def hexDig (d : Nat) : Nat := if d < 10 then 48 + d else 87 + d

/-- UTF-8 bytes `json.dumps(..., ensure_ascii=False)` emits for one code
point of a string: `"` and `\` and the controls are escaped (short
escapes for BS/TAB/LF/FF/CR, `\u00XX` otherwise), the rest is plain
UTF-8. -/
def charBytes (c : Nat) : List Nat :=
  if c = 34 then [92, 34]
  else if c = 92 then [92, 92]
  else if c = 8 then [92, 98]
  else if c = 9 then [92, 116]
  else if c = 10 then [92, 110]
  else if c = 12 then [92, 102]
  else if c = 13 then [92, 114]
  else if c < 32 then [92, 117, 48, 48, hexDig (c / 16), hexDig (c % 16)]
  else if c < 128 then [c]
  else if c < 2048 then [192 + c / 64, 128 + c % 64]
  else if c < 65536 then [224 + c / 4096, 128 + c / 64 % 64, 128 + c % 64]
  else [240 + c / 262144, 128 + c / 4096 % 64, 128 + c / 64 % 64, 128 + c % 64]

def escBytes : List Nat → List Nat
  | [] => []
  | c :: tl => charBytes c ++ escBytes tl

/-- A JSON string literal: quote, escaped body, quote. -/
def strBytes (s : List Nat) : List Nat := 34 :: (escBytes s ++ [34])

/-- Decimal digits of `n`, most significant first (`f` is fuel, `n + 1`
always suffices). -/
def natDigits : Nat → Nat → List Nat
  | 0, _ => []
  | f + 1, n => if n < 10 then [48 + n] else natDigits f (n / 10) ++ [48 + n % 10]

def natBytes (n : Nat) : List Nat := natDigits (n + 1) n

def intBytes : Int → List Nat
  | Int.ofNat m => natBytes m
  | Int.negSucc m => 45 :: natBytes (m + 1)

mutual

/-- The bytes `json.dumps(data, ensure_ascii=False)` produces (default
separators `", "` and `": "`). -/
def jsonBytes : JVal → List Nat
  | .jnull => [110, 117, 108, 108]
  | .jbool true => [116, 114, 117, 101]
  | .jbool false => [102, 97, 108, 115, 101]
  | .jint n => intBytes n
  | .jstr s => strBytes s
  | .jarr .anil => [91, 93]
  | .jarr a => 91 :: (arrBytes a ++ [93])
  | .jobj .onil => [123, 125]
  | .jobj o => 123 :: (objBytes o ++ [125])

def arrBytes : JArr → List Nat
  | .anil => []
  | .acons v .anil => jsonBytes v
  | .acons v tl => jsonBytes v ++ 44 :: 32 :: arrBytes tl

def objBytes : JObj → List Nat
  | .onil => []
  | .ocons k v .onil => strBytes k ++ 58 :: 32 :: jsonBytes v
  | .ocons k v tl => strBytes k ++ 58 :: 32 :: (jsonBytes v ++ 44 :: 32 :: objBytes tl)

end

/-- A Python `str` code point: below `0x110000` and not a surrogate
(surrogates make `encode("utf-8")` raise). -/
def cwfB (c : Nat) : Bool := decide (c < 1114112 ∧ (c < 55296 ∨ 57344 ≤ c))

def swfB (s : List Nat) : Bool := s.all cwfB

def keyMem (k : List Nat) : JObj → Bool
  | .onil => false
  | .ocons k2 _ tl => (k == k2) || keyMem k tl

mutual

/-- Well-formed JSON-serialisable value: valid code points in strings,
and the keys of each object distinct (a Python dict cannot repeat a
key). -/
def jwf : JVal → Bool
  | .jnull => true
  | .jbool _ => true
  | .jint _ => true
  | .jstr s => swfB s
  | .jarr a => awf a
  | .jobj o => owf o

def awf : JArr → Bool
  | .anil => true
  | .acons v tl => jwf v && awf tl

def owf : JObj → Bool
  | .onil => true
  | .ocons k v tl => swfB k && jwf v && !(keyMem k tl) && owf tl

end

def wsb (b : Nat) : Bool := b = 32 || b = 9 || b = 10 || b = 13

def skipWs : List Nat → List Nat
  | [] => []
  | b :: r => if wsb b then skipWs r else b :: r

def isDigitB (b : Nat) : Bool := decide (48 ≤ b ∧ b ≤ 57)

/-- Longest digit prefix and the remainder. -/
def digitsSpan : List Nat → List Nat × List Nat
  | [] => ([], [])
  | b :: r =>
    if isDigitB b then
      let p := digitsSpan r
      (b :: p.1, p.2)
    else ([], b :: r)

def natOfDigits (ds : List Nat) : Nat := ds.foldl (fun a d => a * 10 + (d - 48)) 0

def headNotDigit : List Nat → Bool
  | [] => true
  | b :: _ => !isDigitB b

def hexVal (b : Nat) : Option Nat :=
  if 48 ≤ b ∧ b ≤ 57 then some (b - 48)
  else if 97 ≤ b ∧ b ≤ 102 then some (b - 87)
  else if 65 ≤ b ∧ b ≤ 70 then some (b - 55)
  else Option.none

def escDecode (e : Nat) : Option Nat :=
  if e = 34 then some 34
  else if e = 92 then some 92
  else if e = 47 then some 47
  else if e = 98 then some 8
  else if e = 102 then some 12
  else if e = 110 then some 10
  else if e = 114 then some 13
  else if e = 116 then some 9
  else Option.none

/-- Body of a JSON string after the opening quote: backslash escapes
(including `\uXXXX`; surrogate-pair joining is not needed, the printer
never emits `\u` above `0x1f`) and UTF-8 decoding, up to the closing
quote.  Raw control bytes and malformed UTF-8 are rejected as
`json.loads` and `decode("utf-8")` do. -/
def parseStrBody : Nat → List Nat → Option (List Nat × List Nat)
  | 0, _ => Option.none
  | _ + 1, [] => Option.none
  | f + 1, b :: r =>
    if b = 34 then some ([], r)
    else if b = 92 then
      match r with
      | [] => Option.none
      | e :: r2 =>
        if e = 117 then
          match r2 with
          | h1 :: h2 :: h3 :: h4 :: r3 =>
            match hexVal h1, hexVal h2, hexVal h3, hexVal h4 with
            | some v1, some v2, some v3, some v4 =>
              (parseStrBody f r3).map
                (fun p => ((v1 * 4096 + v2 * 256 + v3 * 16 + v4) :: p.1, p.2))
            | _, _, _, _ => Option.none
          | _ => Option.none
        else
          match escDecode e with
          | some c => (parseStrBody f r2).map (fun p => (c :: p.1, p.2))
          | Option.none => Option.none
    else if b < 32 then Option.none
    else if b < 128 then (parseStrBody f r).map (fun p => (b :: p.1, p.2))
    else if b < 192 then Option.none
    else if b < 224 then
      match r with
      | b2 :: r2 =>
        if 128 ≤ b2 ∧ b2 < 192 then
          (parseStrBody f r2).map (fun p => (((b - 192) * 64 + (b2 - 128)) :: p.1, p.2))
        else Option.none
      | [] => Option.none
    else if b < 240 then
      match r with
      | b2 :: b3 :: r2 =>
        if (128 ≤ b2 ∧ b2 < 192) ∧ (128 ≤ b3 ∧ b3 < 192) then
          (parseStrBody f r2).map
            (fun p => (((b - 224) * 4096 + (b2 - 128) * 64 + (b3 - 128)) :: p.1, p.2))
        else Option.none
      | _ => Option.none
    else
      match r with
      | b2 :: b3 :: b4 :: r2 =>
        if (128 ≤ b2 ∧ b2 < 192) ∧ (128 ≤ b3 ∧ b3 < 192) ∧ (128 ≤ b4 ∧ b4 < 192) then
          (parseStrBody f r2).map
            (fun p =>
              (((b - 240) * 262144 + (b2 - 128) * 4096 + (b3 - 128) * 64 + (b4 - 128)) :: p.1,
                p.2))
        else Option.none
      | _ => Option.none

mutual

/-- Recursive-descent JSON value parser (fuel-indexed; the input length
plus one is always enough fuel). -/
def parseVal : Nat → List Nat → Option (JVal × List Nat)
  | 0, _ => Option.none
  | f + 1, s =>
    match skipWs s with
    | [] => Option.none
    | b :: r =>
      if b = 110 then
        match r with
        | 117 :: 108 :: 108 :: r2 => some (.jnull, r2)
        | _ => Option.none
      else if b = 116 then
        match r with
        | 114 :: 117 :: 101 :: r2 => some (.jbool true, r2)
        | _ => Option.none
      else if b = 102 then
        match r with
        | 97 :: 108 :: 115 :: 101 :: r2 => some (.jbool false, r2)
        | _ => Option.none
      else if b = 34 then
        (parseStrBody f r).map (fun p => (.jstr p.1, p.2))
      else if b = 91 then
        match skipWs r with
        | [] => Option.none
        | c :: r2 =>
          if c = 93 then some (.jarr .anil, r2)
          else (parseElems f r).map (fun p => (.jarr p.1, p.2))
      else if b = 123 then
        match skipWs r with
        | [] => Option.none
        | c :: r2 =>
          if c = 125 then some (.jobj .onil, r2)
          else (parseMembers f r).map (fun p => (.jobj p.1, p.2))
      else if b = 45 then
        match digitsSpan r with
        | ([], _) => Option.none
        | (d :: ds, r2) => some (.jint (-(natOfDigits (d :: ds) : Int)), r2)
      else if isDigitB b then
        match digitsSpan (b :: r) with
        | (ds, r2) => some (.jint (Int.ofNat (natOfDigits ds)), r2)
      else Option.none

/-- Comma-separated array elements, up to and including the closing
bracket. -/
def parseElems : Nat → List Nat → Option (JArr × List Nat)
  | 0, _ => Option.none
  | f + 1, s =>
    match parseVal f s with
    | some (v, r) =>
      (match skipWs r with
       | [] => Option.none
       | c :: r2 =>
         if c = 44 then (parseElems f r2).map (fun p => (.acons v p.1, p.2))
         else if c = 93 then some (.acons v .anil, r2)
         else Option.none)
    | Option.none => Option.none

/-- Comma-separated object members, up to and including the closing
brace. -/
def parseMembers : Nat → List Nat → Option (JObj × List Nat)
  | 0, _ => Option.none
  | f + 1, s =>
    match skipWs s with
    | 34 :: r =>
      (match parseStrBody f r with
       | some (k, r2) =>
         (match skipWs r2 with
          | 58 :: r3 =>
            (match parseVal f r3 with
             | some (v, r4) =>
               (match skipWs r4 with
                | [] => Option.none
                | c :: r5 =>
                  if c = 44 then (parseMembers f r5).map (fun p => (.ocons k v p.1, p.2))
                  else if c = 125 then some (.ocons k v .onil, r5)
                  else Option.none)
             | Option.none => Option.none)
          | _ => Option.none)
       | Option.none => Option.none)
    | _ => Option.none

end

/-- The composite `json.loads(plaintext.decode("utf-8"))`: a single
value with only whitespace around it. -/
def jsonLoads (bs : List Nat) : Option JVal :=
  match parseVal (bs.length + 1) bs with
  | some (v, rest) => if skipWs rest = [] then some v else Option.none
  | Option.none => Option.none

end Json

namespace Json

theorem skipWs_append_all (p x : List Nat) (hp : p.all wsb = true) :
    skipWs (p ++ x) = skipWs x := by
  induction p with
  | nil => simp
  | cons b q ih =>
    simp only [List.all_cons, Bool.and_eq_true] at hp
    simp [skipWs, hp.1, ih hp.2]

theorem wsb_ge (b : Nat) (h : 34 ≤ b) : wsb b = false := by
  simp [wsb]
  omega

theorem skipWs_append_cons (p : List Nat) (b : Nat) (l : List Nat)
    (hp : p.all wsb = true) (hb : wsb b = false) :
    skipWs (p ++ b :: l) = b :: l := by
  rw [skipWs_append_all p _ hp]
  simp [skipWs, hb]

theorem natDigits_ne_nil : ∀ f n, natDigits (f + 1) n ≠ [] := by
  intro f n
  rw [natDigits]
  by_cases h : n < 10
  · simp [h]
  · simp [h]

theorem natDigits_digits : ∀ f n, ∀ d ∈ natDigits f n, 48 ≤ d ∧ d ≤ 57
  | 0, n => by simp [natDigits]
  | f + 1, n => by
    rw [natDigits]
    by_cases h : n < 10
    · simp [h]
      omega
    · intro d hd
      simp only [if_neg h, List.mem_append, List.mem_singleton] at hd
      rcases hd with hd | rfl
      · exact natDigits_digits f (n / 10) d hd
      · omega

theorem natOfDigits_append_last (ds : List Nat) (d : Nat) :
    natOfDigits (ds ++ [d]) = natOfDigits ds * 10 + (d - 48) := by
  unfold natOfDigits
  rw [List.foldl_append]
  rfl

theorem natOfDigits_natDigits : ∀ f n, n ≤ f → natOfDigits (natDigits (f + 1) n) = n
  | 0, n, h => by
    have hn : n = 0 := by omega
    subst hn
    rfl
  | f + 1, n, h => by
    rw [natDigits]
    by_cases h10 : n < 10
    · simp only [if_pos h10]
      unfold natOfDigits
      simp
    · rw [if_neg h10, natOfDigits_append_last,
        natOfDigits_natDigits f (n / 10) (by omega)]
      omega

theorem natBytes_ne_nil (n : Nat) : natBytes n ≠ [] := natDigits_ne_nil n n

theorem natBytes_digits (n : Nat) : ∀ d ∈ natBytes n, 48 ≤ d ∧ d ≤ 57 :=
  natDigits_digits (n + 1) n

theorem natOfDigits_natBytes (n : Nat) : natOfDigits (natBytes n) = n :=
  natOfDigits_natDigits n n (Nat.le_refl n)

theorem digitsSpan_append : ∀ (ds rest : List Nat), (∀ d ∈ ds, 48 ≤ d ∧ d ≤ 57) →
    headNotDigit rest = true → digitsSpan (ds ++ rest) = (ds, rest)
  | [], rest, _, hr => by
    cases rest with
    | nil => rfl
    | cons b r =>
      simp only [headNotDigit, Bool.not_eq_true'] at hr
      simp [digitsSpan, hr]
  | d :: ds, rest, h, hr => by
    have hd := h d (by simp)
    have hdig : isDigitB d = true := by
      simp [isDigitB]
      omega
    simp [digitsSpan, hdig,
      digitsSpan_append ds rest (fun x hx => h x (by simp [hx])) hr]

set_option maxRecDepth 2000 in
theorem hexVal_hexDig : ∀ x < 16, hexVal (hexDig x) = some x := by decide

theorem hexVal_48 : hexVal 48 = some 0 := by decide

/-- Every printed value starts with a byte that is not whitespace, not a
digit-span stopper we care about, and pins down which branch the parser
takes. -/
theorem jsonBytes_cons :
    ∀ v : JVal, ∃ b l, jsonBytes v = b :: l ∧ 34 ≤ b ∧ b ≤ 123 ∧ b ≠ 93 ∧ b ≠ 125 := by
  intro v
  cases v with
  | jnull => exact ⟨110, [117, 108, 108], rfl, by omega, by omega, by omega, by omega⟩
  | jbool b =>
    cases b with
    | true => exact ⟨116, [114, 117, 101], rfl, by omega, by omega, by omega, by omega⟩
    | false => exact ⟨102, [97, 108, 115, 101], rfl, by omega, by omega, by omega, by omega⟩
  | jint n =>
    cases n with
    | ofNat m =>
      cases hnb : natBytes m with
      | nil => exact absurd hnb (natBytes_ne_nil m)
      | cons d l =>
        have hd : 48 ≤ d ∧ d ≤ 57 := by
          have := natBytes_digits m
          rw [hnb] at this
          exact this d (by simp)
        exact ⟨d, l, by rw [show jsonBytes (JVal.jint (Int.ofNat m)) = natBytes m from rfl, hnb],
          by omega, by omega, by omega, by omega⟩
    | negSucc m =>
      exact ⟨45, natBytes (m + 1), rfl, by omega, by omega, by omega, by omega⟩
  | jstr s =>
    exact ⟨34, escBytes s ++ [34], rfl, by omega, by omega, by omega, by omega⟩
  | jarr a =>
    cases a with
    | anil => exact ⟨91, [93], rfl, by omega, by omega, by omega, by omega⟩
    | acons v tl =>
      exact ⟨91, arrBytes (JArr.acons v tl) ++ [93], rfl, by omega, by omega, by omega, by omega⟩
  | jobj o =>
    cases o with
    | onil => exact ⟨123, [125], rfl, by omega, by omega, by omega, by omega⟩
    | ocons k v tl =>
      exact ⟨123, objBytes (JObj.ocons k v tl) ++ [125], rfl, by omega, by omega, by omega,
        by omega⟩

end Json

namespace Json

/-- Parsing a printed string body recovers the code points and stops at
the closing quote. -/
theorem parseStrBody_escBytes :
    ∀ (cs : List Nat) (f : Nat) (rest : List Nat), (∀ c ∈ cs, cwfB c = true) →
      cs.length < f →
      parseStrBody f (escBytes cs ++ 34 :: rest) = some (cs, rest)
  | [], f, rest, _, hf => by
    obtain ⟨f2, rfl⟩ : ∃ f2, f = f2 + 1 := ⟨f - 1, by omega⟩
    simp [escBytes, parseStrBody]
  | c :: tl, f, rest, h, hf => by
    obtain ⟨f2, rfl⟩ : ∃ f2, f = f2 + 1 := ⟨f - 1, by omega⟩
    have hc : cwfB c = true := h c (by simp)
    have hcw : c < 1114112 ∧ (c < 55296 ∨ 57344 ≤ c) := by
      simpa [cwfB] using hc
    have htl := parseStrBody_escBytes tl f2 rest (fun x hx => h x (by simp [hx]))
      (by simp only [List.length_cons] at hf; omega)
    rw [escBytes, List.append_assoc]
    by_cases h34 : c = 34
    · subst h34
      simp [charBytes, parseStrBody, escDecode, htl]
    by_cases h92 : c = 92
    · subst h92
      simp [charBytes, parseStrBody, escDecode, htl]
    by_cases h8 : c = 8
    · subst h8
      simp [charBytes, parseStrBody, escDecode, htl]
    by_cases h9 : c = 9
    · subst h9
      simp [charBytes, parseStrBody, escDecode, htl]
    by_cases h10 : c = 10
    · subst h10
      simp [charBytes, parseStrBody, escDecode, htl]
    by_cases h12 : c = 12
    · subst h12
      simp [charBytes, parseStrBody, escDecode, htl]
    by_cases h13 : c = 13
    · subst h13
      simp [charBytes, parseStrBody, escDecode, htl]
    by_cases hc32 : c < 32
    · simp only [charBytes, if_neg h34, if_neg h92, if_neg h8, if_neg h9, if_neg h10,
        if_neg h12, if_neg h13, if_pos hc32]
      simp [parseStrBody, hexVal_48, hexVal_hexDig (c / 16) (by omega),
        hexVal_hexDig (c % 16) (by omega), htl]
      omega
    by_cases hc128 : c < 128
    · simp only [charBytes, if_neg h34, if_neg h92, if_neg h8, if_neg h9, if_neg h10,
        if_neg h12, if_neg h13, if_neg hc32, if_pos hc128]
      simp [parseStrBody, h34, h92, hc32, hc128, htl]
    by_cases hc2048 : c < 2048
    · simp only [charBytes, if_neg h34, if_neg h92, if_neg h8, if_neg h9, if_neg h10,
        if_neg h12, if_neg h13, if_neg hc32, if_neg hc128, if_pos hc2048]
      have e1 : ¬(192 + c / 64 = 34) := by omega
      have e2 : ¬(192 + c / 64 = 92) := by omega
      have e3 : ¬(192 + c / 64 < 32) := by omega
      have e4 : ¬(192 + c / 64 < 128) := by omega
      have e5 : ¬(192 + c / 64 < 192) := by omega
      have e6 : 192 + c / 64 < 224 := by omega
      have e7 : 128 ≤ 128 + c % 64 ∧ 128 + c % 64 < 192 := by omega
      simp [parseStrBody, e1, e2, e3, e4, e5, e6, e7, htl]
      omega
    by_cases hc65536 : c < 65536
    · simp only [charBytes, if_neg h34, if_neg h92, if_neg h8, if_neg h9, if_neg h10,
        if_neg h12, if_neg h13, if_neg hc32, if_neg hc128, if_neg hc2048, if_pos hc65536]
      have e1 : ¬(224 + c / 4096 = 34) := by omega
      have e2 : ¬(224 + c / 4096 = 92) := by omega
      have e3 : ¬(224 + c / 4096 < 32) := by omega
      have e4 : ¬(224 + c / 4096 < 128) := by omega
      have e5 : ¬(224 + c / 4096 < 192) := by omega
      have e6 : ¬(224 + c / 4096 < 224) := by omega
      have e7 : 224 + c / 4096 < 240 := by omega
      have e8 : (128 ≤ 128 + c / 64 % 64 ∧ 128 + c / 64 % 64 < 192) ∧
          (128 ≤ 128 + c % 64 ∧ 128 + c % 64 < 192) := by omega
      simp [parseStrBody, e1, e2, e3, e4, e5, e6, e7, e8, htl]
      omega
    · simp only [charBytes, if_neg h34, if_neg h92, if_neg h8, if_neg h9, if_neg h10,
        if_neg h12, if_neg h13, if_neg hc32, if_neg hc128, if_neg hc2048, if_neg hc65536]
      have e1 : ¬(240 + c / 262144 = 34) := by omega
      have e2 : ¬(240 + c / 262144 = 92) := by omega
      have e3 : ¬(240 + c / 262144 < 32) := by omega
      have e4 : ¬(240 + c / 262144 < 128) := by omega
      have e5 : ¬(240 + c / 262144 < 192) := by omega
      have e6 : ¬(240 + c / 262144 < 224) := by omega
      have e7 : ¬(240 + c / 262144 < 240) := by omega
      have e8 : (128 ≤ 128 + c / 4096 % 64 ∧ 128 + c / 4096 % 64 < 192) ∧
          (128 ≤ 128 + c / 64 % 64 ∧ 128 + c / 64 % 64 < 192) ∧
          (128 ≤ 128 + c % 64 ∧ 128 + c % 64 < 192) := by omega
      simp [parseStrBody, e1, e2, e3, e4, e5, e6, e7, e8, htl]
      omega

end Json

namespace Json

theorem charBytes_len_pos (c : Nat) : 0 < (charBytes c).length := by
  by_cases h1 : c = 34
  · simp [charBytes, h1]
  by_cases h2 : c = 92
  · simp [charBytes, h1, h2]
  by_cases h3 : c = 8
  · simp [charBytes, h1, h2, h3]
  by_cases h4 : c = 9
  · simp [charBytes, h1, h2, h3, h4]
  by_cases h5 : c = 10
  · simp [charBytes, h1, h2, h3, h4, h5]
  by_cases h6 : c = 12
  · simp [charBytes, h1, h2, h3, h4, h5, h6]
  by_cases h7 : c = 13
  · simp [charBytes, h1, h2, h3, h4, h5, h6, h7]
  by_cases h8 : c < 32
  · simp [charBytes, h1, h2, h3, h4, h5, h6, h7, h8]
  by_cases h9 : c < 128
  · simp [charBytes, h1, h2, h3, h4, h5, h6, h7, h8, h9]
  by_cases h10 : c < 2048
  · simp [charBytes, h1, h2, h3, h4, h5, h6, h7, h8, h9, h10]
  by_cases h11 : c < 65536
  · simp [charBytes, h1, h2, h3, h4, h5, h6, h7, h8, h9, h10, h11]
  · simp [charBytes, h1, h2, h3, h4, h5, h6, h7, h8, h9, h10, h11]

theorem escBytes_len_ge : ∀ cs : List Nat, cs.length ≤ (escBytes cs).length
  | [] => by simp [escBytes]
  | c :: tl => by
    rw [escBytes]
    simp only [List.length_cons, List.length_append]
    have := charBytes_len_pos c
    have := escBytes_len_ge tl
    omega

mutual

/-- The parser reads back exactly the printed bytes of a well-formed
value (any leading whitespace, anything non-digit after). -/
theorem parseVal_spec :
    ∀ (v : JVal) (f : Nat) (p rest : List Nat),
      jwf v = true → p.all wsb = true → headNotDigit rest = true →
      (jsonBytes v).length < f →
      parseVal f (p ++ (jsonBytes v ++ rest)) = some (v, rest)
  | .jnull, f, p, rest, _, hp, _, hf => by
    obtain ⟨f2, rfl⟩ : ∃ f2, f = f2 + 1 := ⟨f - 1, by omega⟩
    have hjb : jsonBytes JVal.jnull = [110, 117, 108, 108] := rfl
    rw [hjb]
    simp only [List.cons_append, List.nil_append]
    have hsw := skipWs_append_cons p 110 (117 :: 108 :: 108 :: rest) hp rfl
    simp [parseVal, hsw]
  | .jbool true, f, p, rest, _, hp, _, hf => by
    obtain ⟨f2, rfl⟩ : ∃ f2, f = f2 + 1 := ⟨f - 1, by omega⟩
    have hjb : jsonBytes (JVal.jbool true) = [116, 114, 117, 101] := rfl
    rw [hjb]
    simp only [List.cons_append, List.nil_append]
    have hsw := skipWs_append_cons p 116 (114 :: 117 :: 101 :: rest) hp rfl
    simp [parseVal, hsw]
  | .jbool false, f, p, rest, _, hp, _, hf => by
    obtain ⟨f2, rfl⟩ : ∃ f2, f = f2 + 1 := ⟨f - 1, by omega⟩
    have hjb : jsonBytes (JVal.jbool false) = [102, 97, 108, 115, 101] := rfl
    rw [hjb]
    simp only [List.cons_append, List.nil_append]
    have hsw := skipWs_append_cons p 102 (97 :: 108 :: 115 :: 101 :: rest) hp rfl
    simp [parseVal, hsw]
  | .jint (Int.ofNat m), f, p, rest, _, hp, hrest, hf => by
    obtain ⟨f2, rfl⟩ : ∃ f2, f = f2 + 1 := ⟨f - 1, by omega⟩
    cases hnb : natBytes m with
    | nil => exact absurd hnb (natBytes_ne_nil m)
    | cons d l =>
      have hdigs : ∀ x ∈ natBytes m, 48 ≤ x ∧ x ≤ 57 := natBytes_digits m
      have hd : 48 ≤ d ∧ d ≤ 57 := by
        rw [hnb] at hdigs
        exact hdigs d (by simp)
      have hjb : jsonBytes (JVal.jint (Int.ofNat m)) = natBytes m := rfl
      rw [hjb, hnb, List.cons_append]
      have hsw := skipWs_append_cons p d (l ++ rest) hp (wsb_ge d (by omega))
      have n1 : ¬(d = 110) := by omega
      have n2 : ¬(d = 116) := by omega
      have n3 : ¬(d = 102) := by omega
      have n4 : ¬(d = 34) := by omega
      have n5 : ¬(d = 91) := by omega
      have n6 : ¬(d = 123) := by omega
      have n7 : ¬(d = 45) := by omega
      have hdig : isDigitB d = true := by
        simp [isDigitB]
        omega
      have hds : digitsSpan (d :: (l ++ rest)) = (d :: l, rest) := by
        rw [show d :: (l ++ rest) = (d :: l) ++ rest from rfl, ← hnb]
        exact digitsSpan_append (natBytes m) rest hdigs hrest
      simp [parseVal, hsw, n1, n2, n3, n4, n5, n6, n7, hdig, hds, ← hnb,
        natOfDigits_natBytes]
  | .jint (Int.negSucc m), f, p, rest, _, hp, hrest, hf => by
    obtain ⟨f2, rfl⟩ : ∃ f2, f = f2 + 1 := ⟨f - 1, by omega⟩
    cases hnb : natBytes (m + 1) with
    | nil => exact absurd hnb (natBytes_ne_nil (m + 1))
    | cons d l =>
      have hdigs : ∀ x ∈ natBytes (m + 1), 48 ≤ x ∧ x ≤ 57 := natBytes_digits (m + 1)
      have hd : 48 ≤ d ∧ d ≤ 57 := by
        rw [hnb] at hdigs
        exact hdigs d (by simp)
      have hjb : jsonBytes (JVal.jint (Int.negSucc m)) = 45 :: natBytes (m + 1) := rfl
      rw [hjb, hnb, List.cons_append, List.cons_append]
      have hsw := skipWs_append_cons p 45 (d :: (l ++ rest)) hp rfl
      have hds : digitsSpan (d :: (l ++ rest)) = (d :: l, rest) := by
        rw [show d :: (l ++ rest) = (d :: l) ++ rest from rfl, ← hnb]
        exact digitsSpan_append (natBytes (m + 1)) rest hdigs hrest
      have hneg : -(↑(natOfDigits (natBytes (m + 1))) : Int) = Int.negSucc m := by
        rw [natOfDigits_natBytes, Int.negSucc_eq]
        push_cast
        ring
      simp [parseVal, hsw, hds]
      rw [← hnb]
      simp [hneg]
  | .jstr s, f, p, rest, hwf, hp, hrest, hf => by
    obtain ⟨f2, rfl⟩ : ∃ f2, f = f2 + 1 := ⟨f - 1, by omega⟩
    have hcs : ∀ c ∈ s, cwfB c = true := by
      simpa [jwf, swfB, List.all_eq_true] using hwf
    have hjb : jsonBytes (JVal.jstr s) = 34 :: (escBytes s ++ [34]) := rfl
    have hjl : (jsonBytes (JVal.jstr s)).length = (escBytes s).length + 2 := by
      rw [hjb]
      simp
    have hlen : s.length ≤ (escBytes s).length := escBytes_len_ge s
    rw [hjb, List.cons_append, List.append_assoc, List.singleton_append]
    have hsw := skipWs_append_cons p 34 (escBytes s ++ 34 :: rest) hp rfl
    have hpsb := parseStrBody_escBytes s f2 rest hcs (by omega)
    simp [parseVal, hsw, hpsb]
  | .jarr JArr.anil, f, p, rest, _, hp, _, hf => by
    obtain ⟨f2, rfl⟩ : ∃ f2, f = f2 + 1 := ⟨f - 1, by omega⟩
    have hjb : jsonBytes (JVal.jarr JArr.anil) = [91, 93] := rfl
    rw [hjb]
    simp only [List.cons_append, List.nil_append]
    have hsw := skipWs_append_cons p 91 (93 :: rest) hp rfl
    simp [parseVal, hsw, skipWs, wsb]
  | .jarr (JArr.acons v tl), f, p, rest, hwf, hp, _, hf => by
    obtain ⟨f2, rfl⟩ : ∃ f2, f = f2 + 1 := ⟨f - 1, by omega⟩
    have ha : awf (JArr.acons v tl) = true := by simpa [jwf] using hwf
    have hjb : jsonBytes (JVal.jarr (JArr.acons v tl)) =
        91 :: (arrBytes (JArr.acons v tl) ++ [93]) := rfl
    have hjl : (jsonBytes (JVal.jarr (JArr.acons v tl))).length =
        (arrBytes (JArr.acons v tl)).length + 2 := by
      rw [hjb]
      simp
    obtain ⟨b, l, hbl, hb1, hb2, hb3, hb4⟩ := jsonBytes_cons v
    have harr : ∃ X, arrBytes (JArr.acons v tl) = jsonBytes v ++ X := by
      cases tl with
      | anil => exact ⟨[], by simp [arrBytes]⟩
      | acons v2 tl2 => exact ⟨44 :: 32 :: arrBytes (JArr.acons v2 tl2), rfl⟩
    obtain ⟨X, hX⟩ := harr
    have hrec := parseElems_spec (JArr.acons v tl) f2 [] rest ha (by intro hcon; cases hcon)
      rfl (by omega)
    rw [hjb, List.cons_append, List.append_assoc, List.singleton_append]
    rw [hX, hbl] at hrec ⊢
    simp only [List.cons_append, List.append_assoc, List.nil_append] at hrec ⊢
    have hsw := skipWs_append_cons p 91 (b :: (l ++ (X ++ 93 :: rest))) hp rfl
    have hsw2 : skipWs (b :: (l ++ (X ++ 93 :: rest))) = b :: (l ++ (X ++ 93 :: rest)) := by
      simp [skipWs, wsb_ge b hb1]
    simp [parseVal, hsw, hsw2, hb3, hrec]
  | .jobj JObj.onil, f, p, rest, _, hp, _, hf => by
    obtain ⟨f2, rfl⟩ : ∃ f2, f = f2 + 1 := ⟨f - 1, by omega⟩
    have hjb : jsonBytes (JVal.jobj JObj.onil) = [123, 125] := rfl
    rw [hjb]
    simp only [List.cons_append, List.nil_append]
    have hsw := skipWs_append_cons p 123 (125 :: rest) hp rfl
    simp [parseVal, hsw, skipWs, wsb]
  | .jobj (JObj.ocons k v tl), f, p, rest, hwf, hp, _, hf => by
    obtain ⟨f2, rfl⟩ : ∃ f2, f = f2 + 1 := ⟨f - 1, by omega⟩
    have ho : owf (JObj.ocons k v tl) = true := by simpa [jwf] using hwf
    have hjb : jsonBytes (JVal.jobj (JObj.ocons k v tl)) =
        123 :: (objBytes (JObj.ocons k v tl) ++ [125]) := rfl
    have hjl : (jsonBytes (JVal.jobj (JObj.ocons k v tl))).length =
        (objBytes (JObj.ocons k v tl)).length + 2 := by
      rw [hjb]
      simp
    have hobj : ∃ X, objBytes (JObj.ocons k v tl) = 34 :: ((escBytes k ++ [34]) ++ X) := by
      cases tl with
      | onil => exact ⟨58 :: 32 :: jsonBytes v, by simp [objBytes, strBytes]⟩
      | ocons k2 v2 tl2 =>
        exact ⟨58 :: 32 :: (jsonBytes v ++ 44 :: 32 :: objBytes (JObj.ocons k2 v2 tl2)),
          by simp [objBytes, strBytes]⟩
    obtain ⟨X, hX⟩ := hobj
    have hrec := parseMembers_spec (JObj.ocons k v tl) f2 [] rest ho (by intro hcon; cases hcon)
      rfl (by omega)
    rw [hjb, List.cons_append, List.append_assoc, List.singleton_append]
    rw [hX] at hrec ⊢
    simp only [List.cons_append, List.append_assoc, List.nil_append] at hrec ⊢
    have hsw := skipWs_append_cons p 123 (34 :: (escBytes k ++ (34 :: (X ++ 125 :: rest)))) hp rfl
    have hsw2 : skipWs (34 :: (escBytes k ++ (34 :: (X ++ 125 :: rest)))) =
        34 :: (escBytes k ++ (34 :: (X ++ 125 :: rest))) := by
      simp [skipWs, wsb]
    simp [parseVal, hsw, hsw2, hrec]

theorem parseElems_spec :
    ∀ (a : JArr) (f : Nat) (p rest : List Nat),
      awf a = true → a ≠ JArr.anil → p.all wsb = true →
      (arrBytes a).length + 1 < f →
      parseElems f (p ++ (arrBytes a ++ 93 :: rest)) = some (a, rest)
  | JArr.anil, _, _, _, _, hne, _, _ => absurd rfl hne
  | JArr.acons v tl, f, p, rest, ha, _, hp, hf => by
    obtain ⟨f2, rfl⟩ : ∃ f2, f = f2 + 1 := ⟨f - 1, by omega⟩
    have hva : jwf v = true ∧ awf tl = true := by
      simpa [awf, Bool.and_eq_true] using ha
    simp only [parseElems]
    cases tl with
    | anil =>
      have harrEq : arrBytes (JArr.acons v JArr.anil) = jsonBytes v := rfl
      rw [harrEq] at hf ⊢
      have hpv := parseVal_spec v f2 p (93 :: rest) hva.1 hp rfl (by omega)
      simp [hpv, skipWs, wsb]
    | acons v2 tl2 =>
      have harrEq : arrBytes (JArr.acons v (JArr.acons v2 tl2)) =
          jsonBytes v ++ 44 :: 32 :: arrBytes (JArr.acons v2 tl2) := rfl
      have hlen2 : (arrBytes (JArr.acons v (JArr.acons v2 tl2))).length =
          (jsonBytes v).length + 2 + (arrBytes (JArr.acons v2 tl2)).length := by
        rw [harrEq]
        simp
        omega
      rw [harrEq, List.append_assoc]
      simp only [List.cons_append]
      have hpv := parseVal_spec v f2 p
        (44 :: 32 :: (arrBytes (JArr.acons v2 tl2) ++ 93 :: rest)) hva.1 hp rfl (by omega)
      have hrec := parseElems_spec (JArr.acons v2 tl2) f2 [32] rest hva.2
        (by intro hcon; cases hcon) rfl (by omega)
      simp only [List.cons_append, List.nil_append] at hrec
      simp [hpv, skipWs, wsb, hrec]

theorem parseMembers_spec :
    ∀ (o : JObj) (f : Nat) (p rest : List Nat),
      owf o = true → o ≠ JObj.onil → p.all wsb = true →
      (objBytes o).length + 1 < f →
      parseMembers f (p ++ (objBytes o ++ 125 :: rest)) = some (o, rest)
  | JObj.onil, _, _, _, _, hne, _, _ => absurd rfl hne
  | JObj.ocons k v tl, f, p, rest, ho, _, hp, hf => by
    obtain ⟨f2, rfl⟩ : ∃ f2, f = f2 + 1 := ⟨f - 1, by omega⟩
    have hparts : ((swfB k = true ∧ jwf v = true) ∧ keyMem k tl = false) ∧ owf tl = true := by
      simpa [owf, Bool.and_eq_true, Bool.not_eq_true'] using ho
    have hkcs : ∀ c ∈ k, cwfB c = true := by
      simpa [swfB, List.all_eq_true] using hparts.1.1.1
    have hklen : k.length ≤ (escBytes k).length := escBytes_len_ge k
    simp only [parseMembers]
    cases tl with
    | onil =>
      have hoEq : objBytes (JObj.ocons k v JObj.onil) =
          34 :: ((escBytes k ++ [34]) ++ (58 :: 32 :: jsonBytes v)) := by
        simp [objBytes, strBytes]
      have holen : (objBytes (JObj.ocons k v JObj.onil)).length =
          (escBytes k).length + 4 + (jsonBytes v).length := by
        rw [hoEq]
        simp
        omega
      rw [hoEq]
      simp only [List.cons_append, List.append_assoc, List.singleton_append]
      have hsw := skipWs_append_cons p 34
        (escBytes k ++ (34 :: (58 :: 32 :: (jsonBytes v ++ 125 :: rest)))) hp rfl
      have hpsb := parseStrBody_escBytes k f2 (58 :: 32 :: (jsonBytes v ++ 125 :: rest))
        hkcs (by omega)
      have hpv := parseVal_spec v f2 [32] (125 :: rest) hparts.1.1.2 rfl rfl (by omega)
      simp only [List.cons_append, List.nil_append] at hpv
      simp [hsw, hpsb, hpv, skipWs, wsb]
    | ocons k2 v2 tl2 =>
      have hoEq : objBytes (JObj.ocons k v (JObj.ocons k2 v2 tl2)) =
          34 :: ((escBytes k ++ [34]) ++
            (58 :: 32 :: (jsonBytes v ++ 44 :: 32 :: objBytes (JObj.ocons k2 v2 tl2)))) := by
        simp [objBytes, strBytes]
      have holen : (objBytes (JObj.ocons k v (JObj.ocons k2 v2 tl2))).length =
          (escBytes k).length + 6 + (jsonBytes v).length +
            (objBytes (JObj.ocons k2 v2 tl2)).length := by
        rw [hoEq]
        simp
        omega
      rw [hoEq]
      simp only [List.cons_append, List.append_assoc, List.singleton_append]
      have hsw := skipWs_append_cons p 34
        (escBytes k ++ (34 :: (58 :: 32 ::
          (jsonBytes v ++ (44 :: 32 :: (objBytes (JObj.ocons k2 v2 tl2) ++ 125 :: rest))))))
        hp rfl
      have hpsb := parseStrBody_escBytes k f2
        (58 :: 32 :: (jsonBytes v ++ (44 :: 32 ::
          (objBytes (JObj.ocons k2 v2 tl2) ++ 125 :: rest)))) hkcs (by omega)
      have hpv := parseVal_spec v f2 [32]
        (44 :: 32 :: (objBytes (JObj.ocons k2 v2 tl2) ++ 125 :: rest)) hparts.1.1.2 rfl rfl
        (by omega)
      simp only [List.cons_append, List.nil_append] at hpv
      have hrec := parseMembers_spec (JObj.ocons k2 v2 tl2) f2 [32] rest hparts.2
        (by intro hcon; cases hcon) rfl (by omega)
      simp only [List.cons_append, List.nil_append] at hrec
      simp [hsw, hpsb, hpv, hrec, skipWs, wsb]

end

end Json

namespace Json

/-- Parsing inverts printing on well-formed values. -/
theorem jsonLoads_jsonBytes (v : JVal) (h : jwf v = true) :
    jsonLoads (jsonBytes v) = some v := by
  unfold jsonLoads
  have hpv := parseVal_spec v ((jsonBytes v).length + 1) [] [] h rfl rfl (by omega)
  simp only [List.nil_append, List.append_nil] at hpv
  simp [hpv, skipWs]

theorem hexDig_lt (d : Nat) (h : d < 16) : hexDig d < 256 := by
  by_cases h10 : d < 10
  · simp [hexDig, h10]
    omega
  · simp [hexDig, h10]
    omega

theorem charBytes_lt (c : Nat) (hc : c < 1114112) : ∀ b ∈ charBytes c, b < 256 := by
  intro b hb
  by_cases h1 : c = 34
  · simp [charBytes, h1] at hb
    omega
  by_cases h2 : c = 92
  · simp [charBytes, h1, h2] at hb
    omega
  by_cases h3 : c = 8
  · simp [charBytes, h1, h2, h3] at hb
    omega
  by_cases h4 : c = 9
  · simp [charBytes, h1, h2, h3, h4] at hb
    omega
  by_cases h5 : c = 10
  · simp [charBytes, h1, h2, h3, h4, h5] at hb
    omega
  by_cases h6 : c = 12
  · simp [charBytes, h1, h2, h3, h4, h5, h6] at hb
    omega
  by_cases h7 : c = 13
  · simp [charBytes, h1, h2, h3, h4, h5, h6, h7] at hb
    omega
  by_cases h8 : c < 32
  · have e1 : hexDig (c / 16) < 256 := hexDig_lt _ (by omega)
    have e2 : hexDig (c % 16) < 256 := hexDig_lt _ (by omega)
    simp [charBytes, h1, h2, h3, h4, h5, h6, h7, h8] at hb
    rcases hb with rfl | rfl | rfl | rfl | rfl | rfl <;> omega
  by_cases h9 : c < 128
  · simp [charBytes, h1, h2, h3, h4, h5, h6, h7, h8, h9] at hb
    omega
  by_cases h10 : c < 2048
  · simp [charBytes, h1, h2, h3, h4, h5, h6, h7, h8, h9, h10] at hb
    rcases hb with rfl | rfl <;> omega
  by_cases h11 : c < 65536
  · simp [charBytes, h1, h2, h3, h4, h5, h6, h7, h8, h9, h10, h11] at hb
    rcases hb with rfl | rfl | rfl <;> omega
  · simp [charBytes, h1, h2, h3, h4, h5, h6, h7, h8, h9, h10, h11] at hb
    rcases hb with rfl | rfl | rfl | rfl <;> omega

theorem escBytes_lt : ∀ cs : List Nat, (∀ c ∈ cs, cwfB c = true) →
    ∀ b ∈ escBytes cs, b < 256
  | [], _ => by simp [escBytes]
  | c :: tl, h => by
    intro b hb
    rw [escBytes, List.mem_append] at hb
    have hc : c < 1114112 := by
      have := h c (by simp)
      simp [cwfB] at this
      omega
    rcases hb with hb | hb
    · exact charBytes_lt c hc b hb
    · exact escBytes_lt tl (fun x hx => h x (by simp [hx])) b hb

theorem natBytes_lt (n : Nat) : ∀ b ∈ natBytes n, b < 256 := by
  intro b hb
  have := natBytes_digits n b hb
  omega

mutual

theorem jsonBytes_lt : ∀ v : JVal, jwf v = true → ∀ b ∈ jsonBytes v, b < 256
  | .jnull, _ => by
    intro b hb
    rw [show jsonBytes JVal.jnull = [110, 117, 108, 108] from rfl] at hb
    simp at hb
    omega
  | .jbool true, _ => by
    intro b hb
    rw [show jsonBytes (JVal.jbool true) = [116, 114, 117, 101] from rfl] at hb
    simp at hb
    omega
  | .jbool false, _ => by
    intro b hb
    rw [show jsonBytes (JVal.jbool false) = [102, 97, 108, 115, 101] from rfl] at hb
    simp at hb
    omega
  | .jint (Int.ofNat m), _ => by
    intro b hb
    rw [show jsonBytes (JVal.jint (Int.ofNat m)) = natBytes m from rfl] at hb
    exact natBytes_lt m b hb
  | .jint (Int.negSucc m), _ => by
    intro b hb
    rw [show jsonBytes (JVal.jint (Int.negSucc m)) = 45 :: natBytes (m + 1) from rfl] at hb
    rcases List.mem_cons.mp hb with rfl | hb
    · omega
    · exact natBytes_lt (m + 1) b hb
  | .jstr s, h => by
    intro b hb
    have hcs : ∀ c ∈ s, cwfB c = true := by
      simpa [jwf, swfB, List.all_eq_true] using h
    rw [show jsonBytes (JVal.jstr s) = 34 :: (escBytes s ++ [34]) from rfl] at hb
    rcases List.mem_cons.mp hb with rfl | hb
    · omega
    · rcases List.mem_append.mp hb with hb | hb
      · exact escBytes_lt s hcs b hb
      · simp at hb
        omega
  | .jarr JArr.anil, _ => by
    intro b hb
    rw [show jsonBytes (JVal.jarr JArr.anil) = [91, 93] from rfl] at hb
    simp at hb
    omega
  | .jarr (JArr.acons v tl), h => by
    intro b hb
    have ha : awf (JArr.acons v tl) = true := by simpa [jwf] using h
    rw [show jsonBytes (JVal.jarr (JArr.acons v tl)) =
      91 :: (arrBytes (JArr.acons v tl) ++ [93]) from rfl] at hb
    rcases List.mem_cons.mp hb with rfl | hb
    · omega
    · rcases List.mem_append.mp hb with hb | hb
      · exact arrBytes_lt (JArr.acons v tl) ha b hb
      · simp at hb
        omega
  | .jobj JObj.onil, _ => by
    intro b hb
    rw [show jsonBytes (JVal.jobj JObj.onil) = [123, 125] from rfl] at hb
    simp at hb
    omega
  | .jobj (JObj.ocons k v tl), h => by
    intro b hb
    have ho : owf (JObj.ocons k v tl) = true := by simpa [jwf] using h
    rw [show jsonBytes (JVal.jobj (JObj.ocons k v tl)) =
      123 :: (objBytes (JObj.ocons k v tl) ++ [125]) from rfl] at hb
    rcases List.mem_cons.mp hb with rfl | hb
    · omega
    · rcases List.mem_append.mp hb with hb | hb
      · exact objBytes_lt (JObj.ocons k v tl) ho b hb
      · simp at hb
        omega

theorem arrBytes_lt : ∀ a : JArr, awf a = true → ∀ b ∈ arrBytes a, b < 256
  | JArr.anil, _ => by simp [arrBytes]
  | JArr.acons v JArr.anil, h => by
    intro b hb
    have hv : jwf v = true := by
      simpa [awf, Bool.and_eq_true] using h
    rw [show arrBytes (JArr.acons v JArr.anil) = jsonBytes v from rfl] at hb
    exact jsonBytes_lt v hv b hb
  | JArr.acons v (JArr.acons v2 tl2), h => by
    intro b hb
    have hva : jwf v = true ∧ awf (JArr.acons v2 tl2) = true := by
      simpa [awf, Bool.and_eq_true] using h
    rw [show arrBytes (JArr.acons v (JArr.acons v2 tl2)) =
      jsonBytes v ++ 44 :: 32 :: arrBytes (JArr.acons v2 tl2) from rfl] at hb
    rcases List.mem_append.mp hb with hb | hb
    · exact jsonBytes_lt v hva.1 b hb
    · rcases List.mem_cons.mp hb with rfl | hb
      · omega
      · rcases List.mem_cons.mp hb with rfl | hb
        · omega
        · exact arrBytes_lt (JArr.acons v2 tl2) hva.2 b hb

theorem objBytes_lt : ∀ o : JObj, owf o = true → ∀ b ∈ objBytes o, b < 256
  | JObj.onil, _ => by simp [objBytes]
  | JObj.ocons k v JObj.onil, h => by
    intro b hb
    have hparts : (swfB k = true ∧ jwf v = true) ∧ keyMem k JObj.onil = false := by
      simpa [owf, Bool.and_eq_true, Bool.not_eq_true'] using h
    have hkcs : ∀ c ∈ k, cwfB c = true := by
      simpa [swfB, List.all_eq_true] using hparts.1.1
    rw [show objBytes (JObj.ocons k v JObj.onil) =
      (34 :: (escBytes k ++ [34])) ++ 58 :: 32 :: jsonBytes v from rfl] at hb
    rcases List.mem_append.mp hb with hb | hb
    · rcases List.mem_cons.mp hb with rfl | hb
      · omega
      · rcases List.mem_append.mp hb with hb | hb
        · exact escBytes_lt k hkcs b hb
        · simp at hb
          omega
    · rcases List.mem_cons.mp hb with rfl | hb
      · omega
      · rcases List.mem_cons.mp hb with rfl | hb
        · omega
        · exact jsonBytes_lt v hparts.1.2 b hb
  | JObj.ocons k v (JObj.ocons k2 v2 tl2), h => by
    intro b hb
    have hparts : ((swfB k = true ∧ jwf v = true) ∧ keyMem k (JObj.ocons k2 v2 tl2) = false) ∧
        owf (JObj.ocons k2 v2 tl2) = true := by
      simpa [owf, Bool.and_eq_true, Bool.not_eq_true'] using h
    have hkcs : ∀ c ∈ k, cwfB c = true := by
      simpa [swfB, List.all_eq_true] using hparts.1.1.1
    rw [show objBytes (JObj.ocons k v (JObj.ocons k2 v2 tl2)) =
      (34 :: (escBytes k ++ [34])) ++ 58 :: 32 ::
        (jsonBytes v ++ 44 :: 32 :: objBytes (JObj.ocons k2 v2 tl2)) from rfl] at hb
    rcases List.mem_append.mp hb with hb | hb
    · rcases List.mem_cons.mp hb with rfl | hb
      · omega
      · rcases List.mem_append.mp hb with hb | hb
        · exact escBytes_lt k hkcs b hb
        · simp at hb
          omega
    · rcases List.mem_cons.mp hb with rfl | hb
      · omega
      · rcases List.mem_cons.mp hb with rfl | hb
        · omega
        · rcases List.mem_append.mp hb with hb | hb
          · exact jsonBytes_lt v hparts.1.1.2 b hb
          · rcases List.mem_cons.mp hb with rfl | hb
            · omega
            · rcases List.mem_cons.mp hb with rfl | hb
              · omega
              · exact objBytes_lt (JObj.ocons k2 v2 tl2) hparts.2 b hb

end

end Json

namespace CryptoPrim

theorem le4_lt (n : Nat) : ∀ b ∈ le4 n, b < 256 := by
  intro b hb
  simp [le4] at hb
  rcases hb with rfl | rfl | rfl | rfl <;> omega

theorem md5_lt (msg : List Nat) : ∀ b ∈ md5 msg, b < 256 := by
  intro b hb
  simp only [md5, List.mem_append] at hb
  rcases hb with ((hb | hb) | hb) | hb <;> exact le4_lt _ b hb

theorem evp_kdf_key_lt (pw salt : List Nat) : ∀ b ∈ (evp_kdf pw salt).1, b < 256 := by
  intro b hb
  simp only [evp_kdf] at hb
  have hb2 := List.take_subset 32 _ hb
  rcases List.mem_append.mp hb2 with hb3 | hb3
  · rcases List.mem_append.mp hb3 with hb4 | hb4 <;> exact md5_lt _ b hb4
  · exact md5_lt _ b hb3

theorem evp_kdf_iv_lt (pw salt : List Nat) : ∀ b ∈ (evp_kdf pw salt).2, b < 256 := by
  intro b hb
  simp only [evp_kdf] at hb
  have hb2 := List.drop_subset 32 _ (List.take_subset 16 _ hb)
  rcases List.mem_append.mp hb2 with hb3 | hb3
  · rcases List.mem_append.mp hb3 with hb4 | hb4 <;> exact md5_lt _ b hb4
  · exact md5_lt _ b hb3

theorem stOf_wf {bs : List Nat} (h : ∀ b ∈ bs, b < 256) : AES.Wf (stOf bs) := by
  unfold stOf
  refine ⟨?_, ?_, ?_, ?_, ?_, ?_, ?_, ?_, ?_, ?_, ?_, ?_, ?_, ?_, ?_, ?_⟩ <;>
    exact AES.getD_pred (fun b => b < 256) bs 0 _ (by omega) h

end CryptoPrim

/-! ## `CryptoJSAES` (`src/backend/utils/crypto_js_compat.py`) -/

namespace CryptoJSAES

/-- The `b"Salted__"` OpenSSL header. -/
def SALTED : List Nat := [83, 97, 108, 116, 101, 100, 95, 95]

/-- `CryptoJSAES.encrypt`: JSON-serialise, PKCS7-pad, AES-256-CBC with
the EVP-derived key and IV, prepend `Salted__` and the salt, base64.
The salt is a parameter (the source draws it from
`get_random_bytes(8)`). -/
def encrypt (passphrase salt : List Nat) (data : Json.JVal) : List Char :=
  let plaintext := Json.jsonBytes data
  let ki := CryptoPrim.evp_kdf passphrase salt
  let keys := AES.expandKey ki.1
  let iv := CryptoPrim.stOf ki.2
  let padded := CryptoPrim.pkcs7Pad plaintext
  let ct := CryptoPrim.ofBlocks (CryptoPrim.cbcEnc keys iv (CryptoPrim.toBlocks padded))
  B64.b64encode (SALTED ++ salt ++ ct)

/-- `CryptoJSAES.decrypt`: base64-decode, check the `Salted__` prefix,
re-derive key and IV from the embedded salt, AES-256-CBC decrypt, strip
the PKCS7 pad (by final byte, unvalidated, as the source does), parse
the JSON.  Every failure path returns `none` (the source returns
`(False, None, msg)`). -/
def decrypt (passphrase : List Nat) (encrypted_b64 : List Char) : Option Json.JVal :=
  match B64.b64decode encrypted_b64 with
  | Option.none => Option.none
  | some encrypted =>
    if encrypted.take 8 = SALTED then
      let salt := (encrypted.drop 8).take 8
      let ct := encrypted.drop 16
      let ki := CryptoPrim.evp_kdf passphrase salt
      let keys := AES.expandKey ki.1
      let iv := CryptoPrim.stOf ki.2
      let padded := CryptoPrim.ofBlocks (CryptoPrim.cbcDec keys iv (CryptoPrim.toBlocks ct))
      match CryptoPrim.pkcs7Unpad padded with
      | some plaintext => Json.jsonLoads plaintext
      | Option.none => Option.none
    else Option.none

end CryptoJSAES

namespace CryptoJSAES

/-- C7: for every JSON-serialisable structured map (here: well-formed
JSON value with integer numbers) and every passphrase, decrypt of
encrypt succeeds and returns the original value; encrypt produces
base64 of `Salted__` + 8-byte salt + AES-256-CBC ciphertext keyed by
the one-iteration MD5 `EVP_BytesToKey` KDF. -/
theorem cryptojs_decrypt_encrypt (passphrase salt : List Nat) (data : Json.JVal)
    (hsalt : salt.length = 8) (hsaltb : ∀ b ∈ salt, b < 256)
    (hwf : Json.jwf data = true) :
    decrypt passphrase (encrypt passphrase salt data) = some data := by
  have hplain : ∀ b ∈ CryptoPrim.pkcs7Pad (Json.jsonBytes data), b < 256 :=
    CryptoPrim.pkcs7Pad_wf (Json.jsonBytes_lt data hwf)
  have hkeys : ∀ k ∈ AES.expandKey (CryptoPrim.evp_kdf passphrase salt).1, AES.Wf k :=
    AES.Wf_expandKey (CryptoPrim.evp_kdf_key_lt passphrase salt)
  have hiv : AES.Wf (CryptoPrim.stOf (CryptoPrim.evp_kdf passphrase salt).2) :=
    CryptoPrim.stOf_wf (CryptoPrim.evp_kdf_iv_lt passphrase salt)
  have hpb : ∀ st ∈ CryptoPrim.toBlocks (CryptoPrim.pkcs7Pad (Json.jsonBytes data)),
      AES.Wf st :=
    CryptoPrim.toBlocks_wf _ hplain
  have hctw : ∀ b ∈ CryptoPrim.ofBlocks
      (CryptoPrim.cbcEnc (AES.expandKey (CryptoPrim.evp_kdf passphrase salt).1)
        (CryptoPrim.stOf (CryptoPrim.evp_kdf passphrase salt).2)
        (CryptoPrim.toBlocks (CryptoPrim.pkcs7Pad (Json.jsonBytes data)))), b < 256 :=
    CryptoPrim.ofBlocks_wf _
      (CryptoPrim.cbcEnc_wf _ hkeys _ _ hiv hpb)
  have hfull : ∀ b ∈ SALTED ++ salt ++
      CryptoPrim.ofBlocks
        (CryptoPrim.cbcEnc (AES.expandKey (CryptoPrim.evp_kdf passphrase salt).1)
          (CryptoPrim.stOf (CryptoPrim.evp_kdf passphrase salt).2)
          (CryptoPrim.toBlocks (CryptoPrim.pkcs7Pad (Json.jsonBytes data)))), b < 256 := by
    intro b hb
    rcases List.mem_append.mp hb with hb | hb
    · rcases List.mem_append.mp hb with hb | hb
      · simp [SALTED] at hb
        omega
      · exact hsaltb b hb
    · exact hctw b hb
  have h1 : ∀ ct : List Nat, (SALTED ++ salt ++ ct).take 8 = SALTED := by
    intro ct
    rw [List.append_assoc]
    exact List.take_left' (by simp [SALTED])
  have h2 : ∀ ct : List Nat, ((SALTED ++ salt ++ ct).drop 8).take 8 = salt := by
    intro ct
    rw [List.append_assoc, List.drop_left' (by simp [SALTED])]
    exact List.take_left' hsalt
  have h3 : ∀ ct : List Nat, (SALTED ++ salt ++ ct).drop 16 = ct := by
    intro ct
    exact List.drop_left' (by simp [SALTED, List.length_append, hsalt])
  simp only [encrypt, decrypt]
  rw [B64.b64decode_b64encode _ hfull]
  simp only [h1, h2, h3, if_pos rfl]
  rw [CryptoPrim.toBlocks_ofBlocks,
    CryptoPrim.cbcDec_cbcEnc _ hkeys _ _ hiv hpb,
    CryptoPrim.ofBlocks_toBlocks _ (CryptoPrim.pkcs7Pad_length _),
    CryptoPrim.pkcs7Unpad_pkcs7Pad]
  exact Json.jsonLoads_jsonBytes data hwf

end CryptoJSAES

namespace CryptoJSAES

/-- Round-trip witness at the concrete map `{"a": 1}`, an 8-byte salt
and the passphrase `"k"`. -/
theorem cryptojs_decrypt_encrypt_witness :
    ([1, 2, 3, 4, 5, 6, 7, 8] : List Nat).length = 8 ∧
    (∀ b ∈ ([1, 2, 3, 4, 5, 6, 7, 8] : List Nat), b < 256) ∧
    Json.jwf (Json.JVal.jobj (Json.JObj.ocons [97] (Json.JVal.jint 1) Json.JObj.onil)) = true ∧
    decrypt [107]
      (encrypt [107] [1, 2, 3, 4, 5, 6, 7, 8]
        (Json.JVal.jobj (Json.JObj.ocons [97] (Json.JVal.jint 1) Json.JObj.onil))) =
      some (Json.JVal.jobj (Json.JObj.ocons [97] (Json.JVal.jint 1) Json.JObj.onil)) :=
  ⟨rfl, by decide, by decide,
    cryptojs_decrypt_encrypt [107] [1, 2, 3, 4, 5, 6, 7, 8]
      (Json.JVal.jobj (Json.JObj.ocons [97] (Json.JVal.jint 1) Json.JObj.onil))
      rfl (by decide) (by decide)⟩

end CryptoJSAES
